import Mathlib

/-!
# Intel MID SSP SPI controller driver: message pump, transfers, suspend, setup

A shallow embedding of `drivers/spi/intel_mid_ssp_spi.c`.

* The driver context `ssp_drv_context`, the SPI message, transfer and chip
  records are Lean structures; C functions become functions on the context.
* Everything the driver observes from outside (register reads, memory loads,
  DMA mapping results, descriptor preparation, scheduling of the asynchronous
  DMA completion) is read from an oracle `Env`, indexed by a counter `tick`
  that advances at every query.
* Everything the driver does to the outside (register accesses, chip-select
  calls, completion callbacks, DMA submissions) is appended to `trace`.
* Loops whose exit depends on the hardware take a fuel argument and return
  `none` when the fuel runs out (the C code would still be spinning or blocked).
* Pointers are natural numbers, `0` is `NULL`.
* What other contexts do while `intel_mid_ssp_spi_suspend` sleeps is a parameter of
  its model; `setup` takes the value of its function-level static as an argument and
  returns the new one.
-/

namespace IntelMidSsp

/-! ## Constants -/

/-- Linux errno `EINVAL`. -/
def EINVAL : Int := 22
/-- Linux errno `EINPROGRESS`. -/
def EINPROGRESS : Int := 115
/-- Linux errno `EBUSY`. -/
def EBUSY : Int := 16
/-- Linux errno `EAGAIN`. -/
def EAGAIN : Int := 11
/-- Linux errno `ENOMEM`. -/
def ENOMEM : Int := 12

/-- CPU identity returned by `intel_mid_identify_cpu()`. -/
inductive Cpu
  | TANGIER
  | ANNIEDALE
  | OTHER
  deriving DecidableEq, Repr

/-- Simulation platform returned by `intel_mid_identify_sim()`. -/
inductive Sim
  | NONE
  | VP
  | HVP
  deriving DecidableEq, Repr

/-- Constants and function-like macros of `linux/spi/intel_mid_ssp_spi.h`, of
`linux/spi/spi.h` (the `SPI_*` mode bits) and of the platform headers, none of which is
part of the sources; they are parameters of the model.  `ssp_timing_wr` is the
file-level static of the driver, set at probe time. -/
structure Defs where
  MAX_SPI_TRANSFER_SIZE : Nat
  MIN_BITS_PER_WORD : Nat
  MAX_BITS_PER_WORD : Nat
  SPI_FIFO_SIZE : Nat
  MAX_BITBANGING_LOOP : Nat
  MIN_EXIT_LATENCY : Nat
  PM_QOS_DEFAULT_VALUE : Nat
  SSCR0_EDSS : Nat
  SSCR0_DSS : Nat
  SSCR0_SSE : Nat
  SSCR0_SCR : Nat
  SSCR0_DataSize : Nat → Nat
  SSCR1_RFT : Nat
  SSCR1_RxTresh : Nat → Nat
  SSCR2_CLK_DEL_EN : Nat
  SSSR_RNE : Nat
  SSSR_TNF : Nat
  SSSR_TFL_MASK : Nat
  SSP_NOT_SYNC : Nat
  SRAM_RX_ADDR : Nat
  SRAM_TX_ADDR : Nat
  cpu : Cpu
  sim : Sim
  ssp_timing_wr : Bool
  size_t_bits : Nat
  DFLT_BITS_PER_WORD : Nat
  DFLT_FIFO_BURST_SIZE : Nat
  DFLT_TIMEOUT_VAL : Nat
  IMSS_FIFO_BURST_4 : Nat
  IMSS_FIFO_BURST_8 : Nat
  SSCR0_Motorola : Nat
  SSCR1_LBM : Nat
  SSCR1_SPO : Nat
  SSCR1_SPH : Nat
  SSCR1_TFT : Nat
  SSCR1_TxTresh : Nat → Nat
  SSCR1_TINTE : Nat
  SSCR1_RSRE : Nat
  SSCR1_TSRE : Nat
  SSCR1_TRAIL : Nat
  SSCR1_SFRMDIR : Nat
  SSCR1_SCLKDIR : Nat
  SSCR1_SCFR : Nat
  SSSR_ROR : Nat
  SSSR_TINT : Nat
  SSSR_TUR : Nat
  SPI_CPHA : Nat
  SPI_CPOL : Nat
  SPI_CS_HIGH : Nat

/-- Memory-mapped registers reached through the `read_*`/`write_*` accessors. -/
inductive Reg
  | SSCR0
  | SSCR1
  | SSCR2
  | SSSR
  | SSDR
  | SSTO
  | SSPSP
  | SSFS
  | I2CDATA
  | I2CCTRL
  deriving DecidableEq, Repr

/-- Externally visible actions of the driver, in the order they are performed. -/
inductive Event
  | reg_read (r : Reg) (v : Nat)
  | reg_write (r : Reg) (v : Nat)
  | cs_control (level : Nat)
  | msg_complete (context : Nat) (status : Int) (actual_length : Nat)
  | mem_store (addr : Nat) (width : Nat) (v : Nat)
  | memcpy_toio (len : Nat)
  | memcpy_fromio (len : Nat)
  | dma_map_single (tx_dir : Bool) (addr : Nat)
  | dma_unmap_single (tx_dir : Bool)
  | dma_sync (tx_dir : Bool)
  | dma_slave_config (tx_dir : Bool)
  | dma_submit (tx_dir : Bool) (len : Nat)
  | queue_complete_work
  | queue_poll_write
  | queue_pump_messages
  | pm_qos_update (v : Nat)
  | platform_pinmux
  | dma_request_channel (tx_dir : Bool)
  | dma_release_channel (tx_dir : Bool)
  deriving DecidableEq, Repr

/-- The `quirks` bit set of the driver context, one flag per `QUIRKS_*` bit. -/
structure Quirks where
  PLATFORM_MRST : Bool
  PLATFORM_MDFL : Bool
  PLATFORM_MRFL : Bool
  PLATFORM_BYT : Bool
  BIT_BANGING : Bool
  USE_PM_QOS : Bool
  SRAM_ADDITIONAL_CPY : Bool
  DMA_USE_NO_TRAIL : Bool
  SPI_SLAVE_CLOCK_MODE : Bool
  deriving DecidableEq, Repr

/-- The fields of `struct spi_transfer` the driver reads. -/
structure spi_transfer where
  tx_buf : Nat
  rx_buf : Nat
  len : Nat
  bits_per_word : Nat
  speed_hz : Nat
  cs_change : Bool
  deriving DecidableEq, Repr

/-- The per-chip runtime state `struct chip_data`; `cs_control` tells whether the
callback pointer is non-NULL. -/
structure chip_data where
  cr0 : Nat
  cr1 : Nat
  speed_hz : Nat
  timeout : Nat
  chip_select : Nat
  n_bytes : Nat
  bits_per_word : Nat
  dma_enabled : Bool
  cs_control : Bool
  deriving DecidableEq, Repr

/-- The fields of `struct intel_mid_ssp_spi_chip`, the board description a protocol
driver hangs on `spi->controller_data`, that `setup` reads; `cs_control` and
`platform_pinmux` tell whether the callback pointers are non-NULL. -/
structure intel_mid_ssp_spi_chip where
  burst_size : Nat
  timeout : Nat
  enable_loopback : Bool
  dma_enabled : Bool
  cs_control : Bool
  platform_pinmux : Bool
  deriving DecidableEq, Repr

/-- The fields of `struct spi_device` the driver reads; `ctldata` is the chip state
installed by `setup` and `controller_data` the board description (`none` is a NULL
pointer). -/
structure spi_device where
  bits_per_word : Nat
  mode : Nat
  max_speed_hz : Nat
  chip_select : Nat
  ctldata : Option chip_data
  controller_data : Option intel_mid_ssp_spi_chip
  deriving DecidableEq, Repr

/-- The fields of `struct spi_message` the driver uses; `complete` tells whether the
completion callback pointer is non-NULL and `context` is its argument. -/
structure spi_message where
  transfers : List spi_transfer
  spi : spi_device
  complete : Bool
  context : Nat
  status : Int
  actual_length : Nat
  deriving DecidableEq, Repr

/-- The four word-width strategies bound to `sspc->read` / `sspc->write`. -/
inductive Strategy
  | null
  | u8
  | u16
  | u32
  deriving DecidableEq, Repr

/-- What the driver observes from its surroundings.  Each query is indexed by the
value of `tick` at the time it is made.  `reg r i` is the value returned by a read of
register `r`; `load w a` is the `w`-byte value stored at address `a`; `map_tx` and
`map_rx` give the bus address returned by `dma_map_single` and whether
`dma_mapping_error` reports it; `prep_rx` and `prep_tx` tell whether
`device_prep_dma_memcpy` returns a descriptor; `bypass_dir_tx` is the value of the
uninitialised `direction` field in the bypass call of `dma_transfer`; `rx_cb_first`
orders the two DMA callbacks; `completes_early` tells whether the DMA completion runs
before `handle_message` resumes after `dma_transfer` (otherwise it runs when
`handle_message` blocks on the completion object); `writer_calls` is the number of
`write` calls the concurrent `poll_writer` work makes before the next `read` call of
`poll_transfer`; `kzalloc_ok` tells whether the allocation of the chip data in
`setup` succeeds; `dmac1_found`, `chan_rx` and `chan_tx` tell whether `pci_get_device`
and the two `dma_request_channel` calls of `intel_mid_ssp_spi_dma_init` succeed. -/
structure Env where
  reg : Reg → Nat → Nat
  load : Nat → Nat → Nat
  map_tx : Nat → Nat × Bool
  map_rx : Nat → Nat × Bool
  prep_rx : Nat → Bool
  prep_tx : Nat → Bool
  bypass_dir_tx : Nat → Bool
  rx_cb_first : Nat → Bool
  completes_early : Nat → Bool
  writer_calls : Nat → Nat
  kzalloc_ok : Nat → Bool
  dmac1_found : Nat → Bool
  chan_rx : Nat → Bool
  chan_tx : Nat → Bool

/-- The driver context `struct ssp_drv_context`, restricted to the fields used by the
message pump, the transfer state machine and `setup`, together with the bookkeeping of the
model: `msg_done` is the counter of the completion object, `rx_inflight`,
`tx_inflight` and `complete_work_queued` record asynchronous work that has been
started and has not run yet, `wr_pkg_len` is the local `pkg_len` of a running
`poll_writer` work, `submitted` lists the messages queued by `transfer`, `handled` the
messages passed to `handle_message`, and `finished` the messages as `handle_message`
left them, each in the order of the calls. -/
structure ssp_drv_context where
  quirks : Quirks
  cs_assert : Nat
  cs_control : Bool
  cs_change : Bool
  rx_fifo_threshold : Nat
  n_bytes : Nat
  read : Strategy
  write : Strategy
  tx : Nat
  rx : Nat
  tx_end : Nat
  rx_end : Nat
  len : Nat
  len_dma_rx : Nat
  len_dma_tx : Nat
  tx_dma : Nat
  rx_dma : Nat
  txdma_done : Bool
  rxdma_done : Bool
  dma_mapped : Bool
  dma_initialized : Bool
  clear_sr : Nat
  cr1_sig : Nat
  mask_sr : Nat
  cur_msg : Option spi_message
  queue : List spi_message
  suspended : Bool
  msg_done : Nat
  rx_inflight : Bool
  tx_inflight : Bool
  complete_work_queued : Bool
  wr_pkg_len : Nat
  submitted : List spi_message
  handled : List spi_message
  finished : List spi_message
  trace : List Event
  tick : Nat
  deriving DecidableEq, Repr

/-! ## Register access shim -/

/-- Append one event to the trace. -/
def emit (e : Event) (s : ssp_drv_context) : ssp_drv_context :=
  { s with trace := s.trace ++ [e] }

/-- Register read `read_XXX(reg)`: the value comes from the oracle. -/
def read_reg (env : Env) (r : Reg) (s : ssp_drv_context) : Nat × ssp_drv_context :=
  (env.reg r s.tick,
    { s with tick := s.tick + 1, trace := s.trace ++ [Event.reg_read r (env.reg r s.tick)] })

/-- Register write `write_XXX(v, reg)`. -/
def write_reg (r : Reg) (v : Nat) (s : ssp_drv_context) : ssp_drv_context :=
  emit (Event.reg_write r v) s

/-- Bitwise `a & ~m` on 32-bit values. -/
def and_not32 (a m : Nat) : Nat :=
  a &&& (0xFFFFFFFF ^^^ (m % 2 ^ 32))

/-- C logical negation `!x` of an integer. -/
def lnot (x : Nat) : Nat :=
  if x = 0 then 1 else 0

/-- Source: `is_tx_fifo_empty`. -/
def is_tx_fifo_empty (d : Defs) (env : Env) (s : ssp_drv_context) : Bool × ssp_drv_context :=
  let r := read_reg env Reg.SSSR s
  if (r.1 &&& d.SSSR_TFL_MASK) ≠ 0 ∨ (r.1 &&& d.SSSR_TNF) = 0 then (false, r.2) else (true, r.2)

/-- Source: `is_rx_fifo_empty`. -/
def is_rx_fifo_empty (d : Defs) (env : Env) (s : ssp_drv_context) : Bool × ssp_drv_context :=
  let r := read_reg env Reg.SSSR s
  (decide ((r.1 &&& d.SSSR_RNE) = 0), r.2)

/-- Source: `disable_interface`. -/
def disable_interface (d : Defs) (env : Env) (s : ssp_drv_context) : ssp_drv_context :=
  let r := read_reg env Reg.SSCR0 s
  write_reg Reg.SSCR0 (and_not32 r.1 d.SSCR0_SSE) r.2

/-- Source: `disable_triggers`. -/
def disable_triggers (env : Env) (s : ssp_drv_context) : ssp_drv_context :=
  let r := read_reg env Reg.SSCR1 s
  write_reg Reg.SSCR1 (and_not32 r.1 s.cr1_sig) r.2

/-- The `while` loop of `flush`; `rem` is `SPI_FIFO_SIZE + 1 - i`. -/
def flush_loop (d : Defs) (env : Env) : Nat → ssp_drv_context → ssp_drv_context
  | 0, s => (is_rx_fifo_empty d env s).2
  | rem + 1, s =>
    let e := is_rx_fifo_empty d env s
    if e.1 then e.2 else flush_loop d env rem (read_reg env Reg.SSDR e.2).2

/-- Source: `flush`. -/
def flush (d : Defs) (env : Env) (s : ssp_drv_context) : ssp_drv_context :=
  let e := is_tx_fifo_empty d env s
  if e.1 = false then disable_interface d env e.2
  else flush_loop d env (d.SPI_FIFO_SIZE + 1) e.2

/-! ## Word-width strategies -/

/-- The common body of the four writers: the status register is read, nothing is
written when the TX FIFO level field is all ones or the source is exhausted, otherwise
one unit `v` goes to the data register and `tx` advances by `stride`. -/
def writer_body (d : Defs) (env : Env) (stride : Nat) (v : ssp_drv_context → Nat)
    (s : ssp_drv_context) : Nat × ssp_drv_context :=
  let r := read_reg env Reg.SSSR s
  if (r.1 &&& d.SSSR_TFL_MASK) = d.SSSR_TFL_MASK ∨ r.2.tx = r.2.tx_end then (0, r.2)
  else (stride, { write_reg Reg.SSDR (v r.2) r.2 with tx := r.2.tx + stride })

/-- Source: `null_writer`. -/
def null_writer (d : Defs) (env : Env) (s : ssp_drv_context) : Nat × ssp_drv_context :=
  writer_body d env s.n_bytes (fun _ => 0) s

/-- Source: `u8_writer`. -/
def u8_writer (d : Defs) (env : Env) (s : ssp_drv_context) : Nat × ssp_drv_context :=
  writer_body d env 1 (fun c => env.load 1 c.tx) s

/-- Source: `u16_writer`. -/
def u16_writer (d : Defs) (env : Env) (s : ssp_drv_context) : Nat × ssp_drv_context :=
  writer_body d env 2 (fun c => env.load 2 c.tx) s

/-- Source: `u32_writer`. -/
def u32_writer (d : Defs) (env : Env) (s : ssp_drv_context) : Nat × ssp_drv_context :=
  writer_body d env 4 (fun c => env.load 4 c.tx) s

/-- The call `sspc->write(sspc)` through the function pointer. -/
def call_write (d : Defs) (env : Env) (s : ssp_drv_context) : Nat × ssp_drv_context :=
  match s.write with
  | Strategy.null => null_writer d env s
  | Strategy.u8 => u8_writer d env s
  | Strategy.u16 => u16_writer d env s
  | Strategy.u32 => u32_writer d env s

/-- Unsigned subtraction `a - b` on `size_t`. -/
def size_sub (d : Defs) (a b : Nat) : Nat :=
  (a + 2 ^ d.size_t_bits - b % 2 ^ d.size_t_bits) % 2 ^ d.size_t_bits

/-- One iteration of the body of a reader loop: a word is pulled from the data
register, stored at `rx` when `width` is given, and `rx` advances by `stride`. -/
def reader_pull (env : Env) (stride : Nat) (width : Option Nat) (s : ssp_drv_context) :
    ssp_drv_context :=
  let v := read_reg env Reg.SSDR s
  let s2 := match width with
    | none => v.2
    | some w => emit (Event.mem_store v.2.rx w v.1) v.2
  { s2 with rx := s2.rx + stride }

/-- The `while` loop shared by the four readers, with the local `pkg_len`: while the
status register reports a non-empty RX FIFO and `pkg_len > 0`, one word is pulled and
`pkg_len` decreases by `stride`. -/
def reader_loop (d : Defs) (env : Env) (stride : Nat) (width : Option Nat) :
    Nat → Nat → ssp_drv_context → Option ssp_drv_context
  | 0, _, _ => none
  | fuel + 1, pkg_len, s =>
    let r := read_reg env Reg.SSSR s
    if (r.1 &&& d.SSSR_RNE) ≠ 0 ∧ 0 < pkg_len then
      reader_loop d env stride width fuel (size_sub d pkg_len stride)
        (reader_pull env stride width r.2)
    else some r.2

/-- The result `sspc->rx == sspc->rx_end` of a reader, after its loop. -/
def reader_result (o : Option ssp_drv_context) : Option (Bool × ssp_drv_context) :=
  o.map (fun s => (decide (s.rx = s.rx_end), s))

/-- Source: `null_reader`. -/
def null_reader (d : Defs) (env : Env) (fuel : Nat) (s : ssp_drv_context) :
    Option (Bool × ssp_drv_context) :=
  reader_result (reader_loop d env s.n_bytes none fuel s.len s)

/-- Source: `u8_reader`. -/
def u8_reader (d : Defs) (env : Env) (fuel : Nat) (s : ssp_drv_context) :
    Option (Bool × ssp_drv_context) :=
  reader_result (reader_loop d env 1 (some 1) fuel s.len s)

/-- Source: `u16_reader`. -/
def u16_reader (d : Defs) (env : Env) (fuel : Nat) (s : ssp_drv_context) :
    Option (Bool × ssp_drv_context) :=
  reader_result (reader_loop d env 2 (some 2) fuel s.len s)

/-- Source: `u32_reader`. -/
def u32_reader (d : Defs) (env : Env) (fuel : Nat) (s : ssp_drv_context) :
    Option (Bool × ssp_drv_context) :=
  reader_result (reader_loop d env 4 (some 4) fuel s.len s)

/-- The call `sspc->read(sspc)` through the function pointer. -/
def call_read (d : Defs) (env : Env) (fuel : Nat) (s : ssp_drv_context) :
    Option (Bool × ssp_drv_context) :=
  match s.read with
  | Strategy.null => null_reader d env fuel s
  | Strategy.u8 => u8_reader d env fuel s
  | Strategy.u16 => u16_reader d env fuel s
  | Strategy.u32 => u32_reader d env fuel s

/-! ## Polled path -/

/-- Apply `f` to the message `sspc->cur_msg` points to. -/
def upd_msg (f : spi_message → spi_message) (s : ssp_drv_context) : ssp_drv_context :=
  { s with cur_msg := s.cur_msg.map f }

/-- Source: `poll_writer`, run for at most `k` iterations of its loop
`while (pkg_len > 0) { ret = sspc->write(sspc); pkg_len -= ret; }`; the local
`pkg_len` is kept in `wr_pkg_len`. -/
def poll_writer (d : Defs) (env : Env) : Nat → ssp_drv_context → ssp_drv_context
  | 0, s => s
  | k + 1, s =>
    if 0 < s.wr_pkg_len then
      let w := call_write d env s
      poll_writer d env k { w.2 with wr_pkg_len := size_sub d w.2.wr_pkg_len w.1 }
    else s

/-- Source: `poll_transfer_complete`. -/
def poll_transfer_complete (s : ssp_drv_context) : ssp_drv_context :=
  upd_msg (fun m => { m with
    actual_length := Int.toNat ((m.actual_length : Int) + ((s.len : Int) - ((s.rx_end : Int) - (s.rx : Int)))),
    status := 0 }) s

/-- Source: `poll_transfer`.  The loop `while (!sspc->read(sspc)) cpu_relax();` runs
while the `poll_writer` work queued just before makes progress on its own thread:
before each `read` call the writer performs the number of `write` calls the oracle
gives. -/
def poll_transfer (d : Defs) (env : Env) : Nat → ssp_drv_context → Option ssp_drv_context
  | 0, _ => none
  | fuel + 1, s =>
    match call_read d env fuel (poll_writer d env (env.writer_calls s.tick) s) with
    | none => none
    | some (true, s1) => some (poll_transfer_complete s1)
    | some (false, s1) => poll_transfer d env fuel s1

/-! ## DMA path -/

/-- Modelled from the spec: the macro `TRUNCATE(x, a)` of the absent header
`linux/spi/intel_mid_ssp_spi.h`, which the spec describes as truncating the length
"down to a threshold-aligned boundary": the largest multiple of `a` not above `x`. -/
def TRUNCATE (x a : Nat) : Nat :=
  x - x % a

/-- The C expression `len & ~(4 - 1)`: `len` with its two low bits cleared. -/
def clear_low2 (len : Nat) : Nat :=
  len - len % 4

/-- Source: `unmap_dma_buffers`. -/
def unmap_dma_buffers (s : ssp_drv_context) : ssp_drv_context :=
  if s.dma_mapped = false then s
  else { emit (Event.dma_unmap_single true) (emit (Event.dma_unmap_single false) s) with
          dma_mapped := false }

/-- One `dma_map_single` call of `map_dma_buffers` with its `dma_mapping_error`
check: the bus address is stored in `tx_dma` or `rx_dma`; the flag is the error. -/
def map_single (env : Env) (tx_dir : Bool) (s : ssp_drv_context) : Bool × ssp_drv_context :=
  if tx_dir then
    ((env.map_tx s.tick).2,
      { emit (Event.dma_map_single true (env.map_tx s.tick).1) s with
          tx_dma := (env.map_tx s.tick).1, tick := s.tick + 1 })
  else
    ((env.map_rx s.tick).2,
      { emit (Event.dma_map_single false (env.map_rx s.tick).1) s with
          rx_dma := (env.map_rx s.tick).1, tick := s.tick + 1 })

/-- The SRAM staging branch of `map_dma_buffers`. -/
def sram_stage (d : Defs) (s : ssp_drv_context) : ssp_drv_context :=
  { emit (Event.memcpy_toio s.len) s with rx_dma := d.SRAM_RX_ADDR, tx_dma := d.SRAM_TX_ADDR }

/-- Source: `map_dma_buffers`; the first component is the returned `int`. -/
def map_dma_buffers (d : Defs) (env : Env) (s : ssp_drv_context) : Nat × ssp_drv_context :=
  if s.dma_mapped then (0, s)
  else if s.quirks.SRAM_ADDITIONAL_CPY then (1, sram_stage d s)
  else
    let a := map_single env true s
    if a.1 then (0, a.2)
    else
      let b := map_single env false a.2
      if b.1 then (0, emit (Event.dma_unmap_single true) b.2)
      else (1, b.2)

/-- The direction-specific head of `intel_mid_ssp_spi_dma_done`: the buffer is
synchronised for the CPU and the done flag of the direction is set. -/
def dma_mark_done (tx_dir : Bool) (s : ssp_drv_context) : ssp_drv_context :=
  if tx_dir then { emit (Event.dma_sync true) s with txdma_done := true }
  else emit (Event.dma_sync false) { s with rxdma_done := true }

/-- The shared post-processing of `intel_mid_ssp_spi_dma_done`: status clear, trigger
disable, buffer unmap, queueing of the completion work. -/
def dma_post (env : Env) (s : ssp_drv_context) : ssp_drv_context :=
  let s3 := unmap_dma_buffers (disable_triggers env (write_reg Reg.SSSR s.clear_sr s))
  { emit Event.queue_complete_work s3 with complete_work_queued := true }

/-- Source: `intel_mid_ssp_spi_dma_done`, for the callback parameter of direction
`tx_dir` (`true` is `TX_DIRECTION`). -/
def intel_mid_ssp_spi_dma_done (env : Env) (tx_dir : Bool) (s : ssp_drv_context) :
    ssp_drv_context :=
  let s1 := dma_mark_done tx_dir s
  if s1.txdma_done && s1.rxdma_done then dma_post env s1 else s1

/-- The DMA lengths computed by `dma_transfer`: `(len_dma_rx, len_dma_tx)`. -/
def dma_lengths (s : ssp_drv_context) : Nat × Nat :=
  if s.quirks.DMA_USE_NO_TRAIL then
    if s.rx_dma ≠ 0 ∧ clear_low2 s.len > s.rx_fifo_threshold * s.n_bytes then
      (TRUNCATE (clear_low2 s.len) (s.rx_fifo_threshold * s.n_bytes),
       TRUNCATE (clear_low2 s.len) (s.rx_fifo_threshold * s.n_bytes))
    else (clear_low2 s.len, clear_low2 s.len)
  else if s.rx_dma ≠ 0 then (s.len, s.len)
  else (s.len_dma_rx, s.len_dma_tx)

/-- First block of `dma_transfer`: the done flags of the mapped directions are
cleared. -/
def dma_reset_done (s : ssp_drv_context) : ssp_drv_context :=
  { s with txdma_done := if s.tx_dma ≠ 0 then false else s.txdma_done,
           rxdma_done := if s.rx_dma ≠ 0 then false else s.rxdma_done }

/-- Second block of `dma_transfer`: the DMA lengths are stored. -/
def dma_set_lengths (s : ssp_drv_context) : ssp_drv_context :=
  { s with len_dma_rx := (dma_lengths s).1, len_dma_tx := (dma_lengths s).2 }

/-- Third block of `dma_transfer`: the RX channel is configured and its descriptor
prepared; the flag tells whether `rxdesc` is non-NULL. -/
def dma_prep_rx (env : Env) (s : ssp_drv_context) : Bool × ssp_drv_context :=
  let s3 := emit (Event.dma_sync false) (emit (Event.dma_slave_config false) s)
  (env.prep_rx s3.tick,
    { s3 with tick := s3.tick + 1,
              rxdma_done := if env.prep_rx s3.tick then s3.rxdma_done else true })

/-- Fourth block of `dma_transfer`, for a non-NULL `tx_dma`: the TX descriptor is
prepared; the flag tells whether `txdesc` is non-NULL. -/
def dma_prep_tx (env : Env) (s : ssp_drv_context) : Bool × ssp_drv_context :=
  (env.prep_tx s.tick,
    { s with tick := s.tick + 1,
             txdma_done := if env.prep_tx s.tick then s.txdma_done else true })

/-- Submission of one prepared descriptor (`tx_submit`); its callback runs later. -/
def dma_submit (tx_dir : Bool) (s : ssp_drv_context) : ssp_drv_context :=
  if tx_dir then { emit (Event.dma_submit true s.len_dma_tx) s with tx_inflight := true }
  else { emit (Event.dma_submit false s.len_dma_rx) s with rx_inflight := true }

/-- Last block of `dma_transfer`: the prepared descriptors are submitted, or, when
there is none, `intel_mid_ssp_spi_dma_done` is called directly. -/
def dma_fire (env : Env) (rxdesc txdesc : Bool) (s : ssp_drv_context) : ssp_drv_context :=
  if rxdesc || txdesc then
    let s7 := if rxdesc then dma_submit false s else s
    if txdesc then dma_submit true s7 else s7
  else
    intel_mid_ssp_spi_dma_done env (env.bypass_dir_tx s.tick) { s with tick := s.tick + 1 }

/-- Source: `dma_transfer`.  Descriptors that were prepared are submitted and recorded
in `rx_inflight` / `tx_inflight`; their callbacks run later. -/
def dma_transfer (env : Env) (s : ssp_drv_context) : ssp_drv_context :=
  let r := dma_prep_rx env (dma_set_lengths (dma_reset_done s))
  let s5 := emit (Event.dma_sync true) (emit (Event.dma_slave_config true) r.2)
  if s5.tx_dma ≠ 0 then
    let t := dma_prep_tx env s5
    dma_fire env r.1 t.1 t.2
  else s5

/-- The loop of `drain_trail`:
`while (tx < tx_end || rx < rx_end) { sspc->read(sspc); sspc->write(sspc); }`. -/
def drain_loop (d : Defs) (env : Env) : Nat → ssp_drv_context → Option ssp_drv_context
  | 0, _ => none
  | fuel + 1, s =>
    if s.tx < s.tx_end ∨ s.rx < s.rx_end then
      match call_read d env fuel s with
      | none => none
      | some r => drain_loop d env fuel (call_write d env r.2).2
    else some s

/-- The assignments of `drain_trail` before its loop: the cursors skip the part
covered by DMA, `len` becomes the trailing length and `actual_length` is set to the
DMA length. -/
def drain_start (s : ssp_drv_context) : ssp_drv_context :=
  upd_msg (fun m => { m with actual_length := s.len_dma_rx })
    { s with rx := s.rx + s.len_dma_rx, tx := s.tx + s.len_dma_tx,
             len := s.len - s.len_dma_rx }

/-- Source: `drain_trail`. -/
def drain_trail (d : Defs) (env : Env) (fuel : Nat) (s : ssp_drv_context) :
    Option ssp_drv_context :=
  if s.len ≠ s.len_dma_rx then drain_loop d env fuel (drain_start s)
  else some s

/-- Source: `sram_to_ddr_cpy`. -/
def sram_to_ddr_cpy (s : ssp_drv_context) : ssp_drv_context :=
  if s.quirks.DMA_USE_NO_TRAIL ∧ s.len > s.rx_fifo_threshold * s.n_bytes then
    emit (Event.memcpy_fromio (TRUNCATE s.len (s.rx_fifo_threshold * s.n_bytes))) s
  else emit (Event.memcpy_fromio s.len) s

/-- The call `if (sspc->cs_control) sspc->cs_control(sspc->cs_assert);`. -/
def cs_assert_call (s : ssp_drv_context) : ssp_drv_context :=
  if s.cs_control then emit (Event.cs_control s.cs_assert) s else s

/-- The call `if (sspc->cs_control) sspc->cs_control(!sspc->cs_assert);`. -/
def cs_deassert_call (s : ssp_drv_context) : ssp_drv_context :=
  if s.cs_control then emit (Event.cs_control (lnot s.cs_assert)) s else s

/-- Source: `complete(&sspc->msg_done)`. -/
def complete_msg_done (s : ssp_drv_context) : ssp_drv_context :=
  { s with msg_done := s.msg_done + 1 }

/-- Head of `int_transfer_complete`: the PM QoS update and the SRAM copy. -/
def itc_head (d : Defs) (s : ssp_drv_context) : ssp_drv_context :=
  let s1 := if s.quirks.USE_PM_QOS then emit (Event.pm_qos_update d.PM_QOS_DEFAULT_VALUE) s else s
  if s1.quirks.SRAM_ADDITIONAL_CPY then sram_to_ddr_cpy s1 else s1

/-- The bookkeeping of `int_transfer_complete`:
`cur_msg->status = 0; cur_msg->actual_length += sspc->len;`. -/
def itc_account (s : ssp_drv_context) : ssp_drv_context :=
  upd_msg (fun m => { m with status := 0, actual_length := m.actual_length + s.len }) s

/-- Source: `int_transfer_complete`. -/
def int_transfer_complete (d : Defs) (env : Env) (fuel : Nat) (s : ssp_drv_context) :
    Option ssp_drv_context :=
  match (if s.quirks.DMA_USE_NO_TRAIL then drain_trail d env fuel (itc_head d s)
         else some (write_reg Reg.SSTO 0 (itc_head d s))) with
  | none => none
  | some s3 => some (complete_msg_done (cs_deassert_call (itc_account s3)))

/-- The callback of one submitted descriptor, when it is still in flight. -/
def run_cb (env : Env) (tx_dir : Bool) (s : ssp_drv_context) : ssp_drv_context :=
  if tx_dir then
    (if s.tx_inflight then intel_mid_ssp_spi_dma_done env true { s with tx_inflight := false }
     else s)
  else
    (if s.rx_inflight then intel_mid_ssp_spi_dma_done env false { s with rx_inflight := false }
     else s)

/-- The callbacks of the submitted descriptors, in the order the oracle gives. -/
def run_callbacks (env : Env) (s : ssp_drv_context) : ssp_drv_context :=
  if env.rx_cb_first s.tick then run_cb env true (run_cb env false { s with tick := s.tick + 1 })
  else run_cb env false (run_cb env true { s with tick := s.tick + 1 })

/-- The asynchronous part of a DMA transfer: the callbacks of the submitted
descriptors run, and the completion work queued by `intel_mid_ssp_spi_dma_done` runs
`int_transfer_complete` (`int_transfer_complete_work`). -/
def dma_completion (d : Defs) (env : Env) (fuel : Nat) (s : ssp_drv_context) :
    Option ssp_drv_context :=
  if (run_callbacks env s).complete_work_queued then
    int_transfer_complete d env fuel { run_callbacks env s with complete_work_queued := false }
  else some (run_callbacks env s)

/-- Source: `wait_for_completion(&sspc->msg_done)`.  When the counter is zero the
caller sleeps until the pending DMA completion signals it; with nothing pending it
sleeps for ever (`none`). -/
def wait_for_completion (d : Defs) (env : Env) (fuel : Nat) (s : ssp_drv_context) :
    Option ssp_drv_context :=
  if 0 < s.msg_done then some { s with msg_done := s.msg_done - 1 }
  else if s.rx_inflight || s.tx_inflight || s.complete_work_queued then
    match dma_completion d env fuel s with
    | none => none
    | some s1 => if 0 < s1.msg_done then some { s1 with msg_done := s1.msg_done - 1 } else none
  else none

/-- Source: `INIT_COMPLETION(sspc->msg_done)`. -/
def init_completion (s : ssp_drv_context) : ssp_drv_context :=
  { s with msg_done := 0 }

/-! ## Clock divider -/

/-- Conversion of a `u32` value to `int`. -/
def to_int (v : Nat) : Int :=
  if v % 2 ^ 32 < 2 ^ 31 then ((v % 2 ^ 32 : Nat) : Int) else ((v % 2 ^ 32 : Nat) : Int) - 2 ^ 32

/-- The kernel macro `clamp(val, lo, hi)`, that is `min(max(val, lo), hi)`. -/
def clamp (val lo hi : Int) : Int :=
  min (max val lo) hi

/-- Source: `ssp_get_clk_div`; `speed` is the `int` parameter.  A zero `speed` is a
division trap in C; the callers below do not reach this function with it. -/
def ssp_get_clk_div (q : Quirks) (speed : Int) : Nat :=
  if q.PLATFORM_MRFL then Int.toNat (clamp (Int.tdiv 25000000 speed - 1) 0 4095)
  else Int.toNat (clamp (Int.tdiv 100000000 speed - 1) 3 4095)

/-- Source: `ssp_get_speed`. -/
def ssp_get_speed (q : Quirks) (clk_div : Int) : Int :=
  if q.PLATFORM_MRFL then Int.tdiv 25000000 (clk_div + 1)
  else Int.tdiv 100000000 (clk_div + 1)

/-! ## Bit-banged clock synchronisation -/

/-- The loop of `start_bitbanging`; `rem` is `MAX_BITBANGING_LOOP - count`. -/
def bitbang_loop (env : Env) : Nat → Nat → ssp_drv_context → ssp_drv_context
  | 0, _, s => s
  | rem + 1, sssr, s =>
    if (sssr &&& 0x400000) ≠ 0 then
      let s1 := write_reg Reg.I2CCTRL 0x01070034 (write_reg Reg.I2CDATA 0x2 s)
      let s2 := write_reg Reg.I2CCTRL 0x01070034 (write_reg Reg.I2CDATA 0x3 s1)
      let r := read_reg env Reg.SSSR s2
      bitbang_loop env rem r.1 r.2
    else s

/-- Source: `start_bitbanging`; `chip` is the chip data of the current message. -/
def start_bitbanging (d : Defs) (env : Env) (chip : chip_data) (s : ssp_drv_context) :
    ssp_drv_context :=
  let r1 := read_reg env Reg.SSSR s
  let r2 := read_reg env Reg.SSCR0 r1.2
  let s1 := write_reg Reg.SSCR0 (and_not32 chip.cr0 d.SSCR0_SSE) r2.2
  let s2 := write_reg Reg.SSPSP 0x02010007 s1
  let s3 := write_reg Reg.SSCR0 chip.cr0 (write_reg Reg.SSTO chip.timeout s2)
  let s4 := write_reg Reg.I2CCTRL 0x01070034 (write_reg Reg.I2CDATA 0x3 s3)
  let s5 := write_reg Reg.I2CCTRL 0x01070038 (write_reg Reg.I2CDATA 0x00000099 s4)
  let r := read_reg env Reg.SSSR s5
  let s6 := bitbang_loop env d.MAX_BITBANGING_LOOP r.1 r.2
  write_reg Reg.I2CCTRL 0x01070038 (write_reg Reg.I2CDATA 0x0 s6)

/-! ## Message handling -/

/-- The locals of `handle_message` that live across the iterations of its loop. -/
structure hm_locals where
  chip : chip_data
  saved_cr0 : Nat
  saved_cr1 : Nat
  saved_bits_per_word : Nat
  saved_speed_hz : Nat
  timeout : Nat
  chip_select : Nat
  dma_enabled : Bool
  mask : Nat
  normal_enabled : Bool
  deriving DecidableEq, Repr

/-- How one iteration of the transfer loop of `handle_message` ends: with a `return`
from the function, or by falling through to the next iteration. -/
inductive step_result
  | returned (s : ssp_drv_context)
  | next (lc : hm_locals) (s : ssp_drv_context)
  deriving DecidableEq, Repr

/-- The call `if (msg->complete) msg->complete(msg->context);`. -/
def call_complete (s : ssp_drv_context) : ssp_drv_context :=
  match s.cur_msg with
  | none => s
  | some m => if m.complete then emit (Event.msg_complete m.context m.status m.actual_length) s else s

/-- The rejection sequence repeated three times in `handle_message`:
`msg->status = -EINVAL; if (msg->complete) msg->complete(msg->context);
complete(&sspc->msg_done); return 0;`. -/
def reject (s : ssp_drv_context) : ssp_drv_context :=
  complete_msg_done (call_complete (upd_msg (fun m => { m with status := -EINVAL }) s))

/-- The word width `bits_per_word` resolved for a transfer. -/
def resolve_bits_per_word (lc : hm_locals) (t : spi_transfer) : Nat :=
  if t.bits_per_word ≠ 0 then t.bits_per_word else lc.saved_bits_per_word

/-- The value of `cr0` after the word-width resolution. -/
def resolve_cr0 (d : Defs) (lc : hm_locals) (t : spi_transfer) : Nat :=
  if t.bits_per_word ≠ 0 then
    (and_not32 lc.saved_cr0 (d.SSCR0_EDSS ||| d.SSCR0_DSS)) |||
      (d.SSCR0_DataSize (if t.bits_per_word > 16 then t.bits_per_word - 16 else t.bits_per_word)
        ||| (if t.bits_per_word > 16 then d.SSCR0_EDSS else 0))
  else lc.saved_cr0

/-- The value of `mask` after the consistency `if` chain; it keeps its previous value
when the width is above 32. -/
def resolve_mask (lc : hm_locals) (bpw : Nat) : Nat :=
  if bpw ≤ 8 then 0 else if bpw ≤ 16 then 1 else if bpw ≤ 32 then 3 else lc.mask

/-- The three checks at the head of the loop body: `true` when the transfer is
rejected. -/
def rejected (d : Defs) (lc : hm_locals) (t : spi_transfer) : Bool :=
  decide (t.len > d.MAX_SPI_TRANSFER_SIZE ∨ t.len = 0) ||
  decide (resolve_bits_per_word lc t < d.MIN_BITS_PER_WORD ∨
          resolve_bits_per_word lc t > d.MAX_BITS_PER_WORD) ||
  decide ((t.len &&& resolve_mask lc (resolve_bits_per_word lc t)) ≠ 0)

/-- The strategy binding `if` chain, on the context: `n_bytes`, `read`, `write`. -/
def bind_strategy (bpw : Nat) (s : ssp_drv_context) : ssp_drv_context :=
  if bpw ≤ 8 then { s with n_bytes := 1, read := Strategy.u8, write := Strategy.u8 }
  else if bpw ≤ 16 then { s with n_bytes := 2, read := Strategy.u16, write := Strategy.u16 }
  else if bpw ≤ 32 then { s with n_bytes := 4, read := Strategy.u32, write := Strategy.u32 }
  else s

/-- The strategy binding `if` chain, on the erratum flag `normal_enabled`: it is set
when the length is 8, 16 or 32 bytes for the stride class, and never cleared. -/
def bind_normal_enabled (lc : hm_locals) (t : spi_transfer) (bpw : Nat) : Bool :=
  if bpw ≤ 8 then (if t.len = 8 then true else lc.normal_enabled)
  else if bpw ≤ 16 then (if t.len = 16 then true else lc.normal_enabled)
  else if bpw ≤ 32 then (if t.len = 32 then true else lc.normal_enabled)
  else lc.normal_enabled

/-- The strategy binding `if` chain, on `cr0`: `SSCR0_EDSS` is set for widths above 16
unless `ssp_timing_wr` is set. -/
def bind_cr0 (d : Defs) (bpw cr0 : Nat) : Nat :=
  if bpw ≤ 16 then cr0
  else if bpw ≤ 32 then (if d.ssp_timing_wr then cr0 else cr0 ||| d.SSCR0_EDSS)
  else cr0

/-- The locals after the checks and the strategy binding of one iteration. -/
def next_locals (lc : hm_locals) (t : spi_transfer) : hm_locals :=
  { lc with mask := resolve_mask lc (resolve_bits_per_word lc t),
            normal_enabled := bind_normal_enabled lc t (resolve_bits_per_word lc t) }

/-- The assignments that load the transfer into the context. -/
def load_transfer (lc : hm_locals) (t : spi_transfer) (s : ssp_drv_context) : ssp_drv_context :=
  { s with tx := t.tx_buf, rx := t.rx_buf, len := t.len,
           cs_control := lc.chip.cs_control, cs_change := t.cs_change }

/-- The block `if (chip->dma_enabled) { sspc->dma_mapped = map_dma_buffers(sspc); ... }`
up to the assignment. -/
def map_for_chip (d : Defs) (env : Env) (lc : hm_locals) (s : ssp_drv_context) :
    ssp_drv_context :=
  if lc.chip.dma_enabled then
    { (map_dma_buffers d env s).2 with dma_mapped := decide ((map_dma_buffers d env s).1 ≠ 0) }
  else s

/-- The substitution of the null strategies and the end cursors. -/
def bind_ends (t : spi_transfer) (s : ssp_drv_context) : ssp_drv_context :=
  { s with write := if s.tx ≠ 0 then s.write else Strategy.null,
           read := if s.rx ≠ 0 then s.read else Strategy.null,
           tx_end := s.tx + t.len, rx_end := s.rx + t.len }

/-- The status clear before the registers are programmed. -/
def clear_status (d : Defs) (s : ssp_drv_context) : ssp_drv_context :=
  if d.cpu = Cpu.TANGIER ∨ d.cpu = Cpu.ANNIEDALE then
    if d.sim ≠ Sim.VP ∧ d.sim ≠ Sim.HVP then write_reg Reg.SSSR s.clear_sr s else s
  else write_reg Reg.SSSR s.clear_sr s

/-- The value of `cr1` written to `SSCR1`, and the `SSTO` write of the long-transfer
branch. -/
def program_cr1 (d : Defs) (lc : hm_locals) (s : ssp_drv_context) : ssp_drv_context :=
  let cr1 := lc.saved_cr1 ||| s.cr1_sig
  if s.quirks.DMA_USE_NO_TRAIL then
    if s.len / s.n_bytes ≤ s.rx_fifo_threshold then
      write_reg Reg.SSCR1
        ((and_not32 cr1 d.SSCR1_RFT) |||
          (d.SSCR1_RxTresh (clear_low2 s.len / s.n_bytes) &&& d.SSCR1_RFT)) s
    else write_reg Reg.SSCR1 cr1 (write_reg Reg.SSTO lc.timeout s)
  else write_reg Reg.SSCR1 cr1 s

/-- The speed `speed_hz` resolved for a transfer. -/
def resolve_speed_hz (lc : hm_locals) (t : spi_transfer) : Nat :=
  if t.speed_hz ≠ 0 then t.speed_hz else lc.saved_speed_hz

/-- The value of `cr0` with the clock divider of the speed folded in. -/
def cr0_with_clk (d : Defs) (q : Quirks) (speed_hz cr0 : Nat) : Nat :=
  (and_not32 cr0 d.SSCR0_SCR) ||| ((ssp_get_clk_div q (to_int speed_hz) &&& 0xFFF) <<< 8)

/-- The register reads of the bit-banging test
`(read_SSSR(reg) & SSP_NOT_SYNC) || !(read_SSCR0(reg) & SSCR0_SSE)`. -/
def sync_check (d : Defs) (env : Env) (s : ssp_drv_context) : Bool × ssp_drv_context :=
  if ((read_reg env Reg.SSSR s).1 &&& d.SSP_NOT_SYNC) ≠ 0 then (true, (read_reg env Reg.SSSR s).2)
  else (decide (((read_reg env Reg.SSCR0 (read_reg env Reg.SSSR s).2).1 &&& d.SSCR0_SSE) = 0),
        (read_reg env Reg.SSCR0 (read_reg env Reg.SSSR s).2).2)

/-- The clock-delay bit of `SSCR2`, chosen from the requested speed. -/
def clock_delay (d : Defs) (env : Env) (speed_hz : Nat) (s : ssp_drv_context) :
    ssp_drv_context :=
  if speed_hz > 6250000 then
    write_reg Reg.SSCR2 ((read_reg env Reg.SSCR2 s).1 ||| d.SSCR2_CLK_DEL_EN) (read_reg env Reg.SSCR2 s).2
  else
    write_reg Reg.SSCR2 (and_not32 (read_reg env Reg.SSCR2 s).1 d.SSCR2_CLK_DEL_EN)
      (read_reg env Reg.SSCR2 s).2

/-- The (re)start of the SSP with the control value `cr0`. -/
def restart_ssp (d : Defs) (cr0 : Nat) (s : ssp_drv_context) : ssp_drv_context :=
  if d.ssp_timing_wr then
    write_reg Reg.SSCR0 ((and_not32 cr0 d.SSCR0_SSE) ||| d.SSCR0_SSE)
      (write_reg Reg.SSCR0 (and_not32 cr0 d.SSCR0_SSE) (write_reg Reg.SSCR0 0x0000000F s))
  else write_reg Reg.SSCR0 cr0 s

/-- The clock programming and the (re)start of the SSP: either the bit-banged clock
synchronisation, or the clock-delay bit in `SSCR2` followed by the `SSCR0` writes. -/
def start_ssp (d : Defs) (env : Env) (lc : hm_locals) (speed_hz cr0_in : Nat)
    (s : ssp_drv_context) : ssp_drv_context :=
  if (sync_check d env s).1 && s.quirks.BIT_BANGING then
    start_bitbanging d env lc.chip (sync_check d env s).2
  else
    restart_ssp d (cr0_with_clk d s.quirks speed_hz cr0_in)
      (clock_delay d env speed_hz (sync_check d env s).2)

/-- The `SSFS` write made on Tangier. -/
def write_ssfs (d : Defs) (lc : hm_locals) (s : ssp_drv_context) : ssp_drv_context :=
  if d.cpu = Cpu.TANGIER then write_reg Reg.SSFS (1 <<< lc.chip_select) s else s

/-- The PM QoS request made before `dma_transfer`. -/
def pm_qos_request (d : Defs) (s : ssp_drv_context) : ssp_drv_context :=
  if s.quirks.USE_PM_QOS then emit (Event.pm_qos_update d.MIN_EXIT_LATENCY) s else s

/-- The call `queue_work(sspc->wq_poll_write, &sspc->poll_write)`: the writer work
starts with `pkg_len = sspc->len`. -/
def queue_poll_write (s : ssp_drv_context) : ssp_drv_context :=
  { emit Event.queue_poll_write s with wr_pkg_len := s.len }

/-- One query of the scheduling oracle. -/
def next_tick (s : ssp_drv_context) : ssp_drv_context :=
  { s with tick := s.tick + 1 }

/-- The DMA branch of the execution: `dma_transfer`, after which the completion runs
at once or is left pending, as the oracle tells. -/
def execute_dma (d : Defs) (env : Env) (fuel : Nat) (s : ssp_drv_context) :
    Option ssp_drv_context :=
  if env.completes_early (dma_transfer env (pm_qos_request d s)).tick then
    dma_completion d env fuel (next_tick (dma_transfer env (pm_qos_request d s)))
  else some (next_tick (dma_transfer env (pm_qos_request d s)))

/-- The polled branch of the execution:
`queue_work(...); poll_transfer(...); unmap_dma_buffers(sspc); complete(&sspc->msg_done);`. -/
def execute_poll (d : Defs) (env : Env) (fuel : Nat) (s : ssp_drv_context) :
    Option ssp_drv_context :=
  (poll_transfer d env fuel (queue_poll_write s)).map
    (fun s1 => complete_msg_done (unmap_dma_buffers s1))

/-- The execution branch `if (likely(dma_enabled) && (!normal_enabled))`. -/
def execute (d : Defs) (env : Env) (fuel : Nat) (lc : hm_locals) (s : ssp_drv_context) :
    Option ssp_drv_context :=
  if lc.dma_enabled && !lc.normal_enabled then execute_dma d env fuel s
  else execute_poll d env fuel s

/-- The block after the execution:
`if (list_is_last(...) || sspc->cs_change) { if (sspc->cs_control) sspc->cs_control(!sspc->cs_assert); }`. -/
def cs_restore (is_last : Bool) (s : ssp_drv_context) : ssp_drv_context :=
  if is_last || s.cs_change then cs_deassert_call s else s

/-- The loop body from `flush` to the mapping of the buffers. -/
def prepare (d : Defs) (env : Env) (lc : hm_locals) (t : spi_transfer) (s : ssp_drv_context) :
    ssp_drv_context :=
  map_for_chip d env lc
    (load_transfer lc t (bind_strategy (resolve_bits_per_word lc t) (flush d env s)))

/-- The loop body from the strategy substitution to the start of the SSP. -/
def program (d : Defs) (env : Env) (lc : hm_locals) (t : spi_transfer) (s : ssp_drv_context) :
    ssp_drv_context :=
  start_ssp d env lc (resolve_speed_hz lc t)
    (bind_cr0 d (resolve_bits_per_word lc t) (resolve_cr0 d lc t))
    (write_ssfs d lc (program_cr1 d lc (clear_status d (bind_ends t s))))

/-- The part of the loop body of `handle_message` that follows the three checks.  A
failed mapping returns from the function; a zero speed is a division trap (`none`). -/
def run_transfer (d : Defs) (env : Env) (fuel : Nat) (lc : hm_locals) (t : spi_transfer)
    (is_last : Bool) (s : ssp_drv_context) : Option step_result :=
  if lc.chip.dma_enabled ∧ (prepare d env lc t s).dma_mapped = false then
    some (step_result.returned (prepare d env lc t s))
  else if resolve_speed_hz lc t = 0 then none
  else
    (execute d env fuel (next_locals lc t)
        (cs_assert_call (program d env lc t (prepare d env lc t s)))).map
      (fun s9 => step_result.next (next_locals lc t) (cs_restore is_last s9))

/-- The loop body of `handle_message` after `wait_for_completion` and
`INIT_COMPLETION`. -/
def transfer_step (d : Defs) (env : Env) (fuel : Nat) (lc : hm_locals) (t : spi_transfer)
    (is_last : Bool) (s : ssp_drv_context) : Option step_result :=
  if rejected d lc t then some (step_result.returned (reject s))
  else run_transfer d env fuel lc t is_last s

/-- The loop `list_for_each_entry(transfer, &msg->transfers, transfer_list)` of
`handle_message`; the flag of the result tells whether the function returned from
inside the loop. -/
def handle_transfers (d : Defs) (env : Env) (fuel : Nat) :
    List spi_transfer → hm_locals → ssp_drv_context → Option (Bool × ssp_drv_context)
  | [], _, s => some (false, s)
  | t :: rest, lc, s =>
    match wait_for_completion d env fuel s with
    | none => none
    | some s1 =>
      match transfer_step d env fuel lc t rest.isEmpty (init_completion s1) with
      | none => none
      | some (step_result.returned s2) => some (true, s2)
      | some (step_result.next lc2 s2) => handle_transfers d env fuel rest lc2 s2

/-- The locals of `handle_message` as initialised before its loop. -/
def hm_init (msg : spi_message) (chip : chip_data) : hm_locals :=
  { chip := chip, saved_cr0 := chip.cr0, saved_cr1 := chip.cr1,
    saved_bits_per_word := msg.spi.bits_per_word, saved_speed_hz := chip.speed_hz,
    timeout := chip.timeout, chip_select := chip.chip_select,
    dma_enabled := chip.dma_enabled, mask := 0, normal_enabled := false }

/-- Source: `handle_message`.  A NULL `cur_msg` or chip pointer is a NULL dereference
(`none`). -/
def handle_message (d : Defs) (env : Env) (fuel : Nat) (s : ssp_drv_context) :
    Option ssp_drv_context :=
  match s.cur_msg with
  | none => none
  | some msg =>
    match msg.spi.ctldata with
    | none => none
    | some chip =>
      match handle_transfers d env fuel msg.transfers (hm_init msg chip)
          (complete_msg_done { s with cs_control := chip.cs_control }) with
      | none => none
      | some (true, s1) => some s1
      | some (false, s1) =>
        match wait_for_completion d env fuel s1 with
        | none => none
        | some s2 => some (call_complete s2)

/-! ## Message pump -/

/-- Source: `transfer`; the first component is the returned `int`. -/
def transfer (msg : spi_message) (s : ssp_drv_context) : Int × ssp_drv_context :=
  let m := { msg with actual_length := 0, status := -EINPROGRESS }
  let s1 := { s with queue := s.queue ++ [m], submitted := s.submitted ++ [m] }
  (0, if s1.suspended = false then emit Event.queue_pump_messages s1 else s1)

/-- What another context may do to the controller while the pump has released the
lock: submit a message through `transfer`, or write the `suspended` flag (as
`intel_mid_ssp_spi_suspend` and `intel_mid_ssp_spi_resume` do). -/
inductive Op
  | submit (msg : spi_message)
  | set_suspended (b : Bool)
  deriving DecidableEq, Repr

/-- Apply one concurrent operation. -/
def apply_op (s : ssp_drv_context) : Op → ssp_drv_context
  | Op.submit msg => (transfer msg s).2
  | Op.set_suspended b => { s with suspended := b }

/-- Source: the `while` loop of `pump_messages`.  `others i` lists the operations of
other contexts that take the lock while the `i`-th iteration (counted down by `fuel`)
runs `handle_message` unlocked. -/
def pump_loop (d : Defs) (env : Env) (others : Nat → List Op) :
    Nat → ssp_drv_context → Option ssp_drv_context
  | 0, _ => none
  | fuel + 1, s =>
    match s.queue with
    | [] => some s
    | msg :: rest =>
      if s.suspended then some s
      else
        match handle_message d env fuel
            { s with queue := rest, cur_msg := some msg, handled := s.handled ++ [msg] } with
        | none => none
        | some s1 =>
          let s2 := (others fuel).foldl apply_op s1
          pump_loop d env others fuel
            { s2 with finished := s2.finished ++ s2.cur_msg.toList, cur_msg := none }

/-- Source: `pump_messages`. -/
def pump_messages (d : Defs) (env : Env) (others : Nat → List Op) (fuel : Nat)
    (s : ssp_drv_context) : Option ssp_drv_context :=
  pump_loop d env others fuel s

/-! ## Sample platform, chips, messages and oracles used by the concrete evaluations -/

/-- A platform with the register layout of the PXA-style SSP block: 8192-byte
transfers at most, 4 to 32 bits per word, a 16-entry FIFO. -/
def sample_defs : Defs :=
  { MAX_SPI_TRANSFER_SIZE := 8192, MIN_BITS_PER_WORD := 4, MAX_BITS_PER_WORD := 32,
    SPI_FIFO_SIZE := 16, MAX_BITBANGING_LOOP := 10000, MIN_EXIT_LATENCY := 20,
    PM_QOS_DEFAULT_VALUE := 0,
    SSCR0_EDSS := 0x100000, SSCR0_DSS := 0xF, SSCR0_SSE := 0x80, SSCR0_SCR := 0xFFF00,
    SSCR0_DataSize := fun x => x - 1,
    SSCR1_RFT := 0x3C00, SSCR1_RxTresh := fun x => (x - 1) <<< 10,
    SSCR2_CLK_DEL_EN := 0x8,
    SSSR_RNE := 0x8, SSSR_TNF := 0x4, SSSR_TFL_MASK := 0xF00, SSP_NOT_SYNC := 0x400000,
    SRAM_RX_ADDR := 0xFFFD0000, SRAM_TX_ADDR := 0xFFFD2000,
    cpu := Cpu.OTHER, sim := Sim.NONE, ssp_timing_wr := false, size_t_bits := 32,
    DFLT_BITS_PER_WORD := 16, DFLT_FIFO_BURST_SIZE := 2, DFLT_TIMEOUT_VAL := 500,
    IMSS_FIFO_BURST_4 := 1, IMSS_FIFO_BURST_8 := 2,
    SSCR0_Motorola := 0, SSCR1_LBM := 0x4, SSCR1_SPO := 0x8, SSCR1_SPH := 0x10,
    SSCR1_TFT := 0x3C0, SSCR1_TxTresh := fun x => (x - 1) <<< 6,
    SSCR1_TINTE := 0x80000, SSCR1_RSRE := 0x100000, SSCR1_TSRE := 0x200000,
    SSCR1_TRAIL := 0x400000, SSCR1_SFRMDIR := 0x1000000, SSCR1_SCLKDIR := 0x2000000,
    SSCR1_SCFR := 0x10000000,
    SSSR_ROR := 0x80, SSSR_TINT := 0x80000, SSSR_TUR := 0x200000,
    SPI_CPHA := 0x1, SPI_CPOL := 0x2, SPI_CS_HIGH := 0x4 }

/-- Quirks of a Medfield controller after probe: only the no-trail DMA quirk. -/
def sample_quirks : Quirks :=
  { PLATFORM_MRST := false, PLATFORM_MDFL := true, PLATFORM_MRFL := false,
    PLATFORM_BYT := false, BIT_BANGING := false, USE_PM_QOS := false,
    SRAM_ADDITIONAL_CPY := false, DMA_USE_NO_TRAIL := true, SPI_SLAVE_CLOCK_MODE := false }

/-- An idle controller: empty queue, no current message, not suspended, RX threshold
`thr`, completion object not signalled, empty trace. -/
def idle_ctx (thr : Nat) : ssp_drv_context :=
  { quirks := sample_quirks, cs_assert := 0, cs_control := false, cs_change := false,
    rx_fifo_threshold := thr, n_bytes := 1, read := Strategy.null, write := Strategy.null,
    tx := 0, rx := 0, tx_end := 0, rx_end := 0, len := 0, len_dma_rx := 0, len_dma_tx := 0,
    tx_dma := 0, rx_dma := 0, txdma_done := true, rxdma_done := true, dma_mapped := false,
    dma_initialized := true,
    clear_sr := 0x200080 + 0x80000, cr1_sig := 0x300000 + 0x400000, mask_sr := 0x200080,
    cur_msg := none, queue := [], suspended := false, msg_done := 0,
    rx_inflight := false, tx_inflight := false, complete_work_queued := false,
    wr_pkg_len := 0, submitted := [], handled := [], finished := [], trace := [], tick := 0 }

/-- A configured chip with DMA enabled flag `dma`, a chip-select callback, 1 MHz. -/
def sample_chip (dma : Bool) : chip_data :=
  { cr0 := 0x87, cr1 := 0, speed_hz := 1000000, timeout := 0, chip_select := 0,
    n_bytes := 1, bits_per_word := 8, dma_enabled := dma, cs_control := true }

/-- A transfer of `len` bytes with word width `bpw`, both buffers present. -/
def sample_xfer (len bpw : Nat) (cs_change : Bool) : spi_transfer :=
  { tx_buf := 0x1000, rx_buf := 0x3000, len := len, bits_per_word := bpw, speed_hz := 0,
    cs_change := cs_change }

/-- A message for the sample chip, as `transfer` leaves it when it is submitted. -/
def sample_msg (dma : Bool) (context : Nat) (ts : List spi_transfer) : spi_message :=
  { transfers := ts,
    spi := { bits_per_word := 8, mode := 0, max_speed_hz := 1000000, chip_select := 0,
             ctldata := some (sample_chip dma), controller_data := none },
    complete := true, context := context, status := -EINPROGRESS, actual_length := 0 }

/-- An oracle for well-behaved hardware.  The status register reports a TX FIFO that
is neither full nor holding data, and a non-empty RX FIFO exactly at the queries whose
index lies in one of the half-open windows `w`; control registers read as enabled; DMA
mappings and descriptor preparations succeed; the concurrent writer work pushes up
to 64 units before each reader call; the DMA completion runs when `handle_message`
waits for it (`early = false`) or as soon as the descriptors are submitted. -/
def hw_env (w : List (Nat × Nat)) (early : Bool) : Env :=
  { reg := fun r i => match r with
      | Reg.SSSR => if w.any (fun p => decide (p.1 ≤ i ∧ i < p.2)) then 0xC else 0x4
      | Reg.SSCR0 => 0x87
      | _ => 0,
    load := fun _ _ => 0xA5,
    map_tx := fun _ => (0x10001000, false),
    map_rx := fun _ => (0x10003000, false),
    prep_rx := fun _ => true,
    prep_tx := fun _ => true,
    bypass_dir_tx := fun _ => true,
    rx_cb_first := fun _ => true,
    completes_early := fun _ => early,
    writer_calls := fun _ => 64,
    kzalloc_ok := fun _ => true,
    dmac1_found := fun _ => true,
    chan_rx := fun _ => true,
    chan_tx := fun _ => true }

/-- The oracle `hw_env` with a failing `dma_map_single` of the TX buffer. -/
def map_fail_env : Env :=
  { hw_env [] false with map_tx := fun _ => (0, true) }

/-- The controller with `msg` current, as `pump_messages` hands it to
`handle_message`. -/
def with_cur (thr : Nat) (msg : spi_message) : ssp_drv_context :=
  { idle_ctx thr with cur_msg := some msg, handled := [msg] }

/-! ## Observations on traces and messages -/

/-- Number of completion-callback invocations recorded in the trace. -/
def completions (s : ssp_drv_context) : Nat :=
  s.trace.countP (fun e => match e with
    | Event.msg_complete _ _ _ => true
    | _ => false)

/-- Number of chip-select calls that assert: `cs_control(sspc->cs_assert)`. -/
def cs_asserts (s : ssp_drv_context) : Nat :=
  s.trace.count (Event.cs_control s.cs_assert)

/-- Number of chip-select calls that deassert: `cs_control(!sspc->cs_assert)`. -/
def cs_deasserts (s : ssp_drv_context) : Nat :=
  s.trace.count (Event.cs_control (lnot s.cs_assert))

/-- Status of the current message. -/
def cur_status (s : ssp_drv_context) : Option Int :=
  s.cur_msg.map (fun m => m.status)

/-- The field `actual_length` of the current message. -/
def cur_actual_length (s : ssp_drv_context) : Option Nat :=
  s.cur_msg.map (fun m => m.actual_length)

/-- Events that touch the hardware: register accesses and chip-select calls. -/
def touches_hw : Event → Bool
  | Event.reg_read _ _ => true
  | Event.reg_write _ _ => true
  | Event.cs_control _ => true
  | _ => false

/-- Events issued by `dma_transfer` towards the DMA engine. -/
def is_dma_event : Event → Bool
  | Event.dma_slave_config _ => true
  | Event.dma_submit _ _ => true
  | _ => false

/-- Number of non-final transfers of a message that set `cs_change`. -/
def cs_change_count : List spi_transfer → Nat
  | [] => 0
  | [_] => 0
  | t :: u :: rest => (if t.cs_change then 1 else 0) + cs_change_count (u :: rest)

/-- The byte stride of a word width: 1 up to 8 bits, 2 up to 16 bits, 4 above. -/
def stride_of (bpw : Nat) : Nat :=
  if bpw ≤ 8 then 1 else if bpw ≤ 16 then 2 else 4

/-- The erratum length of a word width: 8, 16 or 32 bytes by stride class. -/
def erratum_len (bpw : Nat) : Nat :=
  if bpw ≤ 8 then 8 else if bpw ≤ 16 then 16 else 32

/-- Events of plain data movement: everything except chip-select calls, completion
callbacks and requests to the DMA engine. -/
def plain : Event → Bool
  | Event.cs_control _ => false
  | Event.msg_complete _ _ _ => false
  | Event.dma_slave_config _ => false
  | Event.dma_submit _ _ => false
  | _ => true

/-- Events other than chip-select calls and completion callbacks. -/
def no_cs : Event → Bool
  | Event.cs_control _ => false
  | Event.msg_complete _ _ _ => false
  | _ => true

/-- The context `s'` is `s` after data movement only: the cursors `tx` and `rx`, the
oracle counter, the writer's `pkg_len` may have changed and the plain events `l` were
appended to the trace; every other field is unchanged. -/
def io_only (s s' : ssp_drv_context) : Prop :=
  ∃ tx rx tick wr l, (∀ e ∈ l, plain e = true) ∧
    s' = { s with tx := tx, rx := rx, tick := tick, wr_pkg_len := wr, trace := s.trace ++ l }

/-- The context `s'` extends `s`: the fields that no transfer ever writes and the
chip-select callback and change flag are unchanged, and the events appended to the
trace all satisfy `P`. -/
def Ext (P : Event → Bool) (s s' : ssp_drv_context) : Prop :=
  s'.quirks = s.quirks ∧ s'.cs_assert = s.cs_assert ∧ s'.rx_fifo_threshold = s.rx_fifo_threshold ∧
  s'.queue = s.queue ∧ s'.suspended = s.suspended ∧ s'.submitted = s.submitted ∧
  s'.handled = s.handled ∧ s'.finished = s.finished ∧
  s'.cs_control = s.cs_control ∧ s'.cs_change = s.cs_change ∧
  ∃ l, s'.trace = s.trace ++ l ∧ ∀ e ∈ l, P e = true

/-- The context `s'` has the current message, the completion counter and the transfer
length of `s`. -/
def Same (s s' : ssp_drv_context) : Prop :=
  s'.cur_msg = s.cur_msg ∧ s'.msg_done = s.msg_done ∧ s'.len = s.len

/-- The context `s'` extends `s` and keeps its message and completion counter. -/
def Mech (P : Event → Bool) (s s' : ssp_drv_context) : Prop :=
  Ext P s s' ∧ Same s s'

/-- Chip-select accounting between two contexts: the polarity and the callback are
unchanged, `a` assert calls and `dd` deassert calls were added to the trace. -/
def Cnt (a dd : Nat) (s s' : ssp_drv_context) : Prop :=
  s'.cs_assert = s.cs_assert ∧ s'.cs_control = s.cs_control ∧
  cs_asserts s' = cs_asserts s + a ∧ cs_deasserts s' = cs_deasserts s + dd

/-- Number of chip-select calls one `if (sspc->cs_control) sspc->cs_control(..)`
makes: 1 with a callback, 0 without. -/
def cs_calls (s : ssp_drv_context) : Nat :=
  if s.cs_control then 1 else 0

/-- Deassert calls still to come from a pending DMA completion: when the completion
object has not been signalled, the completion handler has not run yet. -/
def owed (s : ssp_drv_context) : Nat :=
  if s.msg_done = 0 then cs_calls s else 0

/-- Number of transfers of a message that `handle_message` runs on the DMA path, from
the loop locals `lc`: DMA enabled and the erratum flag not yet set. -/
def dma_path_count : hm_locals → List spi_transfer → Nat
  | _, [] => 0
  | lc, t :: rest =>
    (if lc.dma_enabled && !(next_locals lc t).normal_enabled then 1 else 0) +
      dma_path_count (next_locals lc t) rest

/-- Number of deassert calls `handle_message` makes itself after the transfers of a
message: one per transfer that is last or sets `cs_change`. -/
def own_deasserts : List spi_transfer → Nat
  | [] => 0
  | t :: rest => (if rest.isEmpty || t.cs_change then 1 else 0) + own_deasserts rest

/-- Events other than completion callbacks. -/
def not_complete : Event → Bool
  | Event.msg_complete _ _ _ => false
  | _ => true

/-- The fields of the controller that no message handling writes: the queue, the
suspended flag, the logs of submitted, handled and finished messages, the quirks, the
RX threshold and the chip-select polarity are the same in `s` and `s'`. -/
def Static (s s' : ssp_drv_context) : Prop :=
  s'.queue = s.queue ∧ s'.suspended = s.suspended ∧ s'.submitted = s.submitted ∧
  s'.handled = s.handled ∧ s'.finished = s.finished ∧ s'.quirks = s.quirks ∧
  s'.rx_fifo_threshold = s.rx_fifo_threshold ∧ s'.cs_assert = s.cs_assert

/-- The static fields are unchanged and the trace of `s'` is the trace of `s` followed
by events that all satisfy `P`. -/
def Grow (P : Event → Bool) (s s' : ssp_drv_context) : Prop :=
  Static s s' ∧ ∃ l, s'.trace = s.trace ++ l ∧ ∀ e ∈ l, P e = true

/-- Every event. -/
def any_event : Event → Bool :=
  fun _ => true

/-- The context carried by the result of one loop iteration. -/
def step_result.ctx : step_result → ssp_drv_context
  | step_result.returned s => s
  | step_result.next _ s => s

/-- Whether the iteration fell through to the next one. -/
def step_result.is_next : step_result → Bool
  | step_result.returned _ => false
  | step_result.next _ _ => true

/-- Events other than requests to the DMA engine. -/
def not_dma : Event → Bool :=
  fun e => !is_dma_event e

/-- Scenario B: one transfer of 100 bytes in 32-bit words on a DMA-enabled chip. -/
def msg_dma_100 : spi_message :=
  sample_msg true 1 [sample_xfer 100 32 false]

/-- Two DMA transfers: 4 bytes in 8-bit words, then 100 bytes in 32-bit words. -/
def msg_two_dma : spi_message :=
  sample_msg true 2 [sample_xfer 4 8 false, sample_xfer 100 32 false]

/-- Two polled transfers of 4 bytes in 8-bit words, no `cs_change`, on a chip with DMA
disabled. -/
def msg_two_polled : spi_message :=
  sample_msg false 3 [sample_xfer 4 8 false, sample_xfer 4 8 false]

/-- Scenario A: one transfer of 8 bytes in 8-bit words on a DMA-enabled chip. -/
def msg_erratum : spi_message :=
  sample_msg true 4 [sample_xfer 8 8 false]

/-- A context as `dma_transfer` finds it for scenario B: 100 bytes, stride 4, RX
threshold 4, both buffers mapped. -/
def dma_ctx_100 : ssp_drv_context :=
  { idle_ctx 4 with len := 100, n_bytes := 4, rx_dma := 0x10003000, tx_dma := 0x10001000 }

/-- The context at the head of the loop body of `handle_message` for the message
`msg`: the chip-select callback is loaded and the completion object is clear. -/
def loop_entry (thr : Nat) (msg : spi_message) : ssp_drv_context :=
  init_completion { with_cur thr msg with cs_control := true }

/-- Scenario C: two messages of one polled 4-byte transfer each, submitted back to back
to an idle controller. -/
def two_submitted : ssp_drv_context :=
  (transfer (sample_msg false 8 [sample_xfer 4 8 false])
    (transfer (sample_msg false 7 [sample_xfer 4 8 false]) (idle_ctx 4)).2).2

/-- No concurrent operation. -/
def no_others : Nat → List Op :=
  fun _ => []

/-- A suspended controller with one message queued. -/
def suspended_ctx : ssp_drv_context :=
  { idle_ctx 4 with suspended := true, queue := [msg_erratum], submitted := [msg_erratum] }

/-- The queue invariant of the pump: the messages submitted so far are those already
passed to `handle_message` followed by those still queued, in order. -/
def fifo_inv (s : ssp_drv_context) : Prop :=
  s.submitted = s.handled ++ s.queue

/-- The operations of other contexts are submissions only. -/
def only_submits (others : Nat → List Op) : Prop :=
  ∀ i op, op ∈ others i → ∃ m, op = Op.submit m

/-- Specification side of the FIFO claim (written from the claim, not from the source):
the messages of the list `msgs` are passed to `handle_message` one after another, in
the order of the list.  Each one is taken off the queue, made current, logged as
handled and handed to `handle_message`; the submissions of other contexts made
meanwhile (`others`) are applied, and the message is retired.  The list, not the
queue, says which message is next. -/
def serve_in_order (d : Defs) (env : Env) (others : Nat → List Op) :
    Nat → List spi_message → ssp_drv_context → Option ssp_drv_context
  | _, [], s => some s
  | 0, _ :: _, _ => none
  | fuel + 1, msg :: rest, s =>
    match handle_message d env fuel
        { s with queue := s.queue.tail, cur_msg := some msg, handled := s.handled ++ [msg] } with
    | none => none
    | some s1 =>
      let s2 := (others fuel).foldl apply_op s1
      serve_in_order d env others fuel rest
        { s2 with finished := s2.finished ++ s2.cur_msg.toList, cur_msg := none }

/-- The completion callbacks recorded in the trace, in order: the context and the
status of each completed message. -/
def completion_log (s : ssp_drv_context) : List (Nat × Int) :=
  s.trace.filterMap (fun e => match e with
    | Event.msg_complete c st _ => some (c, st)
    | _ => none)

/-- One concurrent submission: while the pump handles its first message (iteration
59 of a run started with fuel 60) another context submits message 9. -/
def late_submit : Nat → List Op :=
  fun i => if i = 59 then [Op.submit (sample_msg false 9 [sample_xfer 4 8 false])] else []

/-! ## Power management: suspend and resume -/

/-- What one call of `intel_mid_ssp_spi_suspend` did: the returned `int`, the context
it leaves, the outcome of every evaluation of `sspc->cur_msg` in its loop condition, in
order (`true`: non-NULL), and the number of `msleep(20)` calls. -/
structure suspend_result where
  ret : Int
  sspc : ssp_drv_context
  checks : List Bool
  sleeps : Nat
  deriving DecidableEq, Repr

/-- The loop `while (sspc->cur_msg && --loop) { unlock; msleep(20); lock;
if (!loop) sspc->suspended = 0; }` of `intel_mid_ssp_spi_suspend`, entered with the
positive value `loop` (the source starts it at 26).  While the lock is released for
the sleep, the other contexts of the driver act on the controller: `other i` is what
they do during the sleep taken with `loop = i`.  The result is the final value of
`loop` and the record of the checks and sleeps. -/
def suspend_wait (other : Nat → ssp_drv_context → ssp_drv_context) :
    Nat → ssp_drv_context → Nat × suspend_result
  | 0, s => (0, { ret := 0, sspc := s, checks := [], sleeps := 0 })
  | loop + 1, s =>
    if s.cur_msg.isSome then
      if loop ≠ 0 then
        let s1 := other loop s
        let s2 := if loop = 0 then { s1 with suspended := false } else s1
        let r := suspend_wait other loop s2
        (r.1, { r.2 with checks := true :: r.2.checks, sleeps := r.2.sleeps + 1 })
      else (0, { ret := 0, sspc := s, checks := [true], sleeps := 0 })
    else (loop + 1, { ret := 0, sspc := s, checks := [false], sleeps := 0 })

/-- Source: `intel_mid_ssp_spi_suspend`. -/
def intel_mid_ssp_spi_suspend (other : Nat → ssp_drv_context → ssp_drv_context)
    (s : ssp_drv_context) : suspend_result :=
  let r := suspend_wait other 26 { s with suspended := true }
  { r.2 with ret := if r.1 ≠ 0 then 0 else -EBUSY }

/-- Source: `intel_mid_ssp_spi_resume`; the first component is the returned `int`. -/
def intel_mid_ssp_spi_resume (s : ssp_drv_context) : Int × ssp_drv_context :=
  (0, if s.queue = [] then { s with suspended := false }
      else emit Event.queue_pump_messages { s with suspended := false })

/-- No other context acts during the sleeps of `intel_mid_ssp_spi_suspend`. -/
def nobody : Nat → ssp_drv_context → ssp_drv_context :=
  fun _ c => c

/-- The pump finishes the current message during the sleep taken with `loop = i`. -/
def finishes_at (i : Nat) : Nat → ssp_drv_context → ssp_drv_context :=
  fun j c => if j = i then { c with cur_msg := none } else c


/-! ## Observations on the DMA completion callbacks -/

/-- Number of times the completion work was queued (`queue_work(dma_wq, complete_work)`). -/
def work_queued (s : ssp_drv_context) : Nat :=
  s.trace.count Event.queue_complete_work

/-- Number of writes to the status register. -/
def status_clears (s : ssp_drv_context) : Nat :=
  s.trace.countP (fun e => match e with
    | Event.reg_write Reg.SSSR _ => true
    | _ => false)

/-- Number of writes to SSCR1 (the trigger disable writes it once). -/
def trigger_writes (s : ssp_drv_context) : Nat :=
  s.trace.countP (fun e => match e with
    | Event.reg_write Reg.SSCR1 _ => true
    | _ => false)

/-- Number of `dma_unmap_single` calls. -/
def unmap_calls (s : ssp_drv_context) : Nat :=
  s.trace.countP (fun e => match e with
    | Event.dma_unmap_single _ => true
    | _ => false)

/-- A context in the middle of a DMA transfer: both buffers mapped, the done flags as
the first block of `dma_transfer` leaves them. -/
def dma_pending_ctx : ssp_drv_context :=
  dma_reset_done
    { idle_ctx 16 with dma_mapped := true, tx_dma := 4096, rx_dma := 8192, len := 100 }


/-! ## Observations on the FIFO strategies -/

/-- Number of writes to the data register. -/
def ssdr_writes (s : ssp_drv_context) : Nat :=
  s.trace.countP (fun e => match e with
    | Event.reg_write Reg.SSDR _ => true
    | _ => false)

/-- Number of reads of the data register. -/
def ssdr_reads (s : ssp_drv_context) : Nat :=
  s.trace.countP (fun e => match e with
    | Event.reg_read Reg.SSDR _ => true
    | _ => false)

/-- Bytes by which a strategy advances its cursor per unit: 1, 2, 4, or `n_bytes` for
the null strategy. -/
def unit_stride (w : Strategy) (s : ssp_drv_context) : Nat :=
  match w with
  | Strategy.null => s.n_bytes
  | Strategy.u8 => 1
  | Strategy.u16 => 2
  | Strategy.u32 => 4

/-- The unit a writer pushes: zero for the null writer, else the word at `tx`. -/
def unit_value (env : Env) (w : Strategy) (s : ssp_drv_context) : Nat :=
  match w with
  | Strategy.null => 0
  | Strategy.u8 => env.load 1 s.tx
  | Strategy.u16 => env.load 2 s.tx
  | Strategy.u32 => env.load 4 s.tx

/-- The early-return condition of the writers, on the status value read at entry:
`(read_SSSR(reg) & SSSR_TFL_MASK) == SSSR_TFL_MASK || sspc->tx == sspc->tx_end`. -/
def writer_blocked (d : Defs) (env : Env) (s : ssp_drv_context) : Prop :=
  (env.reg Reg.SSSR s.tick &&& d.SSSR_TFL_MASK) = d.SSSR_TFL_MASK ∨ s.tx = s.tx_end

instance (d : Defs) (env : Env) (s : ssp_drv_context) : Decidable (writer_blocked d env s) := by
  unfold writer_blocked
  infer_instance

/-- A receive state in the middle of an 8-bit transfer of length 4: two bytes are still
expected (`rx_end - rx = 2`) and `len` is 4. -/
def mid_rx_ctx : ssp_drv_context :=
  { idle_ctx 16 with read := Strategy.u8, write := Strategy.u8, n_bytes := 1, len := 4,
                     rx := 1002, rx_end := 1004, tx := 2004, tx_end := 2004 }

/-- A transmit state of a 16-bit transfer with four bytes left to push. -/
def mid_tx_ctx : ssp_drv_context :=
  { idle_ctx 16 with read := Strategy.u16, write := Strategy.u16, n_bytes := 2, len := 8,
                     rx := 1000, rx_end := 1008, tx := 2004, tx_end := 2008 }

/-- An environment whose RX FIFO never runs empty: the status register always reads
with RNE and TNF set and the FIFO level fields zero. -/
def full_rx_env : Env :=
  { hw_env [] false with reg := fun r _ => match r with
      | Reg.SSSR => 0xC
      | _ => 0 }


/-! ## Scenarios for the transfer loop -/

/-- The chip-select calls and completion callbacks of a trace, in order. -/
def cs_history (s : ssp_drv_context) : List Event :=
  s.trace.filter (fun e => match e with
    | Event.cs_control _ => true
    | Event.msg_complete _ _ _ => true
    | _ => false)

/-- A polled message whose second transfer fails validation (length 0) after a valid
first transfer of 4 bytes that does not set `cs_change`. -/
def msg_late_reject : spi_message :=
  sample_msg false 9 [sample_xfer 4 8 false, sample_xfer 0 8 false]

/-- A message on a DMA-enabled chip: 8 bytes in 8-bit words (the erratum length of the
stride class), then 100 bytes in 32-bit words. -/
def msg_erratum_then_100 : spi_message :=
  sample_msg true 10 [sample_xfer 8 8 false, sample_xfer 100 32 false]

/-- The events of a trace issued towards the DMA engine. -/
def dma_events (s : ssp_drv_context) : List Event :=
  s.trace.filter is_dma_event


/-! ## Chip setup -/

/-- Source: `intel_mid_ssp_spi_dma_init`, on the fields of the context kept by the
model (the slave configuration of the two channels, computed from `n_bytes` and
`rx_fifo_threshold`, is stored in fields the model does not keep).  Once initialised
nothing more is done; else the DMA controller is looked up and the RX and TX channels
are requested, and only when all three succeed the done flags and `dma_initialized`
are set. -/
def intel_mid_ssp_spi_dma_init (env : Env) (s : ssp_drv_context) : ssp_drv_context :=
  if s.dma_initialized then s
  else if env.dmac1_found s.tick = false then { s with tick := s.tick + 1 }
  else
    let s1 := emit (Event.dma_request_channel false) { s with tick := s.tick + 2 }
    if env.chan_rx (s.tick + 1) = false then s1
    else
      let s2 := emit (Event.dma_request_channel true) { s1 with tick := s.tick + 3 }
      if env.chan_tx (s.tick + 2) = false then emit (Event.dma_release_channel false) s2
      else { s2 with txdma_done := true, rxdma_done := true, dma_initialized := true }

/-- What `kzalloc` returns for the chip data: every field zero. -/
def chip_zero : chip_data :=
  { cr0 := 0, cr1 := 0, speed_hz := 0, timeout := 0, chip_select := 0, n_bytes := 0,
    bits_per_word := 0, dma_enabled := false, cs_control := false }

/-- The state of one `setup` call: the device `spi`, the chip data `chip` points to,
the controller, the function-level static `one_time_setup` and the local
`burst_size`. -/
structure setup_locals where
  spi : spi_device
  chip : chip_data
  sspc : ssp_drv_context
  one_time_setup : Nat
  burst_size : Nat
  deriving DecidableEq, Repr

/-- What one `setup` call leaves: the returned `int`, the device (its `ctldata` holds
the chip data as the call left it whenever the pointer is installed), the controller
and the static `one_time_setup`. -/
structure setup_result where
  ret : Int
  spi : spi_device
  sspc : ssp_drv_context
  one_time_setup : Nat
  deriving DecidableEq, Repr

/-- The value `setup` first stores in `chip->cr0`:
`SSCR0_Motorola | SSCR0_DataSize(bpw > 16 ? bpw - 16 : bpw) | SSCR0_SSE |
(bpw > 16 ? SSCR0_EDSS : 0)`. -/
def setup_cr0 (d : Defs) (bpw : Nat) : Nat :=
  d.SSCR0_Motorola ||| d.SSCR0_DataSize (if bpw > 16 then bpw - 16 else bpw) ||| d.SSCR0_SSE
    ||| (if bpw > 16 then d.SSCR0_EDSS else 0)

/-- A `return ret` of `setup`.  The writes made through `chip` are those of the
device's chip data when the pointer is installed (`installed`: it was before the call,
or `spi_set_ctldata` has run); a freshly allocated chip that is not installed is
lost. -/
def setup_return (ret : Int) (installed : Bool) (l : setup_locals) : setup_result :=
  { ret := ret,
    spi := if installed then { l.spi with ctldata := some l.chip } else l.spi,
    sspc := l.sspc, one_time_setup := l.one_time_setup }

/-- The chip-select polarity block of the `chip_info` branch of `setup`; the error is
the value returned early. -/
def setup_polarity (d : Defs) (ci : intel_mid_ssp_spi_chip) (l : setup_locals) :
    Except Int setup_locals :=
  if (l.spi.mode &&& d.SPI_CS_HIGH) ≠ l.sspc.cs_assert then
    if l.sspc.cur_msg.isSome then Except.error (-EAGAIN)
    else if ci.cs_control = false then Except.error (-EINVAL)
    else
      Except.ok
        { l with
          sspc := emit (Event.cs_control (lnot (l.spi.mode &&& d.SPI_CS_HIGH)))
                    { l.sspc with cs_assert := l.spi.mode &&& d.SPI_CS_HIGH } }
  else Except.ok l

/-- The rest of the `chip_info` branch of `setup`: burst size, timeout, loopback, DMA
flag, chip-select callback and the one-time pinmux request. -/
def setup_from_chip_info (d : Defs) (ci : intel_mid_ssp_spi_chip) (l : setup_locals) :
    setup_locals :=
  let l1 := { l with
    burst_size := if ci.burst_size > d.IMSS_FIFO_BURST_8 then d.DFLT_FIFO_BURST_SIZE
                  else ci.burst_size,
    chip := { l.chip with
      timeout := ci.timeout,
      cr1 := if ci.enable_loopback then l.chip.cr1 ||| d.SSCR1_LBM else l.chip.cr1,
      dma_enabled := ci.dma_enabled,
      cs_control := ci.cs_control } }
  if l.one_time_setup ≠ 0 ∧ ci.dma_enabled = false ∧ ci.platform_pinmux = true then
    { l1 with sspc := emit Event.platform_pinmux l1.sspc, one_time_setup := 0 }
  else l1

/-- The branch of `setup` without `chip_info`: default values. -/
def setup_defaults (d : Defs) (l : setup_locals) : setup_locals :=
  { l with
    burst_size := d.DFLT_FIFO_BURST_SIZE,
    chip := { l.chip with
      dma_enabled := true,
      timeout := if l.sspc.quirks.DMA_USE_NO_TRAIL then 0 else d.DFLT_TIMEOUT_VAL } }

/-- The `if (chip_info) ... else ...` of `setup`. -/
def setup_branch (d : Defs) (l : setup_locals) : Except Int setup_locals :=
  match l.spi.controller_data with
  | some ci =>
    match setup_polarity d ci l with
    | Except.error e => Except.error e
    | Except.ok l1 => Except.ok (setup_from_chip_info d ci l1)
  | none => Except.ok (setup_defaults d l)

/-- The RX FIFO threshold `setup` chooses: 8, 4 or 1 by burst size, forced to 1 on
MRFL for a DMA chip slower than 800 kHz. -/
def setup_rx_threshold (d : Defs) (l : setup_locals) : Nat :=
  if l.sspc.quirks.PLATFORM_MRFL = true ∧ l.chip.dma_enabled = true ∧
      l.spi.max_speed_hz < 800000 then 1
  else if l.burst_size = d.IMSS_FIFO_BURST_8 then 8
  else if l.burst_size = d.IMSS_FIFO_BURST_4 then 4
  else 1

/-- The threshold block of `setup`: `rx_fifo_threshold`, the threshold fields of
`chip->cr1` (`tx_fifo_threshold` is `SPI_FIFO_SIZE - rx_fifo_threshold` on `u32`), and
`dma_mapped = 0`. -/
def setup_thresholds (d : Defs) (l : setup_locals) : setup_locals :=
  { l with
    sspc := { l.sspc with rx_fifo_threshold := setup_rx_threshold d l, dma_mapped := false },
    chip := { l.chip with cr1 := l.chip.cr1 |||
      ((d.SSCR1_RxTresh (setup_rx_threshold d l) &&& d.SSCR1_RFT) |||
       (d.SSCR1_TxTresh ((d.SPI_FIFO_SIZE + 2 ^ 32 - setup_rx_threshold d l) % 2 ^ 32)
          &&& d.SSCR1_TFT)) } }

/-- The bits `setup` ors into `chip->cr1` for phase, polarity, slave clocking and the
non-free-running clock. -/
def setup_mode_bits (d : Defs) (mode : Nat) (slave : Bool) (cr1 : Nat) : Nat :=
  let c1 := if (mode &&& d.SPI_CPHA) ≠ 0 then cr1 ||| d.SSCR1_SPH else cr1
  let c2 := if (mode &&& d.SPI_CPOL) ≠ 0 then c1 ||| d.SSCR1_SPO else c1
  let c3 := if slave then c2 ||| (d.SSCR1_SCLKDIR ||| d.SSCR1_SFRMDIR) else c2
  c3 ||| d.SSCR1_SCFR

/-- The mode block of `setup`. -/
def setup_mode (d : Defs) (l : setup_locals) : setup_locals :=
  { l with chip := { l.chip with
      cr1 := setup_mode_bits d l.spi.mode l.sspc.quirks.SPI_SLAVE_CLOCK_MODE l.chip.cr1 } }

/-- The word size chain of `setup`: `chip->n_bytes`, or `none` for the `-EINVAL`
branch. -/
def setup_n_bytes (bpw : Nat) : Option Nat :=
  if bpw ≤ 8 then some 1
  else if bpw ≤ 16 then some 2
  else if bpw ≤ 32 then some 4
  else none

/-- The clock block of `setup`, skipped in slave clock mode: the divider of
`spi->max_speed_hz` goes into `chip->cr0`, and the speed it yields is written back to
`spi->max_speed_hz` and to `chip->speed_hz`.  A zero speed is a division trap
(`none`). -/
def setup_clock (l : setup_locals) : Option setup_locals :=
  if l.sspc.quirks.SPI_SLAVE_CLOCK_MODE then some l
  else if to_int l.spi.max_speed_hz = 0 then none
  else
    let clk_div := ssp_get_clk_div l.sspc.quirks (to_int l.spi.max_speed_hz)
    let speed := Int.toNat (ssp_get_speed l.sspc.quirks (to_int clk_div) % 2 ^ 32)
    some { l with
      spi := { l.spi with max_speed_hz := speed },
      chip := { l.chip with cr0 := l.chip.cr0 ||| ((clk_div &&& 0xFFF) <<< 8),
                            speed_hz := speed } }

/-- The last chip fields `setup` stores before `spi_set_ctldata`. -/
def setup_install (l : setup_locals) : setup_locals :=
  { l with chip := { l.chip with bits_per_word := l.spi.bits_per_word,
                                 chip_select := l.spi.chip_select } }

/-- The final block of `setup`: the controller members that do not change across
transfers. -/
def setup_signals (d : Defs) (env : Env) (chip : chip_data) (s : ssp_drv_context) :
    ssp_drv_context :=
  if chip.dma_enabled then
    let a := intel_mid_ssp_spi_dma_init env { s with n_bytes := chip.n_bytes }
    { a with
      cr1_sig := if a.quirks.DMA_USE_NO_TRAIL
                 then d.SSCR1_TSRE ||| d.SSCR1_RSRE ||| d.SSCR1_TRAIL
                 else d.SSCR1_TSRE ||| d.SSCR1_RSRE,
      mask_sr := d.SSSR_ROR ||| d.SSSR_TUR,
      clear_sr := d.SSSR_TUR ||| d.SSSR_ROR ||| d.SSSR_TINT }
  else
    { s with
      cr1_sig := d.SSCR1_TINTE,
      mask_sr := d.SSSR_ROR ||| d.SSSR_TUR ||| d.SSSR_TINT,
      clear_sr := d.SSSR_TUR ||| d.SSSR_ROR ||| d.SSSR_TINT }

/-- The part of `setup` after the `chip_info` branch. -/
def setup_finish (d : Defs) (env : Env) (had_chip : Bool) (l : setup_locals) :
    Option setup_result :=
  let l2 := setup_mode d (setup_thresholds d l)
  match setup_n_bytes l2.spi.bits_per_word with
  | none => some (setup_return (-EINVAL) had_chip l2)
  | some n =>
    match setup_clock { l2 with chip := { l2.chip with n_bytes := n } } with
    | none => none
    | some l3 =>
      some (setup_return 0 true
        { setup_install l3 with
          sspc := setup_signals d env (setup_install l3).chip (setup_install l3).sspc })

/-- Source: `setup`, called with the current value of its static `one_time_setup`.
`none` is the division trap of `ssp_get_clk_div` at a zero `max_speed_hz`. -/
def setup (d : Defs) (env : Env) (one_time_setup : Nat) (spi : spi_device)
    (s : ssp_drv_context) : Option setup_result :=
  let spi1 := if spi.bits_per_word = 0 then { spi with bits_per_word := d.DFLT_BITS_PER_WORD }
              else spi
  if spi1.bits_per_word < d.MIN_BITS_PER_WORD ∨ spi1.bits_per_word > d.MAX_BITS_PER_WORD then
    some { ret := -EINVAL, spi := spi1, sspc := s, one_time_setup := one_time_setup }
  else
    match spi1.ctldata with
    | none =>
      if env.kzalloc_ok s.tick = false then
        some { ret := -ENOMEM, spi := spi1, sspc := { s with tick := s.tick + 1 },
               one_time_setup := one_time_setup }
      else
        let l0 : setup_locals :=
          { spi := spi1,
            chip := { chip_zero with cr0 := setup_cr0 d spi1.bits_per_word, cr1 := 0 },
            sspc := { s with tick := s.tick + 1 },
            one_time_setup := one_time_setup, burst_size := 0 }
        match setup_branch d l0 with
        | Except.error e => some (setup_return e false l0)
        | Except.ok l1 => setup_finish d env false l1
    | some chip =>
      let l0 : setup_locals :=
        { spi := spi1,
          chip := { chip with cr0 := setup_cr0 d spi1.bits_per_word, cr1 := 0 },
          sspc := s, one_time_setup := one_time_setup, burst_size := 0 }
      match setup_branch d l0 with
      | Except.error e => some (setup_return e true l0)
      | Except.ok l1 => setup_finish d env true l1

/-- A board description for a polled chip: burst of 4, a chip-select callback. -/
def board_polled : intel_mid_ssp_spi_chip :=
  { burst_size := 1, timeout := 0, enable_loopback := false, dma_enabled := false,
    cs_control := true, platform_pinmux := false }

/-- A device that has not been set up yet: 8-bit words, mode 0 (chip-select active
low), 1 MHz. -/
def fresh_spi : spi_device :=
  { bits_per_word := 8, mode := 0, max_speed_hz := 1000000, chip_select := 0,
    ctldata := none, controller_data := some board_polled }

/-- First `setup` of `fresh_spi` on an idle controller. -/
def first_setup : Option setup_result :=
  setup sample_defs (hw_env [] false) 1 fresh_spi (idle_ctx 4)

/-- A `setup` call that asks for chip-select active high for the device configured by
`first_setup`, while a message for that device is current; the pair holds the results
of the two calls. -/
def busy_setup : Option (setup_result × setup_result) :=
  first_setup.bind (fun r1 =>
    (setup sample_defs (hw_env [] false) r1.one_time_setup
        { r1.spi with mode := sample_defs.SPI_CS_HIGH }
        { r1.sspc with
          cur_msg := some { sample_msg false 11 [sample_xfer 4 8 false] with spi := r1.spi } }
      ).map (fun r2 => (r1, r2)))

/-- A view of the configuration a `setup` call leaves: the chip's cached `cr0`, `cr1`,
speed, timeout and DMA flag, and the controller's `cs_assert` and RX threshold. -/
structure config_view where
  cr0 : Nat
  cr1 : Nat
  speed_hz : Nat
  timeout : Nat
  dma_enabled : Bool
  cs_assert : Nat
  rx_fifo_threshold : Nat
  deriving DecidableEq, Repr

/-- The configuration view of a `setup` result; `none` when no chip data is installed. -/
def setup_config (r : setup_result) : Option config_view :=
  r.spi.ctldata.map (fun c =>
    { cr0 := c.cr0, cr1 := c.cr1, speed_hz := c.speed_hz, timeout := c.timeout,
      dma_enabled := c.dma_enabled, cs_assert := r.sspc.cs_assert,
      rx_fifo_threshold := r.sspc.rx_fifo_threshold })


/-- A context as `handle_message` programs it for a short DMA transfer: 6 bytes in
16-bit words, RX threshold 4, both buffers mapped. -/
def short_dma_ctx : ssp_drv_context :=
  { idle_ctx 4 with len := 6, n_bytes := 2, rx_dma := 0x10003000, tx_dma := 0x10001000 }

/-- The context `dma_ctx_100` when the completion work runs: the cursors are at the
start of the buffers, the ends 100 bytes further, and the DMA lengths are those
`dma_transfer` stored. -/
def drain_ctx_100 : ssp_drv_context :=
  { dma_ctx_100 with tx := 0x1000, tx_end := 0x1000 + 100, rx := 0x3000, rx_end := 0x3000 + 100,
                     len_dma_rx := 96, len_dma_tx := 96 }


/-- The locals of `setup` right after the stores `chip->cr0 = ...` and `chip->cr1 = 0`,
for the device `spi` (word width already defaulted), the chip data `chip` and the
controller `s`. -/
def setup_entry (d : Defs) (spi : spi_device) (chip : chip_data) (s : ssp_drv_context)
    (one_time_setup : Nat) : setup_locals :=
  { spi := spi,
    chip := { chip with cr0 := setup_cr0 d spi.bits_per_word, cr1 := 0 },
    sspc := s, one_time_setup := one_time_setup, burst_size := 0 }

/-- The device with the word width `setup` works with: `DFLT_BITS_PER_WORD` replaces
a zero `bits_per_word`. -/
def setup_bits (d : Defs) (spi : spi_device) : spi_device :=
  if spi.bits_per_word = 0 then { spi with bits_per_word := d.DFLT_BITS_PER_WORD } else spi

/-- The speed `setup` writes back for a requested speed `v` (`u32`): the speed of the
divider of `v`. -/
def negotiated_speed (q : Quirks) (v : Nat) : Nat :=
  Int.toNat (ssp_get_speed q (to_int (ssp_get_clk_div q (to_int v))) % 2 ^ 32)

/-- The threshold fields `setup` ors into `chip->cr1` for the RX threshold `thr`. -/
def threshold_bits (d : Defs) (thr : Nat) : Nat :=
  (d.SSCR1_RxTresh thr &&& d.SSCR1_RFT) |||
    (d.SSCR1_TxTresh ((d.SPI_FIFO_SIZE + 2 ^ 32 - thr) % 2 ^ 32) &&& d.SSCR1_TFT)

/-- Two `setup` calls in a row on the same device, the second with what the first left
(device, controller and `one_time_setup`); the pair holds both results. -/
def setup_twice (d : Defs) (env : Env) (one_time_setup : Nat) (spi : spi_device)
    (s : ssp_drv_context) : Option (setup_result × setup_result) :=
  (setup d env one_time_setup spi s).bind (fun r1 =>
    (setup d env r1.one_time_setup r1.spi r1.sspc).map (fun r2 => (r1, r2)))

/-- Quirks of a Merrifield controller: 25 MHz base, no-trail DMA. -/
def mrfl_quirks : Quirks :=
  { sample_quirks with PLATFORM_MDFL := false, PLATFORM_MRFL := true }

/-- A device without board description (DMA defaults), not set up yet, that asks for
799 999 Hz. -/
def slow_spi : spi_device :=
  { bits_per_word := 8, mode := 0, max_speed_hz := 799999, chip_select := 0,
    ctldata := none, controller_data := none }


/-- The chip data a successful `setup` installs, from the chip data `c1` as the
`chip_info` branch left it, the device `spi` (before the speed is written back), the RX
threshold `thr` and the stride `n`. -/
def final_chip (d : Defs) (q : Quirks) (spi : spi_device) (c1 : chip_data) (thr n : Nat) :
    chip_data :=
  if q.SPI_SLAVE_CLOCK_MODE then
    { c1 with
      cr1 := setup_mode_bits d spi.mode q.SPI_SLAVE_CLOCK_MODE (c1.cr1 ||| threshold_bits d thr),
      n_bytes := n, bits_per_word := spi.bits_per_word, chip_select := spi.chip_select }
  else
    { c1 with
      cr0 := c1.cr0 ||| ((ssp_get_clk_div q (to_int spi.max_speed_hz) &&& 0xFFF) <<< 8),
      cr1 := setup_mode_bits d spi.mode q.SPI_SLAVE_CLOCK_MODE (c1.cr1 ||| threshold_bits d thr),
      speed_hz := negotiated_speed q spi.max_speed_hz,
      n_bytes := n, bits_per_word := spi.bits_per_word, chip_select := spi.chip_select }

/-- The device a successful `setup` leaves: the speed written back (not in slave clock
mode) and the chip data installed. -/
def final_spi (q : Quirks) (spi : spi_device) (chip : chip_data) : spi_device :=
  { spi with
    max_speed_hz := if q.SPI_SLAVE_CLOCK_MODE then spi.max_speed_hz
                    else negotiated_speed q spi.max_speed_hz,
    ctldata := some chip }


/-- The controller as the `k`-th re-evaluation of the loop condition of
`intel_mid_ssp_spi_suspend` finds it, when the loop is entered in state `s` with the
counter `loop = n`: the entry state for `k = 0`, and after each further sleep what the
other contexts made of it (the first sleep is taken with `loop = n - 1`). -/
def suspend_check_state (other : Nat → ssp_drv_context → ssp_drv_context) :
    Nat → ssp_drv_context → Nat → ssp_drv_context
  | _, s, 0 => s
  | n, s, k + 1 => suspend_check_state other (n - 1) (other (n - 1) s) k

/-! ## Frame lemmas: data movement -/

theorem io_only_refl (s : ssp_drv_context) : io_only s s :=
  ⟨s.tx, s.rx, s.tick, s.wr_pkg_len, [], by simp, by simp⟩

theorem io_only_trans {a b c : ssp_drv_context} (h1 : io_only a b) (h2 : io_only b c) :
    io_only a c := by
  obtain ⟨tx1, rx1, k1, w1, l1, p1, rfl⟩ := h1
  obtain ⟨tx2, rx2, k2, w2, l2, p2, rfl⟩ := h2
  refine ⟨tx2, rx2, k2, w2, l1 ++ l2, ?_, by simp [List.append_assoc]⟩
  intro e he
  rcases List.mem_append.mp he with h | h
  · exact p1 e h
  · exact p2 e h

theorem io_only_emit (e : Event) (he : plain e = true) (s : ssp_drv_context) :
    io_only s (emit e s) :=
  ⟨s.tx, s.rx, s.tick, s.wr_pkg_len, [e], by simpa using he, rfl⟩

theorem io_only_read_reg (env : Env) (r : Reg) (s : ssp_drv_context) :
    io_only s (read_reg env r s).2 :=
  ⟨s.tx, s.rx, s.tick + 1, s.wr_pkg_len, [Event.reg_read r (env.reg r s.tick)], by simp [plain], rfl⟩

theorem io_only_write_reg (r : Reg) (v : Nat) (s : ssp_drv_context) :
    io_only s (write_reg r v s) :=
  io_only_emit (Event.reg_write r v) rfl s

theorem io_only_set_tx (s : ssp_drv_context) (v : Nat) : io_only s { s with tx := v } :=
  ⟨v, s.rx, s.tick, s.wr_pkg_len, [], by simp, by simp⟩

theorem io_only_set_rx (s : ssp_drv_context) (v : Nat) : io_only s { s with rx := v } :=
  ⟨s.tx, v, s.tick, s.wr_pkg_len, [], by simp, by simp⟩

theorem io_only_set_wr (s : ssp_drv_context) (v : Nat) : io_only s { s with wr_pkg_len := v } :=
  ⟨s.tx, s.rx, s.tick, v, [], by simp, by simp⟩

theorem is_tx_fifo_empty_snd (d : Defs) (env : Env) (s : ssp_drv_context) :
    (is_tx_fifo_empty d env s).2 = (read_reg env Reg.SSSR s).2 := by
  unfold is_tx_fifo_empty
  simp only []
  split <;> rfl

theorem io_only_is_tx_fifo_empty (d : Defs) (env : Env) (s : ssp_drv_context) :
    io_only s (is_tx_fifo_empty d env s).2 := by
  rw [is_tx_fifo_empty_snd]
  exact io_only_read_reg env _ s

theorem io_only_is_rx_fifo_empty (d : Defs) (env : Env) (s : ssp_drv_context) :
    io_only s (is_rx_fifo_empty d env s).2 :=
  io_only_read_reg env _ s

theorem io_only_disable_interface (d : Defs) (env : Env) (s : ssp_drv_context) :
    io_only s (disable_interface d env s) :=
  io_only_trans (io_only_read_reg env _ s) (io_only_write_reg _ _ _)

theorem io_only_flush_loop (d : Defs) (env : Env) (n : Nat) (s : ssp_drv_context) :
    io_only s (flush_loop d env n s) := by
  induction n generalizing s with
  | zero => exact io_only_is_rx_fifo_empty d env s
  | succ k ih =>
    unfold flush_loop
    simp only []
    split_ifs
    · exact io_only_is_rx_fifo_empty d env s
    · exact io_only_trans (io_only_is_rx_fifo_empty d env s)
        (io_only_trans (io_only_read_reg env _ _) (ih _))

theorem io_only_flush (d : Defs) (env : Env) (s : ssp_drv_context) :
    io_only s (flush d env s) := by
  unfold flush
  simp only []
  split_ifs
  · exact io_only_trans (io_only_is_tx_fifo_empty d env s) (io_only_disable_interface d env _)
  · exact io_only_trans (io_only_is_tx_fifo_empty d env s) (io_only_flush_loop d env _ _)

theorem io_only_writer_body (d : Defs) (env : Env) (stride : Nat) (v : ssp_drv_context → Nat)
    (s : ssp_drv_context) : io_only s (writer_body d env stride v s).2 := by
  unfold writer_body
  simp only []
  split_ifs
  · exact io_only_read_reg env _ s
  · exact io_only_trans (io_only_read_reg env _ s)
      (io_only_trans (io_only_write_reg _ _ _) (io_only_set_tx _ _))

theorem io_only_call_write (d : Defs) (env : Env) (s : ssp_drv_context) :
    io_only s (call_write d env s).2 := by
  unfold call_write
  split <;> exact io_only_writer_body d env _ _ s

theorem io_only_reader_pull (env : Env) (stride : Nat) (width : Option Nat)
    (s : ssp_drv_context) : io_only s (reader_pull env stride width s) := by
  unfold reader_pull
  cases width with
  | none => exact io_only_trans (io_only_read_reg env _ s) (io_only_set_rx _ _)
  | some w =>
    exact io_only_trans (io_only_read_reg env _ s)
      (io_only_trans (io_only_emit (Event.mem_store _ _ _) rfl _) (io_only_set_rx _ _))

theorem io_only_reader_loop (d : Defs) (env : Env) (stride : Nat) (width : Option Nat)
    (fuel pkg_len : Nat) (s s' : ssp_drv_context)
    (h : reader_loop d env stride width fuel pkg_len s = some s') : io_only s s' := by
  induction fuel generalizing pkg_len s with
  | zero => simp [reader_loop] at h
  | succ k ih =>
    unfold reader_loop at h
    simp only [] at h
    split_ifs at h
    · exact io_only_trans (io_only_trans (io_only_read_reg env _ s)
        (io_only_reader_pull env stride width _)) (ih _ _ h)
    · cases h
      exact io_only_read_reg env _ s

theorem call_read_spec (d : Defs) (env : Env) (fuel : Nat) (s : ssp_drv_context)
    (r : Bool × ssp_drv_context) (h : call_read d env fuel s = some r) :
    io_only s r.2 ∧ r.1 = decide (r.2.rx = r.2.rx_end) := by
  unfold call_read at h
  split at h <;>
  · simp only [null_reader, u8_reader, u16_reader, u32_reader, reader_result, Option.map_eq_some'] at h
    obtain ⟨s1, h1, rfl⟩ := h
    exact ⟨io_only_reader_loop d env _ _ _ _ _ _ h1, rfl⟩

theorem io_only_poll_writer (d : Defs) (env : Env) (k : Nat) (s : ssp_drv_context) :
    io_only s (poll_writer d env k s) := by
  induction k generalizing s with
  | zero => exact io_only_refl s
  | succ n ih =>
    unfold poll_writer
    split_ifs
    · exact io_only_trans (io_only_call_write d env s) (io_only_trans (io_only_set_wr _ _) (ih _))
    · exact io_only_refl s

/-! ## Frame lemmas: extension of the trace -/

theorem Ext.ext_refl (P : Event → Bool) (s : ssp_drv_context) : Ext P s s := by
  simp [Ext]

theorem Ext.ext_trans {P : Event → Bool} {a b c : ssp_drv_context} (h1 : Ext P a b)
    (h2 : Ext P b c) : Ext P a c := by
  obtain ⟨q1, a1, r1, u1, v1, w1, x1, y1, c1, g1, l1, t1, p1⟩ := h1
  obtain ⟨q2, a2, r2, u2, v2, w2, x2, y2, c2, g2, l2, t2, p2⟩ := h2
  refine ⟨q2.trans q1, a2.trans a1, r2.trans r1, u2.trans u1, v2.trans v1, w2.trans w1,
    x2.trans x1, y2.trans y1, c2.trans c1, g2.trans g1, l1 ++ l2, ?_, ?_⟩
  · rw [t2, t1, List.append_assoc]
  · intro e he
    rcases List.mem_append.mp he with h | h
    · exact p1 e h
    · exact p2 e h

theorem Ext.ext_mono {P Q : Event → Bool} {a b : ssp_drv_context} (h : Ext P a b)
    (hpq : ∀ e, P e = true → Q e = true) : Ext Q a b := by
  obtain ⟨q1, a1, r1, u1, v1, w1, x1, y1, c1, g1, l1, t1, p1⟩ := h
  exact ⟨q1, a1, r1, u1, v1, w1, x1, y1, c1, g1, l1, t1, fun e he => hpq e (p1 e he)⟩

theorem plain_no_cs (e : Event) (h : plain e = true) : no_cs e = true := by
  cases e <;> simp_all [plain, no_cs]

theorem io_only.ext {s s' : ssp_drv_context} (h : io_only s s') : Ext plain s s' := by
  obtain ⟨tx, rx, k, w, l, p, rfl⟩ := h
  exact ⟨rfl, rfl, rfl, rfl, rfl, rfl, rfl, rfl, rfl, rfl, l, rfl, p⟩

theorem io_only.same {s s' : ssp_drv_context} (h : io_only s s') : Same s s' := by
  obtain ⟨tx, rx, k, w, l, p, rfl⟩ := h
  exact ⟨rfl, rfl, rfl⟩

theorem Same.same_refl (s : ssp_drv_context) : Same s s := ⟨rfl, rfl, rfl⟩

theorem Same.same_trans {a b c : ssp_drv_context} (h1 : Same a b) (h2 : Same b c) : Same a c :=
  ⟨h2.1.trans h1.1, h2.2.1.trans h1.2.1, h2.2.2.trans h1.2.2⟩

theorem Ext_emit (P : Event → Bool) (e : Event) (he : P e = true) (s : ssp_drv_context) :
    Ext P s (emit e s) := by
  simp [Ext, emit, he]


theorem Mech.mech_refl (P : Event → Bool) (s : ssp_drv_context) : Mech P s s :=
  ⟨Ext.ext_refl P s, Same.same_refl s⟩

theorem Mech.mech_trans {P : Event → Bool} {a b c : ssp_drv_context} (h1 : Mech P a b)
    (h2 : Mech P b c) : Mech P a c :=
  ⟨h1.1.ext_trans h2.1, h1.2.same_trans h2.2⟩

theorem Mech.mech_mono {P Q : Event → Bool} {a b : ssp_drv_context} (h : Mech P a b)
    (hpq : ∀ e, P e = true → Q e = true) : Mech Q a b :=
  ⟨h.1.ext_mono hpq, h.2⟩

theorem io_only.mech {s s' : ssp_drv_context} (h : io_only s s') : Mech plain s s' :=
  ⟨h.ext, h.same⟩

theorem io_only.mech_no_cs {s s' : ssp_drv_context} (h : io_only s s') : Mech no_cs s s' :=
  h.mech.mech_mono plain_no_cs

theorem Mech_emit (P : Event → Bool) (e : Event) (he : P e = true) (s : ssp_drv_context) :
    Mech P s (emit e s) :=
  ⟨Ext_emit P e he s, rfl, rfl, rfl⟩

theorem Mech_dma_reset_done (P : Event → Bool) (s : ssp_drv_context) :
    Mech P s (dma_reset_done s) := by
  simp [Mech, Ext, Same, dma_reset_done]

theorem Mech_dma_set_lengths (P : Event → Bool) (s : ssp_drv_context) :
    Mech P s (dma_set_lengths s) := by
  simp [Mech, Ext, Same, dma_set_lengths]

theorem Mech_dma_prep_rx (env : Env) (s : ssp_drv_context) :
    Mech no_cs s (dma_prep_rx env s).2 := by
  simp [Mech, Ext, Same, dma_prep_rx, emit, no_cs]

theorem Mech_dma_prep_tx (env : Env) (s : ssp_drv_context) :
    Mech no_cs s (dma_prep_tx env s).2 := by
  simp [Mech, Ext, Same, dma_prep_tx]

theorem Mech_dma_submit (dir : Bool) (s : ssp_drv_context) :
    Mech no_cs s (dma_submit dir s) := by
  unfold dma_submit
  split_ifs <;> simp [Mech, Ext, Same, emit, no_cs]

theorem Mech_unmap_dma_buffers (s : ssp_drv_context) :
    Mech plain s (unmap_dma_buffers s) := by
  unfold unmap_dma_buffers
  split_ifs <;> simp [Mech, Ext, Same, emit, plain]

theorem Mech_dma_mark_done (dir : Bool) (s : ssp_drv_context) :
    Mech plain s (dma_mark_done dir s) := by
  unfold dma_mark_done
  split_ifs <;> simp [Mech, Ext, Same, emit, plain]

theorem Mech_bind_strategy (P : Event → Bool) (bpw : Nat) (s : ssp_drv_context) :
    Mech P s (bind_strategy bpw s) := by
  unfold bind_strategy
  split_ifs <;> simp [Mech, Ext, Same]

theorem Mech_map_single (env : Env) (dir : Bool) (s : ssp_drv_context) :
    Mech plain s (map_single env dir s).2 := by
  unfold map_single
  split_ifs <;> simp [Mech, Ext, Same, emit, plain]

theorem Mech_sram_stage (d : Defs) (s : ssp_drv_context) : Mech plain s (sram_stage d s) := by
  simp [Mech, Ext, Same, sram_stage, emit, plain]

theorem Mech_map_dma_buffers (d : Defs) (env : Env) (s : ssp_drv_context) :
    Mech plain s (map_dma_buffers d env s).2 := by
  unfold map_dma_buffers
  simp only []
  split_ifs
  · exact Mech.mech_refl _ _
  · exact Mech_sram_stage d s
  · exact Mech_map_single env true s
  · exact ((Mech_map_single env true s).mech_trans (Mech_map_single env false _)).mech_trans
      (Mech_emit plain (Event.dma_unmap_single true) rfl _)
  · exact (Mech_map_single env true s).mech_trans (Mech_map_single env false _)

theorem Mech_set_dma_mapped (P : Event → Bool) (s : ssp_drv_context) (b : Bool) :
    Mech P s { s with dma_mapped := b } := by
  simp [Mech, Ext, Same]

theorem Mech_map_for_chip (d : Defs) (env : Env) (lc : hm_locals) (s : ssp_drv_context) :
    Mech plain s (map_for_chip d env lc s) := by
  unfold map_for_chip
  split_ifs
  · exact (Mech_map_dma_buffers d env s).mech_trans (Mech_set_dma_mapped _ _ _)
  · exact Mech.mech_refl _ _

theorem Mech_bind_ends (P : Event → Bool) (t : spi_transfer) (s : ssp_drv_context) :
    Mech P s (bind_ends t s) := by
  simp [Mech, Ext, Same, bind_ends]

theorem io_only_clear_status (d : Defs) (s : ssp_drv_context) :
    io_only s (clear_status d s) := by
  unfold clear_status
  split_ifs
  · exact io_only_write_reg _ _ _
  · exact io_only_refl _
  · exact io_only_write_reg _ _ _

theorem io_only_program_cr1 (d : Defs) (lc : hm_locals) (s : ssp_drv_context) :
    io_only s (program_cr1 d lc s) := by
  unfold program_cr1
  simp only []
  split_ifs
  · exact io_only_write_reg _ _ _
  · exact io_only_trans (io_only_write_reg _ _ _) (io_only_write_reg _ _ _)
  · exact io_only_write_reg _ _ _

theorem io_only_write_ssfs (d : Defs) (lc : hm_locals) (s : ssp_drv_context) :
    io_only s (write_ssfs d lc s) := by
  unfold write_ssfs
  split_ifs
  · exact io_only_write_reg _ _ _
  · exact io_only_refl _

theorem io_only_sync_check (d : Defs) (env : Env) (s : ssp_drv_context) :
    io_only s (sync_check d env s).2 := by
  unfold sync_check
  split_ifs
  · exact io_only_read_reg env _ s
  · exact io_only_trans (io_only_read_reg env _ s) (io_only_read_reg env _ _)

theorem io_only_clock_delay (d : Defs) (env : Env) (speed : Nat) (s : ssp_drv_context) :
    io_only s (clock_delay d env speed s) := by
  unfold clock_delay
  split_ifs <;> exact io_only_trans (io_only_read_reg env _ s) (io_only_write_reg _ _ _)

theorem io_only_restart_ssp (d : Defs) (cr0 : Nat) (s : ssp_drv_context) :
    io_only s (restart_ssp d cr0 s) := by
  unfold restart_ssp
  split_ifs
  · exact io_only_trans (io_only_trans (io_only_write_reg _ _ _) (io_only_write_reg _ _ _))
      (io_only_write_reg _ _ _)
  · exact io_only_write_reg _ _ _

theorem io_only_bitbang_loop (env : Env) (n sssr : Nat) (s : ssp_drv_context) :
    io_only s (bitbang_loop env n sssr s) := by
  induction n generalizing sssr s with
  | zero => exact io_only_refl s
  | succ k ih =>
    unfold bitbang_loop
    simp only []
    split_ifs
    · refine io_only_trans ?_ (ih _ _)
      exact io_only_trans (io_only_trans (io_only_trans (io_only_trans
        (io_only_write_reg Reg.I2CDATA 0x2 s) (io_only_write_reg Reg.I2CCTRL 0x01070034 _))
        (io_only_write_reg Reg.I2CDATA 0x3 _)) (io_only_write_reg Reg.I2CCTRL 0x01070034 _))
        (io_only_read_reg env Reg.SSSR _)
    · exact io_only_refl s

theorem io_only.write {s s1 : ssp_drv_context} (r : Reg) (v : Nat) (h : io_only s s1) :
    io_only s (write_reg r v s1) :=
  io_only_trans h (io_only_write_reg r v s1)

theorem io_only.read {s s1 : ssp_drv_context} (env : Env) (r : Reg) (h : io_only s s1) :
    io_only s (read_reg env r s1).2 :=
  io_only_trans h (io_only_read_reg env r s1)

theorem io_only_start_bitbanging (d : Defs) (env : Env) (chip : chip_data)
    (s : ssp_drv_context) : io_only s (start_bitbanging d env chip s) := by
  unfold start_bitbanging
  simp only []
  apply io_only.write
  apply io_only.write
  refine io_only_trans ?_ (io_only_bitbang_loop env _ _ _)
  apply io_only.read
  apply io_only.write
  apply io_only.write
  apply io_only.write
  apply io_only.write
  apply io_only.write
  apply io_only.write
  apply io_only.write
  apply io_only.write
  apply io_only.read
  apply io_only.read
  exact io_only_refl s

theorem io_only_start_ssp (d : Defs) (env : Env) (lc : hm_locals) (speed cr0 : Nat)
    (s : ssp_drv_context) : io_only s (start_ssp d env lc speed cr0 s) := by
  unfold start_ssp
  split_ifs
  · exact io_only_trans (io_only_sync_check d env s) (io_only_start_bitbanging d env _ _)
  · exact io_only_trans (io_only_sync_check d env s)
      (io_only_trans (io_only_clock_delay d env _ _) (io_only_restart_ssp d _ _))

theorem Mech_program (d : Defs) (env : Env) (lc : hm_locals) (t : spi_transfer)
    (s : ssp_drv_context) : Mech plain s (program d env lc t s) := by
  unfold program
  refine (Mech_bind_ends plain t s).mech_trans (io_only.mech ?_)
  exact io_only_trans (io_only_clear_status d _) (io_only_trans (io_only_program_cr1 d lc _)
    (io_only_trans (io_only_write_ssfs d lc _) (io_only_start_ssp d env lc _ _ _)))

/-! ## Chip-select accounting -/

theorem lnot_ne (x : Nat) : lnot x ≠ x := by
  unfold lnot
  split_ifs <;> omega

theorem count_append_quiet (x : Event) (hx : no_cs x = false) (a l : List Event)
    (hl : ∀ e ∈ l, no_cs e = true) : (a ++ l).count x = a.count x := by
  rw [List.count_append]
  have : l.count x = 0 := by
    apply List.count_eq_zero_of_not_mem
    intro hm
    have := hl x hm
    simp [hx] at this
  omega

theorem Cnt.cnt_refl (s : ssp_drv_context) : Cnt 0 0 s s := by
  simp [Cnt]

theorem Cnt.cnt_trans {a1 d1 a2 d2 : Nat} {s s1 s2 : ssp_drv_context} (h1 : Cnt a1 d1 s s1)
    (h2 : Cnt a2 d2 s1 s2) : Cnt (a1 + a2) (d1 + d2) s s2 := by
  obtain ⟨p1, q1, x1, y1⟩ := h1
  obtain ⟨p2, q2, x2, y2⟩ := h2
  refine ⟨p2.trans p1, q2.trans q1, ?_, ?_⟩ <;> omega

theorem Cnt.cast {a d a' d' : Nat} {s s' : ssp_drv_context} (h : Cnt a d s s')
    (ha : a = a') (hd : d = d') : Cnt a' d' s s' := by
  subst ha
  subst hd
  exact h

theorem Ext.ext_cnt {s s' : ssp_drv_context} (h : Ext no_cs s s') : Cnt 0 0 s s' := by
  obtain ⟨_, ha, _, _, _, _, _, _, hc, _, l, ht, hp⟩ := h
  refine ⟨ha, hc, ?_, ?_⟩
  · simp only [cs_asserts, ht, ha, Nat.add_zero]
    exact count_append_quiet (Event.cs_control _) rfl _ _ hp
  · simp only [cs_deasserts, ht, ha, Nat.add_zero]
    exact count_append_quiet (Event.cs_control _) rfl _ _ hp

theorem Mech.mech_cnt {s s' : ssp_drv_context} (h : Mech no_cs s s') : Cnt 0 0 s s' :=
  h.1.ext_cnt

theorem Cnt_cs_assert_call (s : ssp_drv_context) :
    Cnt (cs_calls s) 0 s (cs_assert_call s) := by
  unfold cs_assert_call cs_calls
  split_ifs with h
  · refine ⟨rfl, rfl, ?_, ?_⟩
    · simp [cs_asserts, emit]
    · simp [cs_deasserts, emit, List.count_append, List.count_singleton, lnot_ne]
  · exact Cnt.cnt_refl s

theorem Cnt_cs_deassert_call (s : ssp_drv_context) :
    Cnt 0 (cs_calls s) s (cs_deassert_call s) := by
  unfold cs_deassert_call cs_calls
  split_ifs with h
  · refine ⟨rfl, rfl, ?_, ?_⟩
    · simp [cs_asserts, emit, List.count_append, List.count_singleton, (lnot_ne _).symm]
    · simp [cs_deasserts, emit]
  · exact Cnt.cnt_refl s

theorem cs_assert_call_frame (s : ssp_drv_context) :
    Same s (cs_assert_call s) ∧ (cs_assert_call s).cs_change = s.cs_change := by
  unfold cs_assert_call
  split_ifs <;> simp [Same, emit]

theorem cs_deassert_call_frame (s : ssp_drv_context) :
    Same s (cs_deassert_call s) ∧ (cs_deassert_call s).cs_change = s.cs_change := by
  unfold cs_deassert_call
  split_ifs <;> simp [Same, emit]

/-! ## Growth of the trace -/

theorem Static.static_refl (s : ssp_drv_context) : Static s s :=
  ⟨rfl, rfl, rfl, rfl, rfl, rfl, rfl, rfl⟩

theorem Static.static_trans {a b c : ssp_drv_context} (h1 : Static a b) (h2 : Static b c) :
    Static a c := by
  obtain ⟨a1, a2, a3, a4, a5, a6, a7, a8⟩ := h1
  obtain ⟨b1, b2, b3, b4, b5, b6, b7, b8⟩ := h2
  exact ⟨b1.trans a1, b2.trans a2, b3.trans a3, b4.trans a4, b5.trans a5, b6.trans a6,
    b7.trans a7, b8.trans a8⟩

theorem Grow.grow_refl (P : Event → Bool) (s : ssp_drv_context) : Grow P s s :=
  ⟨Static.static_refl s, [], by simp, by simp⟩

theorem Grow.grow_trans {P : Event → Bool} {a b c : ssp_drv_context} (h1 : Grow P a b)
    (h2 : Grow P b c) : Grow P a c := by
  obtain ⟨s1, l1, t1, p1⟩ := h1
  obtain ⟨s2, l2, t2, p2⟩ := h2
  refine ⟨s1.static_trans s2, l1 ++ l2, by rw [t2, t1, List.append_assoc], ?_⟩
  intro e he
  rcases List.mem_append.mp he with h | h
  · exact p1 e h
  · exact p2 e h

theorem Grow.grow_mono {P Q : Event → Bool} {a b : ssp_drv_context} (h : Grow P a b)
    (hpq : ∀ e, P e = true → Q e = true) : Grow Q a b := by
  obtain ⟨s1, l, t, p⟩ := h
  exact ⟨s1, l, t, fun e he => hpq e (p e he)⟩

theorem Ext.grow {P : Event → Bool} {s s' : ssp_drv_context} (h : Ext P s s') : Grow P s s' := by
  obtain ⟨q1, a1, r1, u1, v1, w1, x1, y1, _, _, hl⟩ := h
  exact ⟨⟨u1, v1, w1, x1, y1, q1, r1, a1⟩, hl⟩

theorem Grow.of_trace_eq (P : Event → Bool) {s s' : ssp_drv_context} (hs : Static s s')
    (h : s'.trace = s.trace) : Grow P s s' :=
  ⟨hs, [], by simp [h], by simp⟩

theorem Grow_set_msg_done (P : Event → Bool) (s : ssp_drv_context) (v : Nat) :
    Grow P s { s with msg_done := v } :=
  Grow.of_trace_eq P ⟨rfl, rfl, rfl, rfl, rfl, rfl, rfl, rfl⟩ rfl

theorem Grow_init_completion (P : Event → Bool) (s : ssp_drv_context) :
    Grow P s (init_completion s) :=
  Grow_set_msg_done P s 0

theorem Grow_emit (P : Event → Bool) (e : Event) (he : P e = true) (s : ssp_drv_context) :
    Grow P s (emit e s) :=
  ⟨⟨rfl, rfl, rfl, rfl, rfl, rfl, rfl, rfl⟩, [e], rfl, by simpa using he⟩

theorem plain_not_complete (e : Event) (h : plain e = true) : not_complete e = true := by
  cases e <;> simp_all [plain, not_complete]

theorem no_cs_not_complete (e : Event) (h : no_cs e = true) : not_complete e = true := by
  cases e <;> simp_all [no_cs, not_complete]

theorem Grow_cs_assert_call (P : Event → Bool) (hP : ∀ v, P (Event.cs_control v) = true)
    (s : ssp_drv_context) : Grow P s (cs_assert_call s) := by
  unfold cs_assert_call
  split_ifs
  · exact Grow_emit P _ (hP _) s
  · exact Grow.grow_refl P s

theorem Grow_cs_deassert_call (P : Event → Bool) (hP : ∀ v, P (Event.cs_control v) = true)
    (s : ssp_drv_context) : Grow P s (cs_deassert_call s) := by
  unfold cs_deassert_call
  split_ifs
  · exact Grow_emit P _ (hP _) s
  · exact Grow.grow_refl P s

/-! ## Polled path -/

theorem poll_transfer_spec (d : Defs) (env : Env) (fuel : Nat) (s s' : ssp_drv_context)
    (h : poll_transfer d env fuel s = some s') :
    ∃ s1, io_only s s1 ∧ s1.rx = s1.rx_end ∧ s' = poll_transfer_complete s1 := by
  induction fuel generalizing s with
  | zero => simp [poll_transfer] at h
  | succ k ih =>
    unfold poll_transfer at h
    split at h
    · cases h
    · rename_i s1 hr
      cases h
      obtain ⟨hio, hb⟩ := call_read_spec d env k _ _ hr
      refine ⟨s1, io_only_trans (io_only_poll_writer d env _ s) hio, ?_, rfl⟩
      simpa using hb.symm
    · rename_i s1 hr
      obtain ⟨hio, _⟩ := call_read_spec d env k _ _ hr
      obtain ⟨s2, h2, hrx, he⟩ := ih s1 h
      exact ⟨s2, io_only_trans (io_only_trans (io_only_poll_writer d env _ s) hio) h2, hrx, he⟩

theorem poll_transfer_complete_msg (s : ssp_drv_context) (h : s.rx = s.rx_end) :
    (poll_transfer_complete s).cur_msg =
      s.cur_msg.map (fun m => { m with status := 0, actual_length := m.actual_length + s.len }) := by
  unfold poll_transfer_complete upd_msg
  simp only [h]
  cases s.cur_msg with
  | none => rfl
  | some m =>
    simp only [Option.map_some', sub_self, sub_zero]
    congr 2

theorem Mech_poll_transfer_complete_ext (s : ssp_drv_context) :
    Ext plain s (poll_transfer_complete s) ∧ (poll_transfer_complete s).msg_done = s.msg_done ∧
      (poll_transfer_complete s).len = s.len := by
  simp [Ext, poll_transfer_complete, upd_msg]

theorem Mech_queue_poll_write (s : ssp_drv_context) : Mech plain s (queue_poll_write s) := by
  simp [Mech, Ext, Same, queue_poll_write, emit, plain]

theorem Mech_pm_qos_request (d : Defs) (s : ssp_drv_context) :
    Mech plain s (pm_qos_request d s) := by
  unfold pm_qos_request
  split_ifs
  · exact Mech_emit plain (Event.pm_qos_update _) rfl s
  · exact Mech.mech_refl _ _

theorem Mech_next_tick (P : Event → Bool) (s : ssp_drv_context) : Mech P s (next_tick s) := by
  simp [Mech, Ext, Same, next_tick]

theorem complete_msg_done_spec (s : ssp_drv_context) :
    Ext plain s (complete_msg_done s) ∧ (complete_msg_done s).cur_msg = s.cur_msg ∧
      (complete_msg_done s).msg_done = s.msg_done + 1 := by
  simp [Ext, complete_msg_done]

/-- The polled branch: the trace grows by plain events only, the completion object is
signalled once, and the message ends with status 0 and `actual_length` grown by the
transfer length. -/
theorem execute_poll_spec (d : Defs) (env : Env) (fuel : Nat) (s s' : ssp_drv_context)
    (h : execute_poll d env fuel s = some s') :
    Ext plain s s' ∧ s'.msg_done = s.msg_done + 1 ∧
    s'.cur_msg =
      s.cur_msg.map (fun m => { m with status := 0, actual_length := m.actual_length + s.len }) := by
  unfold execute_poll at h
  simp only [Option.map_eq_some'] at h
  obtain ⟨s1, hp, rfl⟩ := h
  obtain ⟨s2, hio, hrx, rfl⟩ := poll_transfer_spec d env fuel _ _ hp
  have hq := Mech_queue_poll_write s
  have hm : Mech plain s s2 := hq.mech_trans hio.mech
  have hc := Mech_poll_transfer_complete_ext s2
  have hu := Mech_unmap_dma_buffers (poll_transfer_complete s2)
  have hd := complete_msg_done_spec (unmap_dma_buffers (poll_transfer_complete s2))
  refine ⟨((hm.1.ext_trans hc.1).ext_trans hu.1).ext_trans hd.1, ?_, ?_⟩
  · rw [hd.2.2, hu.2.2.1, hc.2.1, hm.2.2.1]
  · rw [hd.2.1, hu.2.1, poll_transfer_complete_msg s2 hrx, hm.2.1, hm.2.2.2]

/-! ## DMA path -/

theorem Mech_dma_post (env : Env) (s : ssp_drv_context) : Mech plain s (dma_post env s) := by
  unfold dma_post
  simp only []
  have h1 : Mech plain s (disable_triggers env (write_reg Reg.SSSR s.clear_sr s)) :=
    io_only.mech (io_only_trans (io_only_write_reg _ _ s)
      (io_only_trans (io_only_read_reg env _ _) (io_only_write_reg _ _ _)))
  have h2 := h1.mech_trans (Mech_unmap_dma_buffers _)
  have h3 := h2.mech_trans (Mech_emit plain Event.queue_complete_work rfl _)
  refine h3.mech_trans ?_
  simp [Mech, Ext, Same]

theorem Mech_dma_done (env : Env) (dir : Bool) (s : ssp_drv_context) :
    Mech plain s (intel_mid_ssp_spi_dma_done env dir s) := by
  unfold intel_mid_ssp_spi_dma_done
  simp only []
  split_ifs
  · exact (Mech_dma_mark_done dir s).mech_trans (Mech_dma_post env _)
  · exact Mech_dma_mark_done dir s

theorem Mech_dma_fire (env : Env) (rxdesc txdesc : Bool) (s : ssp_drv_context) :
    Mech no_cs s (dma_fire env rxdesc txdesc s) := by
  cases rxdesc <;> cases txdesc
  · show Mech no_cs s (intel_mid_ssp_spi_dma_done env (env.bypass_dir_tx s.tick) (next_tick s))
    exact (Mech_next_tick no_cs s).mech_trans ((Mech_dma_done env _ _).mech_mono plain_no_cs)
  · show Mech no_cs s (dma_submit true s)
    exact Mech_dma_submit true s
  · show Mech no_cs s (dma_submit false s)
    exact Mech_dma_submit false s
  · show Mech no_cs s (dma_submit true (dma_submit false s))
    exact (Mech_dma_submit false s).mech_trans (Mech_dma_submit true _)

theorem Mech_dma_transfer (env : Env) (s : ssp_drv_context) :
    Mech no_cs s (dma_transfer env s) := by
  unfold dma_transfer
  simp only []
  have h1 : Mech no_cs s (dma_prep_rx env (dma_set_lengths (dma_reset_done s))).2 :=
    ((Mech_dma_reset_done no_cs s).mech_trans (Mech_dma_set_lengths no_cs _)).mech_trans
      (Mech_dma_prep_rx env _)
  have h2 := (h1.mech_trans (Mech_emit no_cs (Event.dma_slave_config true) rfl _)).mech_trans
    (Mech_emit no_cs (Event.dma_sync true) rfl _)
  split_ifs
  · exact (h2.mech_trans (Mech_dma_prep_tx env _)).mech_trans (Mech_dma_fire env _ _ _)
  · exact h2

theorem Mech_run_cb (env : Env) (dir : Bool) (s : ssp_drv_context) :
    Mech plain s (run_cb env dir s) := by
  unfold run_cb
  split_ifs
  · refine Mech.mech_trans ?_ (Mech_dma_done env true _)
    simp [Mech, Ext, Same]
  · exact Mech.mech_refl _ _
  · refine Mech.mech_trans ?_ (Mech_dma_done env false _)
    simp [Mech, Ext, Same]
  · exact Mech.mech_refl _ _

theorem Mech_run_callbacks (env : Env) (s : ssp_drv_context) :
    Mech plain s (run_callbacks env s) := by
  unfold run_callbacks
  have h0 : Mech plain s { s with tick := s.tick + 1 } := by simp [Mech, Ext, Same]
  split_ifs
  · exact (h0.mech_trans (Mech_run_cb env false _)).mech_trans (Mech_run_cb env true _)
  · exact (h0.mech_trans (Mech_run_cb env true _)).mech_trans (Mech_run_cb env false _)

theorem Mech_sram_to_ddr_cpy (s : ssp_drv_context) : Mech plain s (sram_to_ddr_cpy s) := by
  unfold sram_to_ddr_cpy
  split_ifs
  · exact Mech_emit plain (Event.memcpy_fromio _) rfl s
  · exact Mech_emit plain (Event.memcpy_fromio _) rfl s

theorem Mech_itc_head (d : Defs) (s : ssp_drv_context) : Mech plain s (itc_head d s) := by
  unfold itc_head
  simp only []
  split_ifs
  · exact (Mech_emit plain (Event.pm_qos_update _) rfl s).mech_trans (Mech_sram_to_ddr_cpy _)
  · exact Mech_emit plain (Event.pm_qos_update _) rfl s
  · exact Mech_sram_to_ddr_cpy s
  · exact Mech.mech_refl _ _

theorem io_only_drain_loop (d : Defs) (env : Env) (fuel : Nat) (s s' : ssp_drv_context)
    (h : drain_loop d env fuel s = some s') : io_only s s' := by
  induction fuel generalizing s with
  | zero => simp [drain_loop] at h
  | succ k ih =>
    unfold drain_loop at h
    split_ifs at h
    · split at h
      · cases h
      · rename_i r hr
        exact io_only_trans (io_only_trans (call_read_spec d env k _ r hr).1
          (io_only_call_write d env r.2)) (ih _ h)
    · cases h
      exact io_only_refl _

theorem drain_start_spec (s : ssp_drv_context) :
    Ext plain s (drain_start s) ∧ (drain_start s).msg_done = s.msg_done := by
  simp [Ext, drain_start, upd_msg]

theorem drain_trail_spec (d : Defs) (env : Env) (fuel : Nat) (s s' : ssp_drv_context)
    (h : drain_trail d env fuel s = some s') :
    Ext plain s s' ∧ s'.msg_done = s.msg_done := by
  unfold drain_trail at h
  split_ifs at h
  · have hio := io_only_drain_loop d env fuel _ _ h
    have hs := drain_start_spec s
    exact ⟨hs.1.ext_trans hio.ext, hio.same.2.1.trans hs.2⟩
  · cases h
    exact ⟨Ext.ext_refl _ _, rfl⟩

theorem itc_account_spec (s : ssp_drv_context) :
    Ext plain s (itc_account s) ∧ (itc_account s).msg_done = s.msg_done := by
  simp [Ext, itc_account, upd_msg]

/-- The completion handler adds one deassert call when there is a chip-select
callback, no assert call and no completion callback, and signals the completion
object once. -/
theorem int_transfer_complete_spec (d : Defs) (env : Env) (fuel : Nat)
    (s s' : ssp_drv_context) (h : int_transfer_complete d env fuel s = some s') :
    Cnt 0 (cs_calls s) s s' ∧ s'.msg_done = s.msg_done + 1 ∧ s'.cs_change = s.cs_change ∧
    Grow not_complete s s' := by
  unfold int_transfer_complete at h
  have key : ∀ s3, Ext plain s s3 → s3.msg_done = s.msg_done →
      Cnt 0 (cs_calls s) s (complete_msg_done (cs_deassert_call (itc_account s3))) ∧
      (complete_msg_done (cs_deassert_call (itc_account s3))).msg_done = s.msg_done + 1 ∧
      (complete_msg_done (cs_deassert_call (itc_account s3))).cs_change = s.cs_change ∧
      Grow not_complete s (complete_msg_done (cs_deassert_call (itc_account s3))) := by
    intro s3 h3 hm
    have ha := itc_account_spec s3
    have he : Ext plain s (itc_account s3) := h3.ext_trans ha.1
    have hc1 : Cnt 0 0 s (itc_account s3) := (he.ext_mono plain_no_cs).ext_cnt
    have hcc : cs_calls (itc_account s3) = cs_calls s := by
      unfold cs_calls
      rw [hc1.2.1]
    have hc2 := Cnt_cs_deassert_call (itc_account s3)
    have hf := cs_deassert_call_frame (itc_account s3)
    have hd := complete_msg_done_spec (cs_deassert_call (itc_account s3))
    refine ⟨?_, ?_, ?_, ?_⟩
    · exact ((hc1.cnt_trans hc2).cnt_trans (hd.1.ext_mono plain_no_cs).ext_cnt).cast rfl (by omega)
    · rw [hd.2.2, hf.1.2.1, ha.2, hm]
    · rw [hd.1.2.2.2.2.2.2.2.2.2.1, hf.2, he.2.2.2.2.2.2.2.2.2.1]
    · exact ((he.grow.grow_mono plain_not_complete).grow_trans
        (Grow_cs_deassert_call not_complete (fun _ => rfl) _)).grow_trans
        (hd.1.grow.grow_mono plain_not_complete)
  split at h
  · cases h
  · rename_i s3 h3
    cases h
    split_ifs at h3
    · have hh := Mech_itc_head d s
      have hd := drain_trail_spec d env fuel _ _ h3
      exact key s3 (hh.1.ext_trans hd.1) (hd.2.trans hh.2.2.1)
    · cases h3
      have hh := (Mech_itc_head d s).mech_trans (io_only_write_reg Reg.SSTO 0 _).mech
      exact key _ hh.1 hh.2.2.1

/-- The asynchronous completion either leaves the completion object alone and makes
no chip-select call, or signals it once and makes the deassert call of the completion
handler. -/
theorem dma_completion_spec (d : Defs) (env : Env) (fuel : Nat) (s s' : ssp_drv_context)
    (h : dma_completion d env fuel s = some s') :
    ∃ k, k ≤ 1 ∧ Cnt 0 (k * cs_calls s) s s' ∧ s'.msg_done = s.msg_done + k ∧
      s'.cs_change = s.cs_change ∧ Grow not_complete s s' := by
  unfold dma_completion at h
  have hr := Mech_run_callbacks env s
  split_ifs at h
  · have h0 : Mech plain s { run_callbacks env s with complete_work_queued := false } :=
      hr.mech_trans (by simp [Mech, Ext, Same])
    obtain ⟨hc, hm, hg, hw⟩ := int_transfer_complete_spec d env fuel _ _ h
    have hcc : cs_calls { run_callbacks env s with complete_work_queued := false } = cs_calls s := by
      unfold cs_calls
      rw [h0.1.2.2.2.2.2.2.2.2.1]
    refine ⟨1, le_refl 1, ?_, ?_, ?_, ?_⟩
    · exact ((h0.mech_mono plain_no_cs).mech_cnt.cnt_trans hc).cast rfl (by rw [hcc]; omega)
    · rw [hm, h0.2.2.1]
    · rw [hg, h0.1.2.2.2.2.2.2.2.2.2.1]
    · exact (h0.1.grow.grow_mono plain_not_complete).grow_trans hw
  · cases h
    exact ⟨0, by omega, ((hr.mech_mono plain_no_cs).mech_cnt).cast rfl (by omega), by rw [hr.2.2.1]; rfl,
      hr.1.2.2.2.2.2.2.2.2.2.1, hr.1.grow.grow_mono plain_not_complete⟩

theorem owed_le (s : ssp_drv_context) : owed s ≤ cs_calls s := by
  unfold owed
  split_ifs <;> omega

/-- Waiting on the completion object runs the completion handler exactly when the
object has not been signalled yet. -/
theorem wait_for_completion_spec (d : Defs) (env : Env) (fuel : Nat) (s s' : ssp_drv_context)
    (h : wait_for_completion d env fuel s = some s') :
    Cnt 0 (owed s) s s' ∧ s'.cs_change = s.cs_change ∧ Grow not_complete s s' ∧
    (0 < s.msg_done → s' = { s with msg_done := s.msg_done - 1 }) := by
  unfold wait_for_completion at h
  split_ifs at h with h0 h1
  · cases h
    refine ⟨?_, rfl, Grow_set_msg_done _ _ _, fun _ => rfl⟩
    have : owed s = 0 := by
      unfold owed
      rw [if_neg (by omega)]
    rw [this]
    exact ⟨rfl, rfl, rfl, rfl⟩
  · split at h
    · cases h
    · rename_i s1 hs1
      split_ifs at h with h2
      cases h
      obtain ⟨k, hk, hc, hm, hg, hw⟩ := dma_completion_spec d env fuel _ _ hs1
      have hk1 : k = 1 := by omega
      subst hk1
      have ho : owed s = cs_calls s := by
        unfold owed
        rw [if_pos (by omega)]
      refine ⟨?_, hg, hw.grow_trans (Grow_set_msg_done _ _ _), fun hp => absurd hp h0⟩
      rw [ho]
      have hc' : Cnt 0 (cs_calls s) s s1 := hc.cast rfl (by omega)
      exact ⟨hc'.1, hc'.2.1, hc'.2.2.1, hc'.2.2.2⟩

/-! ## One transfer -/

theorem owed_of_msg_done {s s' : ssp_drv_context} (hc : s'.cs_control = s.cs_control)
    (hm : s'.msg_done = s.msg_done) : owed s' = owed s := by
  unfold owed cs_calls
  rw [hc, hm]

theorem cs_calls_congr {s s' : ssp_drv_context} (hc : s'.cs_control = s.cs_control) :
    cs_calls s' = cs_calls s := by
  unfold cs_calls
  rw [hc]

/-- The polled branch makes no chip-select call and leaves the completion object
signalled. -/
theorem execute_poll_cnt (d : Defs) (env : Env) (fuel : Nat) (s s' : ssp_drv_context)
    (h0 : s.msg_done = 0) (h : execute_poll d env fuel s = some s') :
    Cnt 0 0 s s' ∧ s'.cs_change = s.cs_change ∧ owed s' = 0 ∧ Grow not_complete s s' := by
  obtain ⟨he, hm, _⟩ := execute_poll_spec d env fuel s s' h
  refine ⟨(he.ext_mono plain_no_cs).ext_cnt, he.2.2.2.2.2.2.2.2.2.1, ?_, he.grow.grow_mono plain_not_complete⟩
  unfold owed
  rw [if_neg (by omega)]

/-- The DMA branch makes no assert call; the deassert call of the completion handler
has been made or is still owed. -/
theorem execute_dma_cnt (d : Defs) (env : Env) (fuel : Nat) (s s' : ssp_drv_context)
    (h0 : s.msg_done = 0) (h : execute_dma d env fuel s = some s') :
    s'.cs_assert = s.cs_assert ∧ s'.cs_control = s.cs_control ∧ s'.cs_change = s.cs_change ∧
    cs_asserts s' = cs_asserts s ∧ cs_deasserts s' + owed s' = cs_deasserts s + cs_calls s ∧
    Grow not_complete s s' := by
  unfold execute_dma at h
  have h1 : Mech no_cs s (next_tick (dma_transfer env (pm_qos_request d s))) :=
    (((Mech_pm_qos_request d s).mech_mono plain_no_cs).mech_trans (Mech_dma_transfer env _)).mech_trans
      (Mech_next_tick no_cs _)
  have hcc := cs_calls_congr h1.1.2.2.2.2.2.2.2.2.1
  have hmd : (next_tick (dma_transfer env (pm_qos_request d s))).msg_done = 0 := by
    rw [h1.2.2.1, h0]
  split_ifs at h
  · obtain ⟨k, hk, hc, hm, hg, hw⟩ := dma_completion_spec d env fuel _ _ h
    have hc2 := h1.mech_cnt.cnt_trans hc
    refine ⟨hc2.1, hc2.2.1, hg.trans h1.1.2.2.2.2.2.2.2.2.2.1, ?_, ?_,
      (h1.1.grow.grow_mono no_cs_not_complete).grow_trans hw⟩
    · have := hc2.2.2.1
      omega
    · have hd := hc2.2.2.2
      rw [hcc] at hd
      have hk2 : k = 0 ∨ k = 1 := by omega
      rcases hk2 with rfl | rfl
      · have : owed s' = cs_calls s := by
          unfold owed
          rw [if_pos (by omega), cs_calls_congr hc2.2.1]
        omega
      · have : owed s' = 0 := by
          unfold owed
          rw [if_neg (by omega)]
        omega
  · cases h
    have hc2 := h1.mech_cnt
    refine ⟨hc2.1, hc2.2.1, h1.1.2.2.2.2.2.2.2.2.2.1, ?_, ?_, h1.1.grow.grow_mono no_cs_not_complete⟩
    · have := hc2.2.2.1
      omega
    · have hd := hc2.2.2.2
      have : owed (next_tick (dma_transfer env (pm_qos_request d s))) = cs_calls s := by
        unfold owed
        rw [if_pos hmd, hcc]
      omega

/-- The execution branch, either path. -/
theorem execute_cnt (d : Defs) (env : Env) (fuel : Nat) (lc : hm_locals)
    (s s' : ssp_drv_context) (h0 : s.msg_done = 0) (h : execute d env fuel lc s = some s') :
    s'.cs_assert = s.cs_assert ∧ s'.cs_control = s.cs_control ∧ s'.cs_change = s.cs_change ∧
    cs_asserts s' = cs_asserts s ∧
    cs_deasserts s' + owed s' =
      cs_deasserts s + (if lc.dma_enabled && !lc.normal_enabled then cs_calls s else 0) ∧
    Grow not_complete s s' := by
  unfold execute at h
  split_ifs at h with hp
  · simpa [hp] using execute_dma_cnt d env fuel s s' h0 h
  · obtain ⟨hc, hg, ho, hw⟩ := execute_poll_cnt d env fuel s s' h0 h
    refine ⟨hc.1, hc.2.1, hg, ?_, ?_, hw⟩
    · have := hc.2.2.1
      omega
    · have := hc.2.2.2
      rw [if_neg hp]
      omega

theorem Grow_load_transfer (P : Event → Bool) (lc : hm_locals) (t : spi_transfer)
    (s : ssp_drv_context) : Grow P s (load_transfer lc t s) :=
  Grow.of_trace_eq P ⟨rfl, rfl, rfl, rfl, rfl, rfl, rfl, rfl⟩ rfl

theorem load_transfer_spec (lc : hm_locals) (t : spi_transfer) (s : ssp_drv_context) :
    (load_transfer lc t s).cs_control = lc.chip.cs_control ∧
    (load_transfer lc t s).cs_change = t.cs_change ∧
    (load_transfer lc t s).len = t.len ∧
    (load_transfer lc t s).cs_assert = s.cs_assert ∧
    (load_transfer lc t s).msg_done = s.msg_done ∧
    (load_transfer lc t s).cur_msg = s.cur_msg ∧
    (load_transfer lc t s).trace = s.trace ∧
    (load_transfer lc t s).quirks = s.quirks := by
  simp [load_transfer]

/-- The preparation of a transfer loads the chip-select callback and the change flag,
keeps the message and the completion counter, and appends plain events only. -/
theorem prepare_spec (d : Defs) (env : Env) (lc : hm_locals) (t : spi_transfer)
    (s : ssp_drv_context) :
    (prepare d env lc t s).cs_control = lc.chip.cs_control ∧
    (prepare d env lc t s).cs_change = t.cs_change ∧
    (prepare d env lc t s).len = t.len ∧
    (prepare d env lc t s).cs_assert = s.cs_assert ∧
    (prepare d env lc t s).msg_done = s.msg_done ∧
    (prepare d env lc t s).cur_msg = s.cur_msg ∧
    Grow plain (flush d env s) (prepare d env lc t s) ∧
    Grow plain s (prepare d env lc t s) := by
  unfold prepare
  have h1 : Mech plain (flush d env s) (bind_strategy (resolve_bits_per_word lc t) (flush d env s)) :=
    Mech_bind_strategy plain _ _
  have hf : Mech plain s (flush d env s) := (io_only_flush d env s).mech
  have h2 := load_transfer_spec lc t (bind_strategy (resolve_bits_per_word lc t) (flush d env s))
  have h3 := Mech_map_for_chip d env lc
    (load_transfer lc t (bind_strategy (resolve_bits_per_word lc t) (flush d env s)))
  obtain ⟨a1, a2, a3, a4, a5, a6, a7, _⟩ := h2
  have hg : Grow plain (flush d env s)
      (map_for_chip d env lc
        (load_transfer lc t (bind_strategy (resolve_bits_per_word lc t) (flush d env s)))) :=
    (h1.1.grow.grow_trans (Grow_load_transfer plain lc t _)).grow_trans h3.1.grow
  refine ⟨?_, ?_, ?_, ?_, ?_, ?_, hg, hf.1.grow.grow_trans hg⟩
  · rw [h3.1.2.2.2.2.2.2.2.2.1, a1]
  · rw [h3.1.2.2.2.2.2.2.2.2.2.1, a2]
  · rw [h3.2.2.2, a3]
  · rw [h3.1.2.1, a4, h1.1.2.1, hf.1.2.1]
  · rw [h3.2.2.1, a5, h1.2.2.1, hf.2.2.1]
  · rw [h3.2.1, a6, h1.2.1, hf.2.1]

theorem cs_restore_cnt (is_last : Bool) (s : ssp_drv_context) :
    Cnt 0 (if is_last || s.cs_change then cs_calls s else 0) s (cs_restore is_last s) ∧
    (cs_restore is_last s).msg_done = s.msg_done ∧
    (cs_restore is_last s).cur_msg = s.cur_msg ∧
    Grow not_complete s (cs_restore is_last s) := by
  unfold cs_restore
  split_ifs
  · exact ⟨Cnt_cs_deassert_call s, (cs_deassert_call_frame s).1.2.1,
      (cs_deassert_call_frame s).1.1, Grow_cs_deassert_call _ (fun _ => rfl) s⟩
  · exact ⟨Cnt.cnt_refl s, rfl, rfl, Grow.grow_refl _ s⟩

/-- Chip-select accounting of one executed transfer: one assert call, the deassert
call of `handle_message` when the transfer is last or sets `cs_change`, and on the DMA
path the deassert call of the completion handler, made or still owed. -/
theorem run_transfer_cnt (d : Defs) (env : Env) (fuel : Nat) (lc lc' : hm_locals)
    (t : spi_transfer) (is_last : Bool) (s s' : ssp_drv_context)
    (h0 : s.msg_done = 0) (hcs : s.cs_control = lc.chip.cs_control)
    (h : run_transfer d env fuel lc t is_last s = some (step_result.next lc' s')) :
    lc' = next_locals lc t ∧ s'.cs_assert = s.cs_assert ∧ s'.cs_control = s.cs_control ∧
    cs_asserts s' = cs_asserts s + cs_calls s ∧
    cs_deasserts s' + owed s' =
      cs_deasserts s + (if is_last || t.cs_change then cs_calls s else 0) +
        (if lc.dma_enabled && !(next_locals lc t).normal_enabled then cs_calls s else 0) ∧
    Grow not_complete (flush d env s) s' := by
  unfold run_transfer at h
  split_ifs at h with h1 h2
  · cases h
  · obtain ⟨s9, hx, hr⟩ := Option.map_eq_some'.mp h
    injection hr with hlc hs
    subst hs
    obtain ⟨p1, p2, p3, p4, p5, p6, p7, p8⟩ := prepare_spec d env lc t s
    have hprog := Mech_program d env lc t (prepare d env lc t s)
    have hA := Cnt_cs_assert_call (program d env lc t (prepare d env lc t s))
    have hAf := cs_assert_call_frame (program d env lc t (prepare d env lc t s))
    have hAg := Grow_cs_assert_call not_complete (fun _ => rfl)
      (program d env lc t (prepare d env lc t s))
    have hpc : Cnt 0 0 s (program d env lc t (prepare d env lc t s)) := by
      have c1 : Grow no_cs s (program d env lc t (prepare d env lc t s)) :=
        (p8.grow_trans hprog.1.grow).grow_mono plain_no_cs
      obtain ⟨_, l, hl, hp⟩ := c1
      have ha : (program d env lc t (prepare d env lc t s)).cs_assert = s.cs_assert := by
        rw [hprog.1.2.1, p4]
      refine ⟨ha, ?_, ?_, ?_⟩
      · rw [hprog.1.2.2.2.2.2.2.2.2.1, p1, hcs]
      · simp only [cs_asserts, hl, ha, Nat.add_zero]
        exact count_append_quiet (Event.cs_control _) rfl _ _ hp
      · simp only [cs_deasserts, hl, ha, Nat.add_zero]
        exact count_append_quiet (Event.cs_control _) rfl _ _ hp
    have hcc : cs_calls (program d env lc t (prepare d env lc t s)) = cs_calls s :=
      cs_calls_congr hpc.2.1
    have hmd : (cs_assert_call (program d env lc t (prepare d env lc t s))).msg_done = 0 := by
      rw [hAf.1.2.1, hprog.2.2.1, p5, h0]
    obtain ⟨e1, e2, e3, e4, e5, e6⟩ := execute_cnt d env fuel _ _ _ hmd hx
    obtain ⟨r1, r2, _, r4⟩ := cs_restore_cnt is_last s9
    have hc2 := hpc.cnt_trans hA
    have hcs9 : cs_calls s9 = cs_calls s := by
      rw [cs_calls_congr e2, cs_calls_congr hA.2.1, hcc]
    have hchg : s9.cs_change = t.cs_change := by
      rw [e3, hAf.2, hprog.1.2.2.2.2.2.2.2.2.2.1, p2]
    refine ⟨hlc.symm, ?_, ?_, ?_, ?_, ?_⟩
    · rw [r1.1, e1, hc2.1]
    · rw [r1.2.1, e2, hc2.2.1]
    · have := r1.2.2.1
      have := hc2.2.2.1
      rw [hcc] at this
      omega
    · have hr := r1.2.2.2
      have ho : owed (cs_restore is_last s9) = owed s9 := owed_of_msg_done r1.2.1 r2
      have hd2 := hc2.2.2.2
      have hde : (next_locals lc t).dma_enabled = lc.dma_enabled := rfl
      rw [hchg, hcs9] at hr
      rw [cs_calls_congr hA.2.1, hcc, hde] at e5
      omega
    · exact ((((p7.grow_trans hprog.1.grow).grow_mono plain_not_complete).grow_trans hAg).grow_trans e6).grow_trans r4

/-! ## The transfer loop -/

theorem transfer_step_next (d : Defs) (env : Env) (fuel : Nat) (lc lc' : hm_locals)
    (t : spi_transfer) (is_last : Bool) (s s' : ssp_drv_context)
    (h : transfer_step d env fuel lc t is_last s = some (step_result.next lc' s')) :
    rejected d lc t = false ∧
    run_transfer d env fuel lc t is_last s = some (step_result.next lc' s') := by
  unfold transfer_step at h
  split_ifs at h with hr
  · cases h
  · exact ⟨by simpa using hr, h⟩

theorem own_deasserts_eq (ts : List spi_transfer) (h : ts ≠ []) :
    own_deasserts ts = 1 + cs_change_count ts := by
  induction ts with
  | nil => exact absurd rfl h
  | cons t rest ih =>
    cases rest with
    | nil => simp [own_deasserts, cs_change_count]
    | cons u rest2 =>
      have := ih (by simp)
      simp only [own_deasserts, cs_change_count, List.isEmpty_cons, Bool.false_or] at this ⊢
      rw [this]
      split_ifs <;> omega

theorem flush_grow (d : Defs) (env : Env) (s : ssp_drv_context) :
    Grow not_complete s (flush d env s) :=
  (io_only_flush d env s).ext.grow.grow_mono plain_not_complete

/-- Chip-select accounting of the transfer loop when it runs through all transfers:
one assert call per transfer; the deassert calls made plus the one still owed by a
pending DMA completion are the calls of `handle_message` itself plus one per transfer
run on the DMA path. -/
theorem handle_transfers_cnt (d : Defs) (env : Env) (fuel : Nat) (ts : List spi_transfer) :
    ∀ (lc : hm_locals) (s s' : ssp_drv_context), s.cs_control = lc.chip.cs_control →
    handle_transfers d env fuel ts lc s = some (false, s') →
    s'.cs_assert = s.cs_assert ∧ s'.cs_control = s.cs_control ∧
    cs_asserts s' = cs_asserts s + ts.length * cs_calls s ∧
    cs_deasserts s' + owed s' =
      cs_deasserts s + owed s + (own_deasserts ts + dma_path_count lc ts) * cs_calls s ∧
    Grow not_complete s s' := by
  induction ts with
  | nil =>
    intro lc s s' _ h
    simp only [handle_transfers, Option.some.injEq, Prod.mk.injEq, true_and] at h
    subst h
    simp [own_deasserts, dma_path_count, Grow.grow_refl]
  | cons t rest ih =>
    intro lc s s' hcs h
    unfold handle_transfers at h
    split at h
    · cases h
    · rename_i s1 hw
      obtain ⟨w1, _, w3, _⟩ := wait_for_completion_spec d env fuel s s1 hw
      split at h
      · cases h
      · cases h
      · rename_i lc2 s2 hstep
        obtain ⟨_, hrun⟩ := transfer_step_next d env fuel lc lc2 t _ _ s2 hstep
        have hi0 : (init_completion s1).msg_done = 0 := rfl
        have hics : (init_completion s1).cs_control = lc.chip.cs_control := by
          show s1.cs_control = _
          rw [w1.2.1, hcs]
        obtain ⟨r1, r2, r3, r4, r5, r6⟩ :=
          run_transfer_cnt d env fuel lc lc2 t _ (init_completion s1) s2 hi0 hics hrun
        subst r1
        have hcs2 : s2.cs_control = (next_locals lc t).chip.cs_control := by
          rw [r3]
          exact hics
        obtain ⟨i1, i2, i3, i4, i5⟩ := ih (next_locals lc t) s2 s' hcs2 h
        have c1 : cs_calls (init_completion s1) = cs_calls s := cs_calls_congr w1.2.1
        have c2 : cs_calls s2 = cs_calls s := by
          rw [cs_calls_congr r3, c1]
        have a1 : cs_asserts (init_completion s1) = cs_asserts s1 := rfl
        have a2 : cs_deasserts (init_completion s1) = cs_deasserts s1 := rfl
        have b1 := w1.2.2.1
        have b2 := w1.2.2.2
        rw [c1, a1] at r4
        rw [c1, a2] at r5
        rw [c2] at i3 i4
        refine ⟨?_, ?_, ?_, ?_, ?_⟩
        · rw [i1, r2]
          exact w1.1
        · rw [i2, r3]
          exact w1.2.1
        · simp only [List.length_cons]
          rw [i3, r4, b1]
          ring
        · simp only [own_deasserts, dma_path_count]
          have e1 : (if (rest.isEmpty || t.cs_change) = true then cs_calls s else 0) =
              (if (rest.isEmpty || t.cs_change) = true then 1 else 0) * cs_calls s := by
            split_ifs <;> simp
          have e2 : (if (lc.dma_enabled && !(next_locals lc t).normal_enabled) = true
                then cs_calls s else 0) =
              (if (lc.dma_enabled && !(next_locals lc t).normal_enabled) = true then 1 else 0)
                * cs_calls s := by
            split_ifs <;> simp
          rw [e1, e2] at r5
          have e3 : cs_deasserts s' + owed s' =
              cs_deasserts s + owed s +
                ((if (rest.isEmpty || t.cs_change) = true then 1 else 0) * cs_calls s +
                 (if (lc.dma_enabled && !(next_locals lc t).normal_enabled) = true then 1 else 0)
                   * cs_calls s +
                 (own_deasserts rest + dma_path_count (next_locals lc t) rest) * cs_calls s) := by
            omega
          rw [e3]
          ring
        · have g0 : Grow not_complete s1 (flush d env (init_completion s1)) :=
            (Grow_init_completion not_complete s1).grow_trans (flush_grow d env _)
          exact ((w3.grow_trans g0).grow_trans r6).grow_trans i5

/-! ## Growth of the trace through message handling, whatever the outcome -/

theorem execute_grow (d : Defs) (env : Env) (fuel : Nat) (lc : hm_locals)
    (s s' : ssp_drv_context) (h : execute d env fuel lc s = some s') :
    Grow not_complete s s' := by
  unfold execute at h
  split_ifs at h
  · unfold execute_dma at h
    have h1 : Mech no_cs s (next_tick (dma_transfer env (pm_qos_request d s))) :=
      (((Mech_pm_qos_request d s).mech_mono plain_no_cs).mech_trans (Mech_dma_transfer env _)).mech_trans
        (Mech_next_tick no_cs _)
    split_ifs at h
    · obtain ⟨k, _, _, _, _, hw⟩ := dma_completion_spec d env fuel _ _ h
      exact (h1.1.grow.grow_mono no_cs_not_complete).grow_trans hw
    · cases h
      exact h1.1.grow.grow_mono no_cs_not_complete
  · exact (execute_poll_spec d env fuel s s' h).1.grow.grow_mono plain_not_complete

theorem run_transfer_grow (d : Defs) (env : Env) (fuel : Nat) (lc : hm_locals)
    (t : spi_transfer) (is_last : Bool) (s : ssp_drv_context) (r : step_result)
    (h : run_transfer d env fuel lc t is_last s = some r) :
    Grow not_complete (flush d env s) r.ctx := by
  obtain ⟨_, _, _, _, _, _, p7, _⟩ := prepare_spec d env lc t s
  unfold run_transfer at h
  split_ifs at h
  · cases h
    exact p7.grow_mono plain_not_complete
  · obtain ⟨s9, hx, hr⟩ := Option.map_eq_some'.mp h
    subst hr
    have hprog := Mech_program d env lc t (prepare d env lc t s)
    have hAg := Grow_cs_assert_call not_complete (fun _ => rfl)
      (program d env lc t (prepare d env lc t s))
    have he := execute_grow d env fuel _ _ _ hx
    have hr := (cs_restore_cnt is_last s9).2.2.2
    exact ((((p7.grow_trans hprog.1.grow).grow_mono plain_not_complete).grow_trans hAg).grow_trans he).grow_trans hr

theorem call_complete_grow (s : ssp_drv_context) : Grow any_event s (call_complete s) := by
  unfold call_complete
  split
  · exact Grow.grow_refl _ s
  · split_ifs
    · exact Grow_emit any_event _ rfl s
    · exact Grow.grow_refl _ s

theorem upd_msg_grow (P : Event → Bool) (f : spi_message → spi_message) (s : ssp_drv_context) :
    Grow P s (upd_msg f s) :=
  Grow.of_trace_eq P ⟨rfl, rfl, rfl, rfl, rfl, rfl, rfl, rfl⟩ rfl

theorem reject_grow (s : ssp_drv_context) : Grow any_event s (reject s) := by
  unfold reject
  exact ((upd_msg_grow any_event _ s).grow_trans (call_complete_grow _)).grow_trans
    (Grow_set_msg_done any_event _ _)

theorem transfer_step_grow (d : Defs) (env : Env) (fuel : Nat) (lc : hm_locals)
    (t : spi_transfer) (is_last : Bool) (s : ssp_drv_context) (r : step_result)
    (h : transfer_step d env fuel lc t is_last s = some r) : Grow any_event s r.ctx := by
  unfold transfer_step at h
  split_ifs at h
  · cases h
    exact reject_grow s
  · exact ((flush_grow d env s).grow_trans (run_transfer_grow d env fuel lc t is_last s r h)).grow_mono
      (fun _ _ => rfl)

theorem wait_for_completion_grow (d : Defs) (env : Env) (fuel : Nat) (s s' : ssp_drv_context)
    (h : wait_for_completion d env fuel s = some s') : Grow any_event s s' :=
  (wait_for_completion_spec d env fuel s s' h).2.2.1.grow_mono (fun _ _ => rfl)

theorem handle_transfers_grow (d : Defs) (env : Env) (fuel : Nat) (ts : List spi_transfer) :
    ∀ (lc : hm_locals) (s : ssp_drv_context) (r : Bool × ssp_drv_context),
    handle_transfers d env fuel ts lc s = some r → Grow any_event s r.2 := by
  induction ts with
  | nil =>
    intro lc s r h
    simp only [handle_transfers, Option.some.injEq] at h
    subst h
    exact Grow.grow_refl _ s
  | cons t rest ih =>
    intro lc s r h
    unfold handle_transfers at h
    split at h
    · cases h
    · rename_i s1 hw
      have g1 := (wait_for_completion_grow d env fuel s s1 hw).grow_trans
        (Grow_init_completion any_event s1)
      split at h
      · cases h
      · rename_i s2 hstep
        cases h
        exact g1.grow_trans (transfer_step_grow d env fuel lc t _ _ _ hstep)
      · rename_i lc2 s2 hstep
        exact (g1.grow_trans (transfer_step_grow d env fuel lc t _ _ _ hstep)).grow_trans (ih lc2 s2 r h)

/-- Whatever its outcome, `handle_message` leaves the queue, the suspended flag and the
logs of the pump alone, and only appends to the trace. -/
theorem handle_message_grow (d : Defs) (env : Env) (fuel : Nat) (s s' : ssp_drv_context)
    (h : handle_message d env fuel s = some s') : Grow any_event s s' := by
  unfold handle_message at h
  split at h
  · cases h
  · rename_i msg hm
    split at h
    · cases h
    · rename_i chip hc
      have g0 : Grow any_event s (complete_msg_done { s with cs_control := chip.cs_control }) :=
        Grow.of_trace_eq any_event ⟨rfl, rfl, rfl, rfl, rfl, rfl, rfl, rfl⟩ rfl
      split at h
      · cases h
      · rename_i s1 hl
        cases h
        exact g0.grow_trans (handle_transfers_grow d env fuel _ _ _ _ hl)
      · rename_i s1 hl
        have g1 := g0.grow_trans (handle_transfers_grow d env fuel _ _ _ _ hl)
        split at h
        · cases h
        · rename_i s2 hw
          cases h
          exact (g1.grow_trans (wait_for_completion_grow d env fuel _ _ hw)).grow_trans
            (call_complete_grow s2)

theorem flush_first (d : Defs) (env : Env) (s : ssp_drv_context) :
    ∃ l, (flush d env s).trace =
      s.trace ++ Event.reg_read Reg.SSSR (env.reg Reg.SSSR s.tick) :: l := by
  have h1 : ∀ s1, io_only (is_tx_fifo_empty d env s).2 s1 →
      ∃ l, s1.trace = s.trace ++ Event.reg_read Reg.SSSR (env.reg Reg.SSSR s.tick) :: l := by
    intro s1 hio
    obtain ⟨_, l, hl, _⟩ := hio.ext.grow
    refine ⟨l, ?_⟩
    rw [hl, is_tx_fifo_empty_snd]
    simp [read_reg]
  unfold flush
  simp only []
  split_ifs
  · exact h1 _ (io_only_disable_interface d env _)
  · exact h1 _ (io_only_flush_loop d env _ _)

/-! ## The DMA lengths -/

theorem dma_done_lens (env : Env) (dir : Bool) (s : ssp_drv_context) :
    (intel_mid_ssp_spi_dma_done env dir s).len_dma_rx = s.len_dma_rx ∧
    (intel_mid_ssp_spi_dma_done env dir s).len_dma_tx = s.len_dma_tx := by
  have hm : (dma_mark_done dir s).len_dma_rx = s.len_dma_rx ∧
      (dma_mark_done dir s).len_dma_tx = s.len_dma_tx := by
    unfold dma_mark_done
    split_ifs <;> simp [emit]
  have hu : ∀ c : ssp_drv_context, (unmap_dma_buffers c).len_dma_rx = c.len_dma_rx ∧
      (unmap_dma_buffers c).len_dma_tx = c.len_dma_tx := by
    intro c
    unfold unmap_dma_buffers
    split_ifs <;> simp [emit]
  have hp : ∀ c : ssp_drv_context, (dma_post env c).len_dma_rx = c.len_dma_rx ∧
      (dma_post env c).len_dma_tx = c.len_dma_tx := by
    intro c
    unfold dma_post
    simp only []
    have h1 := hu (disable_triggers env (write_reg Reg.SSSR c.clear_sr c))
    constructor
    · show (unmap_dma_buffers _).len_dma_rx = _
      rw [h1.1]
      rfl
    · show (unmap_dma_buffers _).len_dma_tx = _
      rw [h1.2]
      rfl
  unfold intel_mid_ssp_spi_dma_done
  simp only []
  split_ifs
  · exact ⟨(hp _).1.trans hm.1, (hp _).2.trans hm.2⟩
  · exact hm

theorem dma_fire_lens (env : Env) (rxdesc txdesc : Bool) (s : ssp_drv_context) :
    (dma_fire env rxdesc txdesc s).len_dma_rx = s.len_dma_rx ∧
    (dma_fire env rxdesc txdesc s).len_dma_tx = s.len_dma_tx := by
  have hs : ∀ (dir : Bool) (c : ssp_drv_context),
      (dma_submit dir c).len_dma_rx = c.len_dma_rx ∧
      (dma_submit dir c).len_dma_tx = c.len_dma_tx := by
    intro dir c
    unfold dma_submit
    split_ifs <;> simp [emit]
  cases rxdesc <;> cases txdesc
  · exact dma_done_lens env _ (next_tick s)
  · exact hs true s
  · exact hs false s
  · show (dma_submit true (dma_submit false s)).len_dma_rx = _ ∧
      (dma_submit true (dma_submit false s)).len_dma_tx = _
    exact ⟨(hs true _).1.trans (hs false s).1, (hs true _).2.trans (hs false s).2⟩

theorem dma_transfer_lens (env : Env) (s : ssp_drv_context) :
    (dma_transfer env s).len_dma_rx = (dma_lengths s).1 ∧
    (dma_transfer env s).len_dma_tx = (dma_lengths s).2 := by
  unfold dma_transfer
  simp only []
  split_ifs
  · exact ⟨(dma_fire_lens env _ _ _).1, (dma_fire_lens env _ _ _).2⟩
  · exact ⟨rfl, rfl⟩

/-! ## Claims -/

/-- C1 (code defect): on the DMA buffer-mapping failure path `handle_message` returns
without invoking the completion callback.  For the one-transfer message `msg_dma_100`
with a non-NULL callback on a DMA-enabled chip, and a failing `dma_map_single`, the
function returns and the trace holds no completion-callback event. -/
theorem C1_map_failure_skips_completion :
    (handle_message sample_defs map_fail_env 100 (with_cur 4 msg_dma_100)).map completions
      = some 0 := by
  decide

/-- C3 (code defect): when `map_dma_buffers` fails, `handle_message` returns with the
message status still `-EINPROGRESS`, the value set by `transfer` at submission. -/
theorem C3_map_failure_leaves_status :
    (handle_message sample_defs map_fail_env 100 (with_cur 4 msg_dma_100)).map cur_status
      = some (some (-EINPROGRESS)) := by
  decide

/-- C4: with the no-trail quirk and a non-NULL `rx_dma`, for RX threshold 1, 4 or 8 and
stride 1, 2 or 4, writing `T` for threshold times stride and `P` for the length rounded
down to a multiple of 4, `dma_transfer` sets both DMA lengths to `P` when `P ≤ T` and
to `P` rounded down to a multiple of `T` when `P > T`; this length is the largest
`L ≤ len` that is a multiple of 4 and, when `P > T`, also a multiple of `T`. -/
theorem C4_dma_covered_length (env : Env) (s : ssp_drv_context)
    (hq : s.quirks.DMA_USE_NO_TRAIL = true) (hrx : s.rx_dma ≠ 0)
    (hthr : s.rx_fifo_threshold = 1 ∨ s.rx_fifo_threshold = 4 ∨ s.rx_fifo_threshold = 8)
    (hn : s.n_bytes = 1 ∨ s.n_bytes = 2 ∨ s.n_bytes = 4) :
    (dma_transfer env s).len_dma_tx = (dma_transfer env s).len_dma_rx ∧
    (4 * (s.len / 4) ≤ s.rx_fifo_threshold * s.n_bytes →
      (dma_transfer env s).len_dma_rx = 4 * (s.len / 4)) ∧
    (s.rx_fifo_threshold * s.n_bytes < 4 * (s.len / 4) →
      (dma_transfer env s).len_dma_rx =
        s.rx_fifo_threshold * s.n_bytes *
          (4 * (s.len / 4) / (s.rx_fifo_threshold * s.n_bytes))) ∧
    (dma_transfer env s).len_dma_rx ≤ s.len ∧
    4 ∣ (dma_transfer env s).len_dma_rx ∧
    (s.rx_fifo_threshold * s.n_bytes < 4 * (s.len / 4) →
      s.rx_fifo_threshold * s.n_bytes ∣ (dma_transfer env s).len_dma_rx) ∧
    (∀ L, L ≤ s.len → 4 ∣ L →
      (s.rx_fifo_threshold * s.n_bytes < 4 * (s.len / 4) → s.rx_fifo_threshold * s.n_bytes ∣ L) →
      L ≤ (dma_transfer env s).len_dma_rx) := by
  obtain ⟨h1, h2⟩ := dma_transfer_lens env s
  rw [h2, h1]
  unfold dma_lengths
  simp only [hq, if_true, TRUNCATE, clear_low2]
  rcases hthr with ht | ht | ht <;> rcases hn with hb | hb | hb <;>
    simp only [ht, hb, hrx, ne_eq, not_false_eq_true, true_and] <;>
    split_ifs <;>
    (refine ⟨rfl, ?_, ?_, ?_, ?_, ?_, ?_⟩ <;> intros <;> omega)

/-- C4, scenario B: 100 bytes in 32-bit words with RX threshold 4 give a DMA-covered
length of 96. -/
theorem C4_witness : (dma_transfer (hw_env [] false) dma_ctx_100).len_dma_rx = 96 :=
  ((C4_dma_covered_length (hw_env [] false) dma_ctx_100 rfl (by decide)
    (Or.inr (Or.inl rfl)) (Or.inr (Or.inr rfl))).2.2.1 (by decide)).trans (by decide)

/-- C5 (code defect): `drain_trail` assigns `actual_length = len_dma_rx` instead of
adding to it, so the bytes of earlier transfers are lost when a DMA transfer has
trailing bytes.  A message of the single 4-byte DMA transfer ends with
`actual_length = 4`; the message `msg_two_dma` (the same 4 bytes, then 100 bytes of
which 96 are covered by DMA), both transfers on the DMA path, ends with status 0 and
`actual_length = 100`, not `4 + 100`. -/
theorem C5_actual_length_overwritten :
    (handle_message sample_defs (hw_env [] false) 100
        (with_cur 4 (sample_msg true 2 [sample_xfer 4 8 false]))).map
        (fun s => (cur_status s, cur_actual_length s)) = some (some 0, some 4) ∧
    (handle_message sample_defs (hw_env [(26, 28)] false) 100 (with_cur 4 msg_two_dma)).map
        (fun s => (cur_status s, cur_actual_length s, completions s))
      = some (some 0, some 100, 1) := by
  constructor <;> decide

theorem and_mask_eq_mod (len bpw : Nat) (lc : hm_locals) (h : bpw ≤ 32) :
    (len &&& resolve_mask lc bpw) = len % stride_of bpw := by
  unfold resolve_mask stride_of
  split_ifs
  · simp [Nat.mod_one]
  · exact Nat.and_one_is_mod len
  · exact Nat.and_pow_two_sub_one_eq_mod len 2

theorem reject_trace (s : ssp_drv_context) :
    (reject s).trace = s.trace ++ (match s.cur_msg with
      | some m =>
        if m.complete then [Event.msg_complete m.context (-EINVAL) m.actual_length] else []
      | none => []) := by
  unfold reject complete_msg_done call_complete upd_msg
  cases hm : s.cur_msg with
  | none => simp
  | some m =>
    simp only [Option.map_some']
    split_ifs <;> simp [emit]

theorem reject_status (s : ssp_drv_context) :
    cur_status (reject s) = s.cur_msg.map (fun _ => -EINVAL) := by
  unfold reject complete_msg_done call_complete upd_msg cur_status
  cases hm : s.cur_msg with
  | none => simp
  | some m =>
    simp only [Option.map_some']
    split_ifs <;> simp [emit]

/-- C2: a transfer reached by `handle_message` is rejected exactly when its length is
zero or above `MAX_SPI_TRANSFER_SIZE`, or its resolved word width is outside
`[MIN_BITS_PER_WORD, MAX_BITS_PER_WORD]`, or its length is not a multiple of the stride
of that width.  On rejection the iteration returns from `handle_message` (so no later
transfer runs) with status `-EINVAL`, the only event appended to the trace is the
completion callback (when the message has one), and so no hardware is touched.  A
transfer that is not rejected starts with the status-register read of `flush`. -/
theorem C2_validation (d : Defs) (env : Env) (fuel : Nat) (lc : hm_locals) (t : spi_transfer)
    (is_last : Bool) (s : ssp_drv_context) (hmax : d.MAX_BITS_PER_WORD ≤ 32) :
    (rejected d lc t = true ↔
      (t.len = 0 ∨ t.len > d.MAX_SPI_TRANSFER_SIZE ∨
       resolve_bits_per_word lc t < d.MIN_BITS_PER_WORD ∨
       resolve_bits_per_word lc t > d.MAX_BITS_PER_WORD ∨
       t.len % stride_of (resolve_bits_per_word lc t) ≠ 0)) ∧
    (rejected d lc t = true →
      transfer_step d env fuel lc t is_last s = some (step_result.returned (reject s)) ∧
      (∀ rest s0 s1, wait_for_completion d env fuel s0 = some s1 → s = init_completion s1 →
        handle_transfers d env fuel (t :: rest) lc s0 = some (true, reject s)) ∧
      cur_status (reject s) = s.cur_msg.map (fun _ => -EINVAL) ∧
      (reject s).trace = s.trace ++ (match s.cur_msg with
        | some m =>
          if m.complete then [Event.msg_complete m.context (-EINVAL) m.actual_length] else []
        | none => []) ∧
      (∃ l, (reject s).trace = s.trace ++ l ∧ ∀ e ∈ l, touches_hw e = false)) ∧
    (rejected d lc t = false →
      ∀ r, transfer_step d env fuel lc t is_last s = some r →
        ∃ l, r.ctx.trace = s.trace ++ Event.reg_read Reg.SSSR (env.reg Reg.SSSR s.tick) :: l) := by
  refine ⟨?_, ?_, ?_⟩
  · unfold rejected
    simp only [Bool.or_eq_true, decide_eq_true_eq]
    by_cases hb : resolve_bits_per_word lc t ≤ 32
    · rw [and_mask_eq_mod _ _ lc hb]
      tauto
    · have : resolve_bits_per_word lc t > d.MAX_BITS_PER_WORD := by omega
      tauto
  · intro hr
    have hstep : ∀ b, transfer_step d env fuel lc t b s =
        some (step_result.returned (reject s)) := by
      intro b
      unfold transfer_step
      rw [if_pos hr]
    refine ⟨hstep is_last, ?_, reject_status s, reject_trace s, ?_⟩
    · intro rest s0 s1 hw hs
      unfold handle_transfers
      rw [hw]
      simp only []
      rw [← hs, hstep]
    · refine ⟨_, reject_trace s, ?_⟩
      intro e he
      cases hm : s.cur_msg with
      | none => simp [hm] at he
      | some m =>
        simp only [hm] at he
        split_ifs at he
        · simp only [List.mem_singleton] at he
          subst he
          rfl
        · simp at he
  · intro hr r h
    unfold transfer_step at h
    rw [if_neg (by simp [hr])] at h
    obtain ⟨_, l2, hl2, _⟩ := run_transfer_grow d env fuel lc t is_last s r h
    obtain ⟨l1, hl1⟩ := flush_first d env s
    exact ⟨l1 ++ l2, by rw [hl2, hl1]; simp⟩

/-- C2, an instance: on the sample platform a 3-byte transfer in 16-bit words is
rejected with `-EINVAL` and only the completion callback is recorded. -/
theorem C2_witness :
    transfer_step sample_defs (hw_env [] false) 10
        (hm_init msg_dma_100 (sample_chip true)) (sample_xfer 3 16 false) true
        (with_cur 4 msg_dma_100)
      = some (step_result.returned (reject (with_cur 4 msg_dma_100))) ∧
    (reject (with_cur 4 msg_dma_100)).trace = [Event.msg_complete 1 (-EINVAL) 0] :=
  ⟨((C2_validation sample_defs (hw_env [] false) 10 (hm_init msg_dma_100 (sample_chip true))
      (sample_xfer 3 16 false) true (with_cur 4 msg_dma_100) (by decide)).2.1 (by decide)).1,
   ((C2_validation sample_defs (hw_env [] false) 10 (hm_init msg_dma_100 (sample_chip true))
      (sample_xfer 3 16 false) true (with_cur 4 msg_dma_100) (by decide)).2.1
        (by decide)).2.2.2.1.trans (by decide)⟩

theorem plain_not_dma (e : Event) (h : plain e = true) : not_dma e = true := by
  cases e <;> simp_all [plain, not_dma, is_dma_event]

theorem bind_normal_enabled_erratum (lc : hm_locals) (t : spi_transfer) (bpw : Nat)
    (hb : bpw ≤ 32) (hl : t.len = erratum_len bpw) : bind_normal_enabled lc t bpw = true := by
  unfold bind_normal_enabled
  unfold erratum_len at hl
  split_ifs at hl ⊢ <;> rfl

/-- C6: a transfer whose length is the erratum length of its stride class (8, 16 or 32
bytes) sets the erratum flag, so, also on a DMA-enabled chip, the execution branch is
the polled one and no request goes to the DMA engine; whenever the iteration completes
(buffers mapped, `poll_transfer` returned) the message status is 0 and `actual_length`
has grown by exactly the transfer length. -/
theorem C6_erratum_length_polled (d : Defs) (env : Env) (fuel : Nat) (lc lc' : hm_locals)
    (t : spi_transfer) (is_last : Bool) (s s' : ssp_drv_context)
    (hbpw : resolve_bits_per_word lc t ≤ 32)
    (hlen : t.len = erratum_len (resolve_bits_per_word lc t))
    (h : transfer_step d env fuel lc t is_last s = some (step_result.next lc' s')) :
    lc'.normal_enabled = true ∧
    (∀ c, execute d env fuel lc' c = execute_poll d env fuel c) ∧
    (∃ l, s'.trace = s.trace ++ l ∧ ∀ e ∈ l, is_dma_event e = false) ∧
    s'.cur_msg =
      s.cur_msg.map (fun m => { m with status := 0, actual_length := m.actual_length + t.len }) := by
  obtain ⟨_, hrun⟩ := transfer_step_next d env fuel lc lc' t is_last s s' h
  have hne : (next_locals lc t).normal_enabled = true :=
    bind_normal_enabled_erratum lc t _ hbpw hlen
  have hex : ∀ c, execute d env fuel (next_locals lc t) c = execute_poll d env fuel c := by
    intro c
    unfold execute
    rw [if_neg (by simp [hne])]
  unfold run_transfer at hrun
  split_ifs at hrun
  · cases hrun
  · obtain ⟨s9, hx, hr⟩ := Option.map_eq_some'.mp hrun
    injection hr with hlc hs
    subst hs
    subst hlc
    rw [hex] at hx
    obtain ⟨p1, p2, p3, p4, p5, p6, p7, p8⟩ := prepare_spec d env lc t s
    have hprog := Mech_program d env lc t (prepare d env lc t s)
    have hAf := cs_assert_call_frame (program d env lc t (prepare d env lc t s))
    have hAg := Grow_cs_assert_call not_dma (fun _ => rfl)
      (program d env lc t (prepare d env lc t s))
    obtain ⟨x1, _, x3⟩ := execute_poll_spec d env fuel _ _ hx
    have hr := cs_restore_cnt is_last s9
    refine ⟨hne, hex, ?_, ?_⟩
    · have g : Grow not_dma s (cs_restore is_last s9) := by
        refine ((((p8.grow_trans hprog.1.grow).grow_mono plain_not_dma).grow_trans hAg).grow_trans
          (x1.grow.grow_mono plain_not_dma)).grow_trans ?_
        unfold cs_restore
        split_ifs
        · exact Grow_cs_deassert_call not_dma (fun _ => rfl) s9
        · exact Grow.grow_refl _ _
      obtain ⟨_, l, hl, hp⟩ := g
      refine ⟨l, hl, fun e he => ?_⟩
      have := hp e he
      simpa [not_dma] using this
    · rw [hr.2.2.1, x3, hAf.1.1, hAf.1.2.2, hprog.2.1, hprog.2.2.2, p6, p3]

theorem is_next_some {o : Option step_result} (h : o.map step_result.is_next = some true) :
    ∃ lc s, o = some (step_result.next lc s) := by
  cases o with
  | none => simp at h
  | some r =>
    cases r with
    | returned s => simp [step_result.is_next] at h
    | next lc s => exact ⟨lc, s, rfl⟩

/-- C6, scenario A: one message with one transfer of 8 bytes in 8-bit words on a
DMA-enabled chip runs on the polled path and ends with status 0 and
`actual_length = 8`. -/
theorem C6_witness :
    ∃ lc' s', transfer_step sample_defs (hw_env [(15, 31)] false) 100
        (hm_init msg_erratum (sample_chip true)) (sample_xfer 8 8 false) true
        (loop_entry 4 msg_erratum) = some (step_result.next lc' s') ∧
      lc'.normal_enabled = true ∧ cur_status s' = some 0 ∧ cur_actual_length s' = some 8 := by
  obtain ⟨lc', s', h⟩ := is_next_some (o := transfer_step sample_defs (hw_env [(15, 31)] false) 100
        (hm_init msg_erratum (sample_chip true)) (sample_xfer 8 8 false) true
        (loop_entry 4 msg_erratum)) (by decide)
  have h6 := C6_erratum_length_polled sample_defs (hw_env [(15, 31)] false) 100
    (hm_init msg_erratum (sample_chip true)) lc' (sample_xfer 8 8 false) true
    (loop_entry 4 msg_erratum) s' (by decide) (by decide) h
  refine ⟨lc', s', h, h6.1, ?_, ?_⟩
  · unfold cur_status
    rw [h6.2.2.2]
    rfl
  · unfold cur_actual_length
    rw [h6.2.2.2]
    rfl

/-- The two ways `handle_message` returns: from inside the transfer loop, with the
context the loop left, or after the loop, the final wait and the completion callback. -/
theorem handle_message_cases (d : Defs) (env : Env) (fuel : Nat) (s s' : ssp_drv_context)
    (msg : spi_message) (chip : chip_data)
    (hm : s.cur_msg = some msg) (hc : msg.spi.ctldata = some chip)
    (h : handle_message d env fuel s = some s') :
    ∃ r, handle_transfers d env fuel msg.transfers (hm_init msg chip)
        (complete_msg_done { s with cs_control := chip.cs_control }) = some r ∧
      ((r.1 = true ∧ s' = r.2) ∨
       (r.1 = false ∧ ∃ s2, wait_for_completion d env fuel r.2 = some s2 ∧
          s' = call_complete s2)) := by
  unfold handle_message at h
  split at h
  · cases h
  · rename_i msg' hm'
    rw [hm] at hm'
    cases hm'
    split at h
    · cases h
    · rename_i chip' hc'
      rw [hc] at hc'
      cases hc'
      split at h
      · cases h
      · rename_i s1 hl
        cases h
        exact ⟨_, hl, Or.inl ⟨rfl, rfl⟩⟩
      · rename_i s1 hl
        split at h
        · cases h
        · rename_i s2 hw
          cases h
          exact ⟨_, hl, Or.inr ⟨rfl, s2, hw, rfl⟩⟩

/-- C7 (as claimed, refuted), three runs of `handle_message` on a valid message with a
chip-select callback and no `cs_change` request, where the claim counts `1 + k = 1`
assert call and `1 + k = 1` deassert call.  For `msg_two_polled` (two polled
transfers) the callback asserts twice.  For `msg_dma_100` (one transfer on the DMA
path) it asserts once but deasserts twice.  For the same message, when
`dma_map_single` of the TX buffer fails, `handle_message` returns from inside its
transfer loop and the callback is not called at all. -/
theorem C7_counterexample :
    (∃ s', handle_message sample_defs (hw_env [(9, 17), (27, 35)] false) 100
        (with_cur 4 msg_two_polled) = some s' ∧
      cs_change_count msg_two_polled.transfers = 0 ∧
      ¬ (cs_asserts s' = 1 + cs_change_count msg_two_polled.transfers ∧
         cs_deasserts s' = 1 + cs_change_count msg_two_polled.transfers)) ∧
    (∃ s', handle_message sample_defs (hw_env [(14, 16)] false) 100
        (with_cur 4 msg_dma_100) = some s' ∧
      cs_change_count msg_dma_100.transfers = 0 ∧
      dma_path_count (hm_init msg_dma_100 (sample_chip true)) msg_dma_100.transfers = 1 ∧
      cs_asserts s' = 1 ∧ cs_deasserts s' = 2 ∧
      ¬ cs_deasserts s' = 1 + cs_change_count msg_dma_100.transfers) ∧
    (∃ s', handle_message sample_defs map_fail_env 100 (with_cur 4 msg_dma_100) = some s' ∧
      (handle_transfers sample_defs map_fail_env 100 msg_dma_100.transfers
        (hm_init msg_dma_100 (sample_chip true))
        (complete_msg_done { with_cur 4 msg_dma_100 with
          cs_control := (sample_chip true).cs_control })).map Prod.fst = some true ∧
      cs_asserts s' = 0 ∧ cs_deasserts s' = 0 ∧
      ¬ cs_asserts s' = 1 + cs_change_count msg_dma_100.transfers) := by
  refine ⟨?_, ?_, ?_⟩
  · have hv : (handle_message sample_defs (hw_env [(9, 17), (27, 35)] false) 100
        (with_cur 4 msg_two_polled)).map (fun s => (cs_asserts s, cs_deasserts s))
          = some (2, 1) := by decide
    obtain ⟨s', hs', hp⟩ := Option.map_eq_some'.mp hv
    refine ⟨s', hs', by decide, ?_⟩
    have h1 : cs_asserts s' = 2 := congrArg Prod.fst hp
    have h0 : cs_change_count msg_two_polled.transfers = 0 := by decide
    rw [h0, h1]
    omega
  · have hv : (handle_message sample_defs (hw_env [(14, 16)] false) 100
        (with_cur 4 msg_dma_100)).map (fun s => (cs_asserts s, cs_deasserts s))
          = some (1, 2) := by decide
    obtain ⟨s', hs', hp⟩ := Option.map_eq_some'.mp hv
    have h1 : cs_asserts s' = 1 := congrArg Prod.fst hp
    have h2 : cs_deasserts s' = 2 := congrArg Prod.snd hp
    have h0 : cs_change_count msg_dma_100.transfers = 0 := by decide
    refine ⟨s', hs', h0, by decide, h1, h2, ?_⟩
    rw [h0, h2]
    omega
  · have hv : (handle_message sample_defs map_fail_env 100
        (with_cur 4 msg_dma_100)).map (fun s => (cs_asserts s, cs_deasserts s))
          = some (0, 0) := by decide
    obtain ⟨s', hs', hp⟩ := Option.map_eq_some'.mp hv
    have h1 : cs_asserts s' = 0 := congrArg Prod.fst hp
    have h2 : cs_deasserts s' = 0 := congrArg Prod.snd hp
    have h0 : cs_change_count msg_dma_100.transfers = 0 := by decide
    refine ⟨s', hs', by decide, h1, h2, ?_⟩
    rw [h0, h1]
    omega

/-- C7 (amended): for every message with at least one transfer and a chip-select
callback, current in `handle_message`, whose transfer loop runs to its end
(`handle_message` does not return from inside the loop: no transfer is rejected and
no DMA buffer mapping fails) and for which `handle_message` returns, the callback is
called to assert exactly once per transfer, `n` times, whichever path the transfers
take; and when no transfer runs on the DMA path it is called to deassert exactly
`1 + k` times, where `k` is the number of non-final transfers that set `cs_change`.
In general the deassert calls number `1 + k` plus one for each transfer run on the DMA
path (the call of the completion handler). -/
theorem C7_chip_select_calls (d : Defs) (env : Env) (fuel : Nat) (s s' : ssp_drv_context)
    (msg : spi_message) (chip : chip_data)
    (hm : s.cur_msg = some msg) (hc : msg.spi.ctldata = some chip)
    (hcs : chip.cs_control = true) (hne : msg.transfers ≠ [])
    (hloop : (handle_transfers d env fuel msg.transfers (hm_init msg chip)
        (complete_msg_done { s with cs_control := chip.cs_control })).map Prod.fst = some false)
    (h : handle_message d env fuel s = some s') :
    cs_asserts s' = cs_asserts s + msg.transfers.length ∧
    (dma_path_count (hm_init msg chip) msg.transfers = 0 →
      cs_deasserts s' = cs_deasserts s + (1 + cs_change_count msg.transfers)) ∧
    cs_deasserts s' = cs_deasserts s + (1 + cs_change_count msg.transfers) +
      dma_path_count (hm_init msg chip) msg.transfers := by
  obtain ⟨r, hr, hf⟩ := Option.map_eq_some'.mp hloop
  obtain ⟨b, s1⟩ := r
  simp only at hf
  subst hf
  obtain ⟨r2, hr2, hcase⟩ := handle_message_cases d env fuel s s' msg chip hm hc h
  rw [hr] at hr2
  cases hr2
  rcases hcase with ⟨hb, _⟩ | ⟨_, s2, hw, rfl⟩
  · cases hb
  · have hs0 : (complete_msg_done { s with cs_control := chip.cs_control }).cs_control =
        (hm_init msg chip).chip.cs_control := rfl
    obtain ⟨l1, l2, l3, l4, _⟩ := handle_transfers_cnt d env fuel msg.transfers _ _ _ hs0 hr
    obtain ⟨w1, _, _, _⟩ := wait_for_completion_spec d env fuel s1 s2 hw
    have hcalls : cs_calls (complete_msg_done { s with cs_control := chip.cs_control }) = 1 := by
      show (if chip.cs_control = true then 1 else 0) = 1
      rw [if_pos hcs]
    have howed : owed (complete_msg_done { s with cs_control := chip.cs_control }) = 0 := by
      unfold owed
      rw [if_neg]
      show s.msg_done + 1 ≠ 0
      omega
    have ha0 : cs_asserts (complete_msg_done { s with cs_control := chip.cs_control }) =
        cs_asserts s := rfl
    have hd0 : cs_deasserts (complete_msg_done { s with cs_control := chip.cs_control }) =
        cs_deasserts s := rfl
    have hcc : Cnt 0 0 s2 (call_complete s2) := by
      unfold call_complete
      split
      · exact Cnt.cnt_refl s2
      · split_ifs
        · refine ⟨rfl, rfl, ?_, ?_⟩
          · simp [cs_asserts, emit, List.count_append, List.count_singleton]
          · simp [cs_deasserts, emit, List.count_append, List.count_singleton]
        · exact Cnt.cnt_refl s2
    have e1 := hcc.2.2.1
    have e2 := hcc.2.2.2
    have e3 := w1.2.2.1
    have e4 := w1.2.2.2
    rw [hcalls, ha0] at l3
    rw [hcalls, hd0, howed, own_deasserts_eq _ hne] at l4
    refine ⟨by omega, ?_, by omega⟩
    intro hz
    rw [hz] at l4
    omega

/-- C7, two instances.  The message `msg_two_polled` (two polled transfers, no
`cs_change`) makes two assert calls and one deassert call; the message `msg_dma_100`
(one transfer on the DMA path) makes one assert call. -/
theorem C7_witness :
    (∃ s', handle_message sample_defs (hw_env [(9, 17), (27, 35)] false) 100
        (with_cur 4 msg_two_polled) = some s' ∧
      cs_asserts s' = 2 ∧ cs_deasserts s' = 1) ∧
    (∃ s', handle_message sample_defs (hw_env [(14, 16)] false) 100
        (with_cur 4 msg_dma_100) = some s' ∧ cs_asserts s' = 1) := by
  obtain ⟨s', hs'⟩ := Option.isSome_iff_exists.mp
    (by decide : (handle_message sample_defs (hw_env [(9, 17), (27, 35)] false) 100
        (with_cur 4 msg_two_polled)).isSome = true)
  obtain ⟨t', ht'⟩ := Option.isSome_iff_exists.mp
    (by decide : (handle_message sample_defs (hw_env [(14, 16)] false) 100
        (with_cur 4 msg_dma_100)).isSome = true)
  have h := C7_chip_select_calls sample_defs (hw_env [(9, 17), (27, 35)] false) 100
    (with_cur 4 msg_two_polled) s' msg_two_polled (sample_chip false) rfl rfl rfl (by decide)
    (by decide) hs'
  have g := C7_chip_select_calls sample_defs (hw_env [(14, 16)] false) 100
    (with_cur 4 msg_dma_100) t' msg_dma_100 (sample_chip true) rfl rfl rfl (by decide)
    (by decide) ht'
  exact ⟨⟨s', hs', h.1.trans (by decide), (h.2.1 (by decide)).trans (by decide)⟩,
    ⟨t', ht', g.1.trans (by decide)⟩⟩

/-- C8 (code defect): on the DMA path `handle_message` does not wait for the
completion before its deassert call.  For the one-transfer message `msg_dma_100`, with
a DMA completion that runs only when `handle_message` blocks on the completion object,
the trace shows the TX descriptor submitted at position 18, the deassert call
`cs_control(1)` of `handle_message` right after it at position 19, and the completion
work queued only at position 27, followed by the drain of the trailing bytes
(the store of the last word at position 33). -/
theorem C8_deassert_before_completion :
    (handle_message sample_defs (hw_env [(14, 16)] false) 100 (with_cur 4 msg_dma_100)).map
        (fun s => (s.cs_assert, s.trace.indexOf (Event.dma_submit true 96),
          s.trace.indexOf (Event.cs_control 1), s.trace.indexOf Event.queue_complete_work,
          s.trace.indexOf (Event.mem_store 12384 4 0), cur_actual_length s))
      = some (0, 18, 19, 27, 33, some 100) := by
  decide

/-! ## The message pump -/

theorem transfer_fields (msg : spi_message) (s : ssp_drv_context) :
    (transfer msg s).1 = 0 ∧
    (transfer msg s).2.queue = s.queue ++ [{ msg with actual_length := 0, status := -EINPROGRESS }] ∧
    (transfer msg s).2.submitted =
      s.submitted ++ [{ msg with actual_length := 0, status := -EINPROGRESS }] ∧
    (transfer msg s).2.handled = s.handled ∧
    (transfer msg s).2.suspended = s.suspended ∧
    (transfer msg s).2.cur_msg = s.cur_msg := by
  unfold transfer
  simp only []
  split_ifs <;> simp [emit]

theorem transfer_fifo_inv (msg : spi_message) (s : ssp_drv_context) (h : fifo_inv s) :
    fifo_inv (transfer msg s).2 := by
  obtain ⟨_, hq, hs, hh, _, _⟩ := transfer_fields msg s
  unfold fifo_inv at h ⊢
  rw [hq, hs, hh, h, List.append_assoc]

theorem apply_ops_submits (ops : List Op) :
    ∀ s : ssp_drv_context, (∀ op ∈ ops, ∃ m, op = Op.submit m) →
      (fifo_inv s → fifo_inv (ops.foldl apply_op s)) ∧
      (ops.foldl apply_op s).suspended = s.suspended ∧
      (ops.foldl apply_op s).cur_msg = s.cur_msg := by
  induction ops with
  | nil =>
    intro s _
    exact ⟨fun h => h, rfl, rfl⟩
  | cons op rest ih =>
    intro s hops
    obtain ⟨m, rfl⟩ := hops op (List.mem_cons_self _ _)
    obtain ⟨i1, i2, i3⟩ := ih (apply_op s (Op.submit m))
      (fun o ho => hops o (List.mem_cons_of_mem _ ho))
    obtain ⟨_, _, _, _, hs, hc⟩ := transfer_fields m s
    refine ⟨fun h => i1 (transfer_fifo_inv m s h), ?_, ?_⟩
    · rw [List.foldl_cons, i2]
      exact hs
    · rw [List.foldl_cons, i3]
      exact hc

/-- The exit condition of the pump loop: it returns with the queue empty or the
controller suspended, and with no current message when there was none at entry. -/
theorem pump_loop_exit (d : Defs) (env : Env) (others : Nat → List Op) (fuel : Nat) :
    ∀ s s' : ssp_drv_context, pump_loop d env others fuel s = some s' →
      (s.cur_msg = none → s'.cur_msg = none) ∧ (s'.queue = [] ∨ s'.suspended = true) := by
  induction fuel with
  | zero =>
    intro s s' h
    simp [pump_loop] at h
  | succ k ih =>
    intro s s' h
    unfold pump_loop at h
    split at h
    · rename_i hq
      cases h
      exact ⟨fun hc => hc, Or.inl hq⟩
    · rename_i msg rest hq
      split_ifs at h with hs
      · cases h
        exact ⟨fun hc => hc, Or.inr hs⟩
      · split at h
        · cases h
        · rename_i s1 h1
          obtain ⟨i1, i2⟩ := ih _ _ h
          exact ⟨fun _ => i1 rfl, i2⟩

/-- The pump keeps the FIFO invariant and, when nobody suspends the controller, stays
unsuspended. -/
theorem pump_loop_fifo (d : Defs) (env : Env) (others : Nat → List Op)
    (hsub : only_submits others) (fuel : Nat) :
    ∀ s s' : ssp_drv_context, pump_loop d env others fuel s = some s' →
      fifo_inv s → s.suspended = false →
      fifo_inv s' ∧ s'.suspended = false ∧ ∃ l, s'.handled = s.handled ++ l := by
  induction fuel with
  | zero =>
    intro s s' h
    simp [pump_loop] at h
  | succ k ih =>
    intro s s' h hinv hsus
    unfold pump_loop at h
    split at h
    · cases h
      exact ⟨hinv, hsus, [], by simp⟩
    · rename_i msg rest hq
      split_ifs at h with hs
      · cases h
        exact ⟨hinv, hsus, [], by simp⟩
      · split at h
        · cases h
        · rename_i s1 h1
          obtain ⟨⟨g1, g2, g3, g4, _, _, _, _⟩, _⟩ := handle_message_grow d env k _ s1 h1
          have hinv1 : fifo_inv s1 := by
            unfold fifo_inv at hinv ⊢
            rw [g3, g4, g1]
            show s.submitted = (s.handled ++ [msg]) ++ rest
            rw [hinv, hq, List.append_assoc]
            rfl
          obtain ⟨o1, o2, _⟩ := apply_ops_submits (others k) s1 (fun op ho => hsub k op ho)
          have hsus1 : s1.suspended = false := by
            rw [g2]
            exact hsus
          obtain ⟨r1, r2, l, hl⟩ := ih _ _ h (o1 hinv1) (by
            show ((others k).foldl apply_op s1).suspended = false
            rw [o2]
            exact hsus1)
          refine ⟨r1, r2, ?_⟩
          have hh : ((others k).foldl apply_op s1).handled = s.handled ++ [msg] := by
            have : ∀ (ops : List Op) (c : ssp_drv_context), (∀ op ∈ ops, ∃ m, op = Op.submit m) →
                (ops.foldl apply_op c).handled = c.handled := by
              intro ops
              induction ops with
              | nil => intro c _; rfl
              | cons op rest2 ih2 =>
                intro c hops
                obtain ⟨m, rfl⟩ := hops op (List.mem_cons_self _ _)
                rw [List.foldl_cons, ih2 _ (fun o ho => hops o (List.mem_cons_of_mem _ ho))]
                exact (transfer_fields m c).2.2.2.1
            rw [this _ _ (fun op ho => hsub k op ho), g4]
          exact ⟨[msg] ++ l, by
            rw [hl]
            show ((others k).foldl apply_op s1).handled ++ l = _
            rw [hh, List.append_assoc]⟩

/-- Concurrent submissions leave the log of handled messages alone. -/
theorem apply_ops_handled (ops : List Op) :
    ∀ c : ssp_drv_context, (∀ op ∈ ops, ∃ m, op = Op.submit m) →
      (ops.foldl apply_op c).handled = c.handled := by
  induction ops with
  | nil => intro c _; rfl
  | cons op rest ih =>
    intro c hops
    obtain ⟨m, rfl⟩ := hops op (List.mem_cons_self _ _)
    rw [List.foldl_cons, ih _ (fun o ho => hops o (List.mem_cons_of_mem _ ho))]
    exact (transfer_fields m c).2.2.2.1

/-- The pump, which takes the head of the queue at every iteration, does what
`serve_in_order` does on the list of the messages submitted and not yet handled. -/
theorem pump_loop_serves (d : Defs) (env : Env) (others : Nat → List Op)
    (hsub : only_submits others) (fuel : Nat) :
    ∀ s s' : ssp_drv_context, pump_loop d env others fuel s = some s' →
      fifo_inv s → s.suspended = false →
      ∃ msgs, s'.submitted = s.handled ++ msgs ∧
        serve_in_order d env others fuel msgs s = some s' := by
  induction fuel with
  | zero =>
    intro s s' h
    simp [pump_loop] at h
  | succ k ih =>
    intro s s' h hinv hsus
    unfold pump_loop at h
    split at h
    · rename_i hq
      cases h
      refine ⟨[], ?_, rfl⟩
      unfold fifo_inv at hinv
      rw [hinv, hq]
    · rename_i msg rest hq
      split_ifs at h with hs
      · rw [hsus] at hs
        cases hs
      · split at h
        · cases h
        · rename_i s1 h1
          obtain ⟨⟨g1, g2, g3, g4, _, _, _, _⟩, _⟩ := handle_message_grow d env k _ s1 h1
          have hinv1 : fifo_inv s1 := by
            unfold fifo_inv at hinv ⊢
            rw [g3, g4, g1]
            show s.submitted = (s.handled ++ [msg]) ++ rest
            rw [hinv, hq, List.append_assoc]
            rfl
          obtain ⟨o1, o2, _⟩ := apply_ops_submits (others k) s1 (fun op ho => hsub k op ho)
          have hsus1 : s1.suspended = false := by
            rw [g2]
            exact hsus
          obtain ⟨msgs, hm1, hm2⟩ := ih _ _ h (o1 hinv1) (by
            show ((others k).foldl apply_op s1).suspended = false
            rw [o2]
            exact hsus1)
          have hh : ((others k).foldl apply_op s1).handled = s.handled ++ [msg] := by
            rw [apply_ops_handled _ _ (fun op ho => hsub k op ho), g4]
          have ht : s.queue.tail = rest := by rw [hq]; rfl
          refine ⟨msg :: msgs, ?_, ?_⟩
          · rw [hm1]
            show ((others k).foldl apply_op s1).handled ++ msgs = _
            rw [hh, List.append_assoc]
            rfl
          · unfold serve_in_order
            rw [ht, h1]
            exact hm2

/-- C9: `transfer` always returns 0, resets the message to status `-EINPROGRESS` and
`actual_length` 0 and appends it to the tail of the queue; `pump_messages` always
removes the head.  Hence, when the controller is never suspended, whatever
submissions other contexts make while messages are handled, the messages passed to
`handle_message` are the submitted messages, in submission order: the queue invariant
`submitted = handled ++ queue` is kept by every submission and by the pump, the pump
returns with an empty queue, so that `handled = submitted`, and the context the pump
returns is the one obtained by passing the messages submitted and not yet handled at
entry, followed by those submitted meanwhile, to `handle_message` one after another in
the order of their submission (`serve_in_order`). -/
theorem C9_fifo_order (d : Defs) (env : Env) (others : Nat → List Op) (fuel : Nat)
    (s s' : ssp_drv_context)
    (hsub : only_submits others) (hsus : s.suspended = false) (hinv : fifo_inv s)
    (h : pump_messages d env others fuel s = some s') :
    (∀ msg c, (transfer msg c).1 = 0 ∧
      (transfer msg c).2.queue =
        c.queue ++ [{ msg with actual_length := 0, status := -EINPROGRESS }] ∧
      (transfer msg c).2.submitted =
        c.submitted ++ [{ msg with actual_length := 0, status := -EINPROGRESS }] ∧
      (fifo_inv c → fifo_inv (transfer msg c).2)) ∧
    s'.handled = s'.submitted ∧ s'.queue = [] ∧ (∃ l, s'.handled = s.handled ++ l) ∧
    (∃ msgs, s'.submitted = s.handled ++ msgs ∧
      serve_in_order d env others fuel msgs s = some s') := by
  unfold pump_messages at h
  obtain ⟨f1, f2, f3⟩ := pump_loop_fifo d env others hsub fuel s s' h hinv hsus
  obtain ⟨_, e2⟩ := pump_loop_exit d env others fuel s s' h
  have hq : s'.queue = [] := by
    rcases e2 with hq | hs
    · exact hq
    · rw [f2] at hs
      cases hs
  refine ⟨fun msg c => ?_, ?_, hq, f3, pump_loop_serves d env others hsub fuel s s' h hinv hsus⟩
  · obtain ⟨t1, t2, t3, _⟩ := transfer_fields msg c
    exact ⟨t1, t2, t3, transfer_fifo_inv msg c⟩
  · unfold fifo_inv at f1
    rw [f1, hq, List.append_nil]

set_option maxRecDepth 100000 in
/-- C9, scenario C.  Two messages (contexts 7 and 8) submitted back to back to an idle
controller are passed to `handle_message` in the order of their submission: the pump
returns the context that `serve_in_order` computes from the list of submitted
messages, and the trace shows the completion callback of message 7 before that of
message 8, both with status 0.  When a third message (context 9) is submitted by
another context while the first is being handled, it is served third. -/
theorem C9_witness :
    (∃ s', pump_messages sample_defs (hw_env [(9, 17), (27, 35)] false) no_others 60
        two_submitted = some s' ∧
      s'.handled = s'.submitted ∧ s'.queue = [] ∧
      s'.handled.map (fun m => m.context) = [7, 8] ∧
      completion_log s' = [(7, 0), (8, 0)] ∧
      serve_in_order sample_defs (hw_env [(9, 17), (27, 35)] false) no_others 60
        s'.submitted two_submitted = some s') ∧
    (∃ s', pump_messages sample_defs (hw_env [(9, 17), (27, 35), (45, 53)] false)
        late_submit 60 two_submitted = some s' ∧
      s'.submitted.map (fun m => m.context) = [7, 8, 9] ∧
      completion_log s' = [(7, 0), (8, 0), (9, 0)] ∧
      serve_in_order sample_defs (hw_env [(9, 17), (27, 35), (45, 53)] false) late_submit 60
        s'.submitted two_submitted = some s') := by
  obtain ⟨s', hs', hp⟩ := Option.map_eq_some'.mp
    (by decide : (pump_messages sample_defs (hw_env [(9, 17), (27, 35)] false) no_others 60
        two_submitted).map (fun s => (s.handled.map (fun m => m.context), completion_log s)) =
          some ([7, 8], [(7, 0), (8, 0)]))
  obtain ⟨t', ht', hq⟩ := Option.map_eq_some'.mp
    (by decide : (pump_messages sample_defs (hw_env [(9, 17), (27, 35), (45, 53)] false)
        late_submit 60 two_submitted).map
          (fun s => (s.submitted.map (fun m => m.context), completion_log s)) =
          some ([7, 8, 9], [(7, 0), (8, 0), (9, 0)]))
  have h := C9_fifo_order sample_defs (hw_env [(9, 17), (27, 35)] false) no_others 60
    two_submitted s' (fun _ _ ho => by simp [no_others] at ho) rfl rfl hs'
  have g := C9_fifo_order sample_defs (hw_env [(9, 17), (27, 35), (45, 53)] false)
    late_submit 60 two_submitted t'
    (fun i op ho => by
      unfold late_submit at ho
      split_ifs at ho
      · exact ⟨_, List.mem_singleton.mp ho⟩
      · cases ho) rfl rfl ht'
  obtain ⟨m1, a1, a2⟩ := h.2.2.2.2
  obtain ⟨m2, b1, b2⟩ := g.2.2.2.2
  have e0 : two_submitted.handled = [] := rfl
  rw [e0, List.nil_append] at a1 b1
  rw [← a1] at a2
  rw [← b1] at b2
  exact ⟨⟨s', hs', h.2.1, h.2.2.1, congrArg Prod.fst hp, congrArg Prod.snd hp, a2⟩,
    ⟨t', ht', congrArg Prod.fst hq, congrArg Prod.snd hq, b2⟩⟩

/-- C10: `pump_messages` dequeues nothing while the suspended flag is set (a
controller found suspended is returned exactly as it was, queue included), and
whenever it returns, the current-message pointer, NULL at entry, is NULL again and the
queue is empty or the controller is suspended. -/
theorem C10_pump_exit (d : Defs) (env : Env) (others : Nat → List Op) (fuel : Nat)
    (s : ssp_drv_context) :
    (s.suspended = true → pump_messages d env others (fuel + 1) s = some s) ∧
    (∀ s', s.cur_msg = none → pump_messages d env others fuel s = some s' →
      s'.cur_msg = none ∧ (s'.queue = [] ∨ s'.suspended = true)) := by
  constructor
  · intro hs
    unfold pump_messages pump_loop
    split
    · rfl
    · rw [if_pos hs]
  · intro s' hc h
    unfold pump_messages at h
    obtain ⟨e1, e2⟩ := pump_loop_exit d env others fuel s s' h
    exact ⟨e1 hc, e2⟩

/-- C10, an instance: a suspended controller with one queued message is left as it
was, and the pump returns with no current message. -/
theorem C10_witness :
    pump_messages sample_defs (hw_env [] false) no_others 5 suspended_ctx = some suspended_ctx ∧
    suspended_ctx.queue = [msg_erratum] ∧ suspended_ctx.cur_msg = none ∧
    (suspended_ctx.queue = [] ∨ suspended_ctx.suspended = true) :=
  ⟨(C10_pump_exit sample_defs (hw_env [] false) no_others 4 suspended_ctx).1 rfl, rfl,
   ((C10_pump_exit sample_defs (hw_env [] false) no_others 5 suspended_ctx).2 suspended_ctx rfl
      ((C10_pump_exit sample_defs (hw_env [] false) no_others 4 suspended_ctx).1 rfl)).1,
   ((C10_pump_exit sample_defs (hw_env [] false) no_others 5 suspended_ctx).2 suspended_ctx rfl
      ((C10_pump_exit sample_defs (hw_env [] false) no_others 4 suspended_ctx).1 rfl)).2⟩

/-! ## Suspend -/

theorem suspend_wait_spec (other : Nat → ssp_drv_context → ssp_drv_context) :
    ∀ (n : Nat) (s : ssp_drv_context), 0 < n →
      (suspend_wait other n s).2.checks.length = (suspend_wait other n s).2.sleeps + 1 ∧
      (suspend_wait other n s).2.sleeps + 1 ≤ n ∧
      ((suspend_wait other n s).1 ≠ 0 ↔ false ∈ (suspend_wait other n s).2.checks) ∧
      ((suspend_wait other n s).1 = 0 ↔
        (suspend_wait other n s).2.checks = List.replicate n true) := by
  intro n
  induction n with
  | zero => intro s h; omega
  | succ n ih =>
    intro s _
    unfold suspend_wait
    by_cases hc : s.cur_msg.isSome = true
    · by_cases hn : n = 0
      · subst hn
        simp [hc]
      · have h := ih (other n s) (Nat.pos_of_ne_zero hn)
        simp only [hc, hn, if_true, if_false, ne_eq, not_false_eq_true]
        obtain ⟨h1, h2, h3, h4⟩ := h
        refine ⟨?_, ?_, ?_, ?_⟩
        · simp [h1]
        · omega
        · simpa using h3
        · simpa [List.replicate_succ] using h4
    · simp [hc]
      intro h
      have : (List.replicate (n + 1) true) = true :: List.replicate n true := rfl
      rw [this] at h
      cases h

theorem suspend_wait_frame (other : Nat → ssp_drv_context → ssp_drv_context)
    (R : ssp_drv_context → ssp_drv_context → Prop)
    (hstep : ∀ a b i, R a b → R a (other i b)) :
    ∀ (n : Nat) (a s : ssp_drv_context), R a s → R a (suspend_wait other n s).2.sspc := by
  intro n
  induction n with
  | zero => intro a s h; exact h
  | succ n ih =>
    intro a s h
    unfold suspend_wait
    by_cases hc : s.cur_msg.isSome = true
    · by_cases hn : n = 0
      · subst hn
        simpa [hc] using h
      · simp only [hc, hn, if_true, if_false, ne_eq, not_false_eq_true]
        exact ih a (other n s) (hstep a s n h)
    · simpa [hc] using h

theorem suspend_wait_idle (other : Nat → ssp_drv_context → ssp_drv_context)
    (n : Nat) (s : ssp_drv_context) (h : s.cur_msg = none) :
    suspend_wait other (n + 1) s =
      (n + 1, { ret := 0, sspc := s, checks := [false], sleeps := 0 }) := by
  unfold suspend_wait
  simp [h]

theorem suspend_idle (other : Nat → ssp_drv_context → ssp_drv_context)
    (s : ssp_drv_context) (h : s.cur_msg = none) :
    intel_mid_ssp_spi_suspend other s =
      { ret := 0, sspc := { s with suspended := true }, checks := [false], sleeps := 0 } := by
  have e : suspend_wait other 26 { s with suspended := true } =
      (26, { ret := 0, sspc := { s with suspended := true }, checks := [false], sleeps := 0 }) :=
    suspend_wait_idle other 25 { s with suspended := true } h
  unfold intel_mid_ssp_spi_suspend
  rw [e]
  rfl

/-- C12: evaluation of `intel_mid_ssp_spi_suspend` while a message stays current for
the whole wait: it sleeps 25 times and returns `-EBUSY`, and the `suspended` flag is
still 1 on return (the reset `if (!loop) sspc->suspended = 0` is never reached with
`loop == 0`), so a message submitted afterwards is queued without waking the pump. -/
theorem C12_busy_leaves_suspended :
    (intel_mid_ssp_spi_suspend nobody (with_cur 16 msg_dma_100)).ret = -EBUSY ∧
    (intel_mid_ssp_spi_suspend nobody (with_cur 16 msg_dma_100)).sleeps = 25 ∧
    (intel_mid_ssp_spi_suspend nobody (with_cur 16 msg_dma_100)).sspc.suspended = true ∧
    (with_cur 16 msg_dma_100).suspended = false ∧
    (transfer msg_dma_100
      (intel_mid_ssp_spi_suspend nobody (with_cur 16 msg_dma_100)).sspc).2.trace = [] := by
  decide

/-- C13: `intel_mid_ssp_spi_suspend` itself writes only the `suspended` flag.  With
nobody else acting during its sleeps the context it leaves is the entry context with
`suspended` set: same queue, same current message, same trace (no completion callback).
In general the context it leaves is reached from that one by the actions of the other
contexts alone.  With no message in flight it returns 0 without sleeping, and a second
call without a resume in between returns the same result and leaves the same context. -/
theorem C13_suspend_frame (other : Nat → ssp_drv_context → ssp_drv_context)
    (s : ssp_drv_context) :
    (intel_mid_ssp_spi_suspend nobody s).sspc = { s with suspended := true } ∧
    (intel_mid_ssp_spi_suspend nobody s).sspc.queue = s.queue ∧
    (intel_mid_ssp_spi_suspend nobody s).sspc.cur_msg = s.cur_msg ∧
    (intel_mid_ssp_spi_suspend nobody s).sspc.trace = s.trace ∧
    (∀ R : ssp_drv_context → ssp_drv_context → Prop,
      (∀ a, R a a) → (∀ a b i, R a b → R a (other i b)) →
      R { s with suspended := true } (intel_mid_ssp_spi_suspend other s).sspc) ∧
    (s.cur_msg = none →
      (intel_mid_ssp_spi_suspend other s).ret = 0 ∧
      (intel_mid_ssp_spi_suspend other s).sleeps = 0 ∧
      (intel_mid_ssp_spi_suspend other s).sspc = { s with suspended := true } ∧
      intel_mid_ssp_spi_suspend other (intel_mid_ssp_spi_suspend other s).sspc =
        intel_mid_ssp_spi_suspend other s) := by
  have hframe : ∀ (o : Nat → ssp_drv_context → ssp_drv_context)
      (R : ssp_drv_context → ssp_drv_context → Prop),
      (∀ a, R a a) → (∀ a b i, R a b → R a (o i b)) →
      R { s with suspended := true } (intel_mid_ssp_spi_suspend o s).sspc := by
    intro o R hr hs
    exact suspend_wait_frame o R hs 26 _ _ (hr _)
  have hn : (intel_mid_ssp_spi_suspend nobody s).sspc = { s with suspended := true } :=
    (hframe nobody (fun a b => b = a) (fun _ => rfl) (fun _ _ _ h => h))
  refine ⟨hn, by rw [hn], by rw [hn], by rw [hn], hframe other, ?_⟩
  intro h
  have h1 := suspend_idle other s h
  have h2 : intel_mid_ssp_spi_suspend other { s with suspended := true } =
      { ret := 0, sspc := { s with suspended := true }, checks := [false], sleeps := 0 } :=
    suspend_idle other { s with suspended := true } h
  rw [h1]
  exact ⟨rfl, rfl, rfl, h2⟩

/-- C13 at concrete inputs: the message in flight is finished by the pump during the
sixth sleep (the queue is as at entry), and two calls on an idle controller. -/
theorem C13_witness :
    (intel_mid_ssp_spi_suspend (finishes_at 20) (with_cur 16 msg_dma_100)).sspc.queue =
      (with_cur 16 msg_dma_100).queue ∧
    (idle_ctx 16).cur_msg = none ∧
    (intel_mid_ssp_spi_suspend nobody (idle_ctx 16)).ret = 0 ∧
    intel_mid_ssp_spi_suspend nobody (intel_mid_ssp_spi_suspend nobody (idle_ctx 16)).sspc =
      intel_mid_ssp_spi_suspend nobody (idle_ctx 16) :=
  ⟨((C13_suspend_frame (finishes_at 20) (with_cur 16 msg_dma_100)).2.2.2.2.1
      (fun a b => b.queue = a.queue) (fun _ => rfl)
      (fun a b i h => by unfold finishes_at; split <;> exact h)),
   rfl,
   ((C13_suspend_frame nobody (idle_ctx 16)).2.2.2.2.2 rfl).1,
   ((C13_suspend_frame nobody (idle_ctx 16)).2.2.2.2.2 rfl).2.2.2⟩

/-! ## Clock divider -/

theorem round_trip_base (base lo s : Int) (hs : 0 < s) (hlo : 0 ≤ lo) (hlo2 : lo ≤ 4095)
    (hb : 0 ≤ base) (h25 : base = (lo + 1) * 25000000) :
    (s ≤ 25000000 →
      s ≤ Int.tdiv base (((clamp (Int.tdiv base s - 1) lo 4095).toNat : Int) + 1)) ∧
    (25000000 ≤ s →
      Int.tdiv base (((clamp (Int.tdiv base s - 1) lo 4095).toNat : Int) + 1) = 25000000) := by
  rw [Int.tdiv_eq_ediv hb (le_of_lt hs)]
  have hq1 : base / s * s ≤ base := Int.ediv_mul_le base (ne_of_gt hs)
  have hc0 : 0 ≤ clamp (base / s - 1) lo 4095 := by
    unfold clamp
    exact le_min (le_trans hlo (le_max_right _ _)) (by decide)
  rw [Int.toNat_of_nonneg hc0]
  have hc1 : 0 ≤ clamp (base / s - 1) lo 4095 + 1 := by omega
  rw [Int.tdiv_eq_ediv hb hc1]
  constructor
  · intro hle
    have hq : lo + 1 ≤ base / s := by
      apply Int.le_ediv_of_mul_le hs
      rw [h25]
      exact Int.mul_le_mul_of_nonneg_left hle (by omega)
    by_cases hbig : base / s - 1 ≤ 4095
    · have hcl : clamp (base / s - 1) lo 4095 = base / s - 1 := by
        unfold clamp
        rw [max_eq_left (by omega), min_eq_left hbig]
      rw [hcl]
      apply Int.le_ediv_of_mul_le (by omega)
      have : base / s - 1 + 1 = base / s := by ring
      rw [this, mul_comm]
      exact hq1
    · have hcl : clamp (base / s - 1) lo 4095 = 4095 := by
        unfold clamp
        rw [min_eq_right]
        exact le_trans (by omega) (le_max_left _ _)
      rw [hcl]
      apply Int.le_ediv_of_mul_le (by decide)
      have h1 : 4097 * s ≤ base / s * s :=
        Int.mul_le_mul_of_nonneg_right (by omega) (le_of_lt hs)
      omega
  · intro hge
    have hq : base / s < lo + 2 := by
      apply Int.ediv_lt_of_lt_mul hs
      rw [h25]
      have : (lo + 1) * 25000000 ≤ (lo + 1) * s :=
        Int.mul_le_mul_of_nonneg_left hge (by omega)
      have : (lo + 2) * s = (lo + 1) * s + s := by ring
      omega
    have hcl : clamp (base / s - 1) lo 4095 = lo := by
      unfold clamp
      rw [max_eq_right (by omega), min_eq_left hlo2]
    rw [hcl, h25]
    exact Int.mul_ediv_cancel_left _ (by omega)

/-- C15 as stated fails for both frequency bases: a request of 7 MHz gets 8 333 333 Hz
on MRFL (divider 2) and 7 142 857 Hz elsewhere (divider 13). -/
theorem C15_counterexample :
    ¬ ∃ q : Quirks, ∀ s : Int, 0 < s → ssp_get_speed q (ssp_get_clk_div q s) ≤ s := by
  rintro ⟨q, h⟩
  have h7 := h 7000000 (by decide)
  unfold ssp_get_speed ssp_get_clk_div at h7
  cases hq : q.PLATFORM_MRFL <;> simp [hq] at h7 <;> revert h7 <;> decide

/-- C15, amended: for both frequency bases and every requested speed `s > 0`, the
effective speed `ssp_get_speed (ssp_get_clk_div s)` is at least `s` when `s` is at most
25 MHz, and is exactly 25 MHz when `s` is 25 MHz or more; so it does not exceed the
request exactly in the second case or when it reproduces the request. -/
theorem C15_round_trip (q : Quirks) (s : Int) (hs : 0 < s) :
    (s ≤ 25000000 → s ≤ ssp_get_speed q (ssp_get_clk_div q s)) ∧
    (25000000 ≤ s → ssp_get_speed q (ssp_get_clk_div q s) = 25000000) ∧
    (ssp_get_speed q (ssp_get_clk_div q s) ≤ s ↔
      25000000 ≤ s ∨ ssp_get_speed q (ssp_get_clk_div q s) = s) := by
  have key : (s ≤ 25000000 → s ≤ ssp_get_speed q (ssp_get_clk_div q s)) ∧
      (25000000 ≤ s → ssp_get_speed q (ssp_get_clk_div q s) = 25000000) := by
    unfold ssp_get_speed ssp_get_clk_div
    cases hq : q.PLATFORM_MRFL
    · simpa [hq] using round_trip_base 100000000 3 s hs (by decide) (by decide) (by decide)
        (by decide)
    · simpa [hq] using round_trip_base 25000000 0 s hs (by decide) (by decide) (by decide)
        (by decide)
  refine ⟨key.1, key.2, ?_⟩
  constructor
  · intro h
    by_cases h25 : 25000000 ≤ s
    · exact Or.inl h25
    · exact Or.inr (le_antisymm h (key.1 (by omega)))
  · rintro (h | h)
    · rw [key.2 h]; exact h
    · rw [h]

/-- C15 at concrete requests on the 100 MHz base: 50 MHz is served at 25 MHz, 7 MHz is
exceeded. -/
theorem C15_witness :
    ssp_get_speed sample_quirks (ssp_get_clk_div sample_quirks 50000000) = 25000000 ∧
    (7000000 : Int) ≤ ssp_get_speed sample_quirks (ssp_get_clk_div sample_quirks 7000000) :=
  ⟨(C15_round_trip sample_quirks 50000000 (by decide)).2.1 (by decide),
   (C15_round_trip sample_quirks 7000000 (by decide)).1 (by decide)⟩

/-! ## DMA completion callbacks -/

theorem dma_mark_done_trace (dir : Bool) (s : ssp_drv_context) :
    (dma_mark_done dir s).trace = s.trace ++ [Event.dma_sync dir] ∧
    (dma_mark_done dir s).txdma_done = (dir || s.txdma_done) ∧
    (dma_mark_done dir s).rxdma_done = (!dir || s.rxdma_done) ∧
    (dma_mark_done dir s).dma_mapped = s.dma_mapped ∧
    (dma_mark_done dir s).complete_work_queued = s.complete_work_queued ∧
    (dma_mark_done dir s).clear_sr = s.clear_sr ∧
    (dma_mark_done dir s).cr1_sig = s.cr1_sig ∧
    (dma_mark_done dir s).tick = s.tick := by
  cases dir <;> simp [dma_mark_done, emit]

theorem dma_post_trace (env : Env) (s : ssp_drv_context) :
    (dma_post env s).trace =
      s.trace ++ [Event.reg_write Reg.SSSR s.clear_sr,
                  Event.reg_read Reg.SSCR1 (env.reg Reg.SSCR1 s.tick),
                  Event.reg_write Reg.SSCR1 (and_not32 (env.reg Reg.SSCR1 s.tick) s.cr1_sig)] ++
        (if s.dma_mapped then [Event.dma_unmap_single false, Event.dma_unmap_single true]
         else []) ++ [Event.queue_complete_work] ∧
    (dma_post env s).dma_mapped = false ∧
    (dma_post env s).complete_work_queued = true ∧
    (dma_post env s).txdma_done = s.txdma_done ∧
    (dma_post env s).rxdma_done = s.rxdma_done := by
  cases h : s.dma_mapped <;>
    simp [dma_post, unmap_dma_buffers, disable_triggers, write_reg, read_reg, emit, h]

/-- C16: from both done flags clear (as the first block of `dma_transfer` leaves them
when both buffers are mapped), and for either order of the two callbacks of
`intel_mid_ssp_spi_dma_done` (`first` is the direction of the first one): the first
callback only synchronises its buffer and sets its flag, performing none of the shared
post-processing; the second one sets the other flag and performs the post-processing
once: one status-register clear, one trigger disable, the buffer unmap, and one
queueing of the completion work. -/
theorem C16_post_processing_once (env : Env) (first : Bool) (s : ssp_drv_context)
    (htx : s.txdma_done = false) (hrx : s.rxdma_done = false) :
    intel_mid_ssp_spi_dma_done env first s = dma_mark_done first s ∧
    work_queued (intel_mid_ssp_spi_dma_done env first s) = work_queued s ∧
    status_clears (intel_mid_ssp_spi_dma_done env first s) = status_clears s ∧
    trigger_writes (intel_mid_ssp_spi_dma_done env first s) = trigger_writes s ∧
    unmap_calls (intel_mid_ssp_spi_dma_done env first s) = unmap_calls s ∧
    (intel_mid_ssp_spi_dma_done env first s).dma_mapped = s.dma_mapped ∧
    (intel_mid_ssp_spi_dma_done env first s).complete_work_queued = s.complete_work_queued ∧
    intel_mid_ssp_spi_dma_done env (!first) (intel_mid_ssp_spi_dma_done env first s) =
      dma_post env (dma_mark_done (!first) (dma_mark_done first s)) ∧
    work_queued (intel_mid_ssp_spi_dma_done env (!first)
      (intel_mid_ssp_spi_dma_done env first s)) = work_queued s + 1 ∧
    status_clears (intel_mid_ssp_spi_dma_done env (!first)
      (intel_mid_ssp_spi_dma_done env first s)) = status_clears s + 1 ∧
    trigger_writes (intel_mid_ssp_spi_dma_done env (!first)
      (intel_mid_ssp_spi_dma_done env first s)) = trigger_writes s + 1 ∧
    unmap_calls (intel_mid_ssp_spi_dma_done env (!first)
      (intel_mid_ssp_spi_dma_done env first s)) =
        unmap_calls s + (if s.dma_mapped then 2 else 0) ∧
    (intel_mid_ssp_spi_dma_done env (!first)
      (intel_mid_ssp_spi_dma_done env first s)).dma_mapped = false ∧
    (intel_mid_ssp_spi_dma_done env (!first)
      (intel_mid_ssp_spi_dma_done env first s)).complete_work_queued = true ∧
    (∀ s0 : ssp_drv_context, s0.tx_dma ≠ 0 → s0.rx_dma ≠ 0 →
      (dma_reset_done s0).txdma_done = false ∧ (dma_reset_done s0).rxdma_done = false) := by
  obtain ⟨m1, m2, m3, m4, m5, m6, m7, m8⟩ := dma_mark_done_trace first s
  have h1 : intel_mid_ssp_spi_dma_done env first s = dma_mark_done first s := by
    unfold intel_mid_ssp_spi_dma_done
    simp only [m2, m3, htx, hrx]
    cases first <;> simp
  obtain ⟨n1, n2, n3, n4, n5, n6, n7, n8⟩ := dma_mark_done_trace (!first) (dma_mark_done first s)
  have h2 : intel_mid_ssp_spi_dma_done env (!first) (dma_mark_done first s) =
      dma_post env (dma_mark_done (!first) (dma_mark_done first s)) := by
    unfold intel_mid_ssp_spi_dma_done
    simp only [n2, n3, m2, m3, htx, hrx]
    cases first <;> simp
  obtain ⟨p1, p2, p3, _, _⟩ := dma_post_trace env (dma_mark_done (!first) (dma_mark_done first s))
  rw [h1, h2]
  rw [n1, m1, n4, m4] at p1
  refine ⟨rfl, ?_, ?_, ?_, ?_, m4, m5, rfl, ?_, ?_, ?_, ?_, p2, p3, ?_⟩
  · simp [work_queued, m1]
  · simp [status_clears, m1]
  · simp [trigger_writes, m1]
  · simp [unmap_calls, m1]
  · simp [work_queued, p1]
    cases s.dma_mapped <;> simp
  · simp [status_clears, p1]
    cases s.dma_mapped <;> simp
  · simp [trigger_writes, p1]
    cases s.dma_mapped <;> simp
  · simp [unmap_calls, p1]
    cases s.dma_mapped <;> simp
  · intro s0 h0 h0r
    simp [dma_reset_done, h0, h0r]

/-- C16 at a concrete pending transfer, RX callback first: the completion work is
queued once, by the second callback. -/
theorem C16_witness :
    dma_pending_ctx.txdma_done = false ∧ dma_pending_ctx.rxdma_done = false ∧
    work_queued (intel_mid_ssp_spi_dma_done (hw_env [] false) false dma_pending_ctx) = 0 ∧
    work_queued (intel_mid_ssp_spi_dma_done (hw_env [] false) true
      (intel_mid_ssp_spi_dma_done (hw_env [] false) false dma_pending_ctx)) = 1 :=
  ⟨rfl, rfl,
   (C16_post_processing_once (hw_env [] false) false dma_pending_ctx rfl rfl).2.1,
   (C16_post_processing_once (hw_env [] false) false dma_pending_ctx rfl rfl).2.2.2.2.2.2.2.2.1⟩

/-! ## Writers -/

theorem writer_body_spec (d : Defs) (env : Env) (stride : Nat) (v : ssp_drv_context → Nat)
    (hv : ∀ a b : ssp_drv_context, a.tx = b.tx → v a = v b)
    (s : ssp_drv_context) :
    (writer_blocked d env s →
      (writer_body d env stride v s).1 = 0 ∧
      (writer_body d env stride v s).2.trace =
        s.trace ++ [Event.reg_read Reg.SSSR (env.reg Reg.SSSR s.tick)]) ∧
    (¬ writer_blocked d env s →
      (writer_body d env stride v s).1 = stride ∧
      (writer_body d env stride v s).2.trace =
        s.trace ++ [Event.reg_read Reg.SSSR (env.reg Reg.SSSR s.tick),
                    Event.reg_write Reg.SSDR (v s)]) ∧
    (writer_body d env stride v s).2.tx = s.tx + (writer_body d env stride v s).1 ∧
    (writer_body d env stride v s).2.rx = s.rx ∧
    (writer_body d env stride v s).2.tx_end = s.tx_end ∧
    (writer_body d env stride v s).2.rx_end = s.rx_end := by
  have hv1 : v (read_reg env Reg.SSSR s).2 = v s := hv _ _ rfl
  by_cases h : writer_blocked d env s
  · have h' := h
    unfold writer_blocked at h'
    simp [writer_body, read_reg, h, h']
  · have h' := h
    unfold writer_blocked at h'
    simp [writer_body, read_reg, write_reg, emit, h, h']
    exact hv _ _ rfl

theorem call_write_spec (d : Defs) (env : Env) (s : ssp_drv_context) :
    (writer_blocked d env s →
      (call_write d env s).1 = 0 ∧
      (call_write d env s).2.trace =
        s.trace ++ [Event.reg_read Reg.SSSR (env.reg Reg.SSSR s.tick)]) ∧
    (¬ writer_blocked d env s →
      (call_write d env s).1 = unit_stride s.write s ∧
      (call_write d env s).2.trace =
        s.trace ++ [Event.reg_read Reg.SSSR (env.reg Reg.SSSR s.tick),
                    Event.reg_write Reg.SSDR (unit_value env s.write s)]) ∧
    (call_write d env s).2.tx = s.tx + (call_write d env s).1 ∧
    (call_write d env s).2.rx = s.rx ∧
    (call_write d env s).2.tx_end = s.tx_end ∧
    (call_write d env s).2.rx_end = s.rx_end := by
  unfold call_write unit_stride unit_value
  cases s.write
  · exact writer_body_spec d env s.n_bytes (fun _ => 0) (fun _ _ _ => rfl) s
  · exact writer_body_spec d env 1 (fun c => env.load 1 c.tx)
      (fun a b h => by simp only [h]) s
  · exact writer_body_spec d env 2 (fun c => env.load 2 c.tx)
      (fun a b h => by simp only [h]) s
  · exact writer_body_spec d env 4 (fun c => env.load 4 c.tx)
      (fun a b h => by simp only [h]) s

/-- C18: one invocation of the writer installed in `sspc->write` (null, u8, u16 or
u32), from any state.  It writes the data register at most once.  When the TX FIFO
level field of the status register reads all ones or `tx == tx_end` it returns 0,
writes nothing and leaves every cursor as it was; otherwise it writes exactly one unit
(zero for the null writer, else the word at `tx`), advances `tx` by the stride (1, 2, 4,
or `n_bytes` for the null writer) and returns the stride.  The return value always
equals the advance of `tx`, the other cursors never move, nothing is written exactly
in the first case, and for a positive stride `returns 0 with tx unchanged` holds
exactly in the first case. -/
theorem C18_writer_contract (d : Defs) (env : Env) (s s' : ssp_drv_context) (n : Nat)
    (hr : call_write d env s = (n, s')) :
    ssdr_writes s' ≤ ssdr_writes s + 1 ∧
    (writer_blocked d env s → n = 0 ∧ s'.tx = s.tx ∧ ssdr_writes s' = ssdr_writes s) ∧
    (¬ writer_blocked d env s →
      n = unit_stride s.write s ∧ s'.tx = s.tx + unit_stride s.write s ∧
      s'.trace = s.trace ++ [Event.reg_read Reg.SSSR (env.reg Reg.SSSR s.tick),
                             Event.reg_write Reg.SSDR (unit_value env s.write s)] ∧
      ssdr_writes s' = ssdr_writes s + 1) ∧
    s'.tx = s.tx + n ∧ s'.rx = s.rx ∧ s'.tx_end = s.tx_end ∧ s'.rx_end = s.rx_end ∧
    (ssdr_writes s' = ssdr_writes s ↔ writer_blocked d env s) ∧
    (0 < unit_stride s.write s → ((n = 0 ∧ s'.tx = s.tx) ↔ writer_blocked d env s)) := by
  obtain ⟨h1, h2, h3, h4, h5, h6⟩ := call_write_spec d env s
  rw [hr] at h1 h2 h3 h4 h5 h6
  simp only at h1 h2 h3 h4 h5 h6
  by_cases hb : writer_blocked d env s
  · obtain ⟨a, b⟩ := h1 hb
    have hw : ssdr_writes s' = ssdr_writes s := by simp [ssdr_writes, b]
    refine ⟨by omega, fun _ => ⟨a, by omega, hw⟩, fun h => absurd hb h, h3, h4, h5, h6,
      ⟨fun _ => hb, fun _ => hw⟩, fun _ => ⟨fun _ => hb, fun _ => ⟨a, by omega⟩⟩⟩
  · obtain ⟨a, b⟩ := h2 hb
    have hw : ssdr_writes s' = ssdr_writes s + 1 := by simp [ssdr_writes, b]
    refine ⟨by omega, fun h => absurd h hb, fun _ => ⟨a, by omega, b, hw⟩, h3, h4, h5, h6,
      ⟨fun h => by omega, fun h => absurd h hb⟩,
      fun hpos => ⟨fun h => by omega, fun h => absurd h hb⟩⟩

/-- C18 at a concrete 16-bit transmit state with room in the FIFO: one word is pushed
and `tx` advances by 2. -/
theorem C18_witness :
    call_write sample_defs (hw_env [] false) mid_tx_ctx =
      (2, (call_write sample_defs (hw_env [] false) mid_tx_ctx).2) ∧
    ¬ writer_blocked sample_defs (hw_env [] false) mid_tx_ctx ∧
    (call_write sample_defs (hw_env [] false) mid_tx_ctx).2.tx = mid_tx_ctx.tx + 2 :=
  ⟨rfl, by decide,
   ((C18_writer_contract sample_defs (hw_env [] false) mid_tx_ctx
      (call_write sample_defs (hw_env [] false) mid_tx_ctx).2 2 rfl).2.2.1 (by decide)).2.1⟩

/-! ## Readers -/

theorem size_sub_exact (d : Defs) (a b : Nat) (hb : b ≤ a) (ha : a < 2 ^ d.size_t_bits) :
    size_sub d a b = a - b := by
  unfold size_sub
  have hb2 : b % 2 ^ d.size_t_bits = b := Nat.mod_eq_of_lt (by omega)
  rw [hb2]
  have : a + 2 ^ d.size_t_bits - b = (a - b) + 2 ^ d.size_t_bits := by omega
  rw [this, Nat.add_mod_right]
  exact Nat.mod_eq_of_lt (by omega)

theorem reader_pull_spec (env : Env) (stride : Nat) (width : Option Nat) (s : ssp_drv_context) :
    (reader_pull env stride width s).rx = s.rx + stride ∧
    (reader_pull env stride width s).rx_end = s.rx_end ∧
    ssdr_reads (reader_pull env stride width s) = ssdr_reads s + 1 := by
  cases width <;> simp [reader_pull, read_reg, emit, ssdr_reads]

theorem read_sssr_spec (env : Env) (s : ssp_drv_context) :
    (read_reg env Reg.SSSR s).2.rx = s.rx ∧
    (read_reg env Reg.SSSR s).2.rx_end = s.rx_end ∧
    ssdr_reads (read_reg env Reg.SSSR s).2 = ssdr_reads s := by
  simp [read_reg, ssdr_reads]

theorem reader_loop_pulls (d : Defs) (env : Env) (stride : Nat) (width : Option Nat)
    (hpos : 0 < stride) :
    ∀ (fuel pkg_len : Nat) (s s' : ssp_drv_context),
      stride ∣ pkg_len → pkg_len < 2 ^ d.size_t_bits →
      reader_loop d env stride width fuel pkg_len s = some s' →
      ∃ k, k * stride ≤ pkg_len ∧ s'.rx = s.rx + k * stride ∧ s'.rx_end = s.rx_end ∧
        ssdr_reads s' = ssdr_reads s + k := by
  intro fuel
  induction fuel with
  | zero => intro pkg_len s s' _ _ h; simp [reader_loop] at h
  | succ n ih =>
    intro pkg_len s s' hdiv hlt h
    unfold reader_loop at h
    simp only [] at h
    obtain ⟨r1, r2, r3⟩ := read_sssr_spec env s
    split_ifs at h with hc
    · obtain ⟨p1, p2, p3⟩ := reader_pull_spec env stride width (read_reg env Reg.SSSR s).2
      have hle : stride ≤ pkg_len := Nat.le_of_dvd hc.2 hdiv
      rw [size_sub_exact d pkg_len stride hle hlt] at h
      obtain ⟨k, k1, k2, k3, k4⟩ := ih (pkg_len - stride) _ s'
        ((Nat.dvd_sub' hdiv (dvd_refl _))) (by omega) h
      refine ⟨k + 1, ?_, ?_, ?_, ?_⟩
      · rw [Nat.add_mul]; omega
      · rw [k2, p1, r1, Nat.add_mul]; omega
      · rw [k3, p2, r2]
      · rw [k4, p3, r3]; omega
    · cases h
      exact ⟨0, by omega, by omega, r2, by omega⟩

theorem reader_loop_total (d : Defs) (env : Env) (stride : Nat) (width : Option Nat)
    (hpos : 0 < stride) :
    ∀ (fuel pkg_len : Nat) (s : ssp_drv_context),
      stride ∣ pkg_len → pkg_len < 2 ^ d.size_t_bits → pkg_len < fuel →
      (reader_loop d env stride width fuel pkg_len s).isSome = true := by
  intro fuel
  induction fuel with
  | zero => intro pkg_len s _ _ h; omega
  | succ n ih =>
    intro pkg_len s hdiv hlt hf
    unfold reader_loop
    simp only []
    split_ifs with hc
    · have hle : stride ≤ pkg_len := Nat.le_of_dvd hc.2 hdiv
      rw [size_sub_exact d pkg_len stride hle hlt]
      exact ih _ _ (Nat.dvd_sub' hdiv (dvd_refl _)) (by omega) (by omega)
    · rfl

theorem call_read_loop (d : Defs) (env : Env) (fuel : Nat) (s : ssp_drv_context) :
    ∃ width, call_read d env fuel s =
      reader_result (reader_loop d env (unit_stride s.read s) width fuel s.len s) := by
  unfold call_read unit_stride
  cases s.read
  · exact ⟨none, rfl⟩
  · exact ⟨some 1, rfl⟩
  · exact ⟨some 2, rfl⟩
  · exact ⟨some 4, rfl⟩

theorem reader_loop_mono (d : Defs) (env : Env) (stride : Nat) (width : Option Nat) :
    ∀ (fuel pkg_len : Nat) (s s' : ssp_drv_context),
      reader_loop d env stride width fuel pkg_len s = some s' →
      s.rx ≤ s'.rx ∧ s'.rx_end = s.rx_end := by
  intro fuel
  induction fuel with
  | zero => intro pkg_len s s' h; simp [reader_loop] at h
  | succ n ih =>
    intro pkg_len s s' h
    unfold reader_loop at h
    simp only [] at h
    obtain ⟨r1, r2, _⟩ := read_sssr_spec env s
    split_ifs at h with hc
    · obtain ⟨p1, p2, _⟩ := reader_pull_spec env stride width (read_reg env Reg.SSSR s).2
      obtain ⟨k1, k2⟩ := ih _ _ s' h
      rw [p1, r1] at k1
      rw [p2, r2] at k2
      exact ⟨by omega, k2⟩
    · cases h
      exact ⟨by omega, r2⟩

theorem poll_writer_rx (d : Defs) (env : Env) (k : Nat) :
    ∀ s : ssp_drv_context, (poll_writer d env k s).rx = s.rx ∧
      (poll_writer d env k s).rx_end = s.rx_end := by
  induction k with
  | zero => intro s; exact ⟨rfl, rfl⟩
  | succ n ih =>
    intro s
    unfold poll_writer
    split_ifs
    · obtain ⟨_, _, _, w4, _, w6⟩ := call_write_spec d env s
      obtain ⟨i1, i2⟩ := ih { (call_write d env s).2 with
        wr_pkg_len := size_sub d (call_write d env s).2.wr_pkg_len (call_write d env s).1 }
      exact ⟨i1.trans w4, i2.trans w6⟩
    · exact ⟨rfl, rfl⟩

theorem poll_transfer_overrun (d : Defs) (env : Env) (fuel : Nat) :
    ∀ s : ssp_drv_context, s.rx_end < s.rx → poll_transfer d env fuel s = none := by
  induction fuel with
  | zero => intro s _; rfl
  | succ n ih =>
    intro s hlt
    unfold poll_transfer
    obtain ⟨w1, w2⟩ := poll_writer_rx d env (env.writer_calls s.tick) s
    obtain ⟨width, hw⟩ := call_read_loop d env n (poll_writer d env (env.writer_calls s.tick) s)
    rw [hw]
    cases hl : reader_loop d env
        (unit_stride (poll_writer d env (env.writer_calls s.tick) s).read
          (poll_writer d env (env.writer_calls s.tick) s)) width n
        (poll_writer d env (env.writer_calls s.tick) s).len
        (poll_writer d env (env.writer_calls s.tick) s) with
    | none => rfl
    | some s1 =>
      obtain ⟨m1, m2⟩ := reader_loop_mono d env _ _ _ _ _ _ hl
      have hne : ¬ s1.rx = s1.rx_end := by omega
      have hlt1 : s1.rx_end < s1.rx := by omega
      show (match (some (decide (s1.rx = s1.rx_end), s1) : Option (Bool × ssp_drv_context)) with
        | none => none
        | some (true, s2) => some (poll_transfer_complete s2)
        | some (false, s2) => poll_transfer d env n s2) = none
      rw [decide_eq_false hne]
      exact ih s1 hlt1

/-- C17 (code defect): the readers bound their loop by the local `pkg_len`, reloaded
from `sspc->len` at every call, and never compare `rx` with `rx_end`.  An 8-bit reader
entered with two bytes expected (`rx_end - rx = 2`) and `len = 4`, on a FIFO that stays
non-empty, pulls four words, stores the last two at `rx_end` and `rx_end + 1`, past the
end of the receive buffer, and returns false with `rx` two bytes beyond `rx_end`; from
there `rx == rx_end` never holds again and `poll_transfer` does not return, whatever
the fuel. -/
theorem C17_reader_overruns_rx_end :
    mid_rx_ctx.rx ≤ mid_rx_ctx.rx_end ∧
    unit_stride mid_rx_ctx.read mid_rx_ctx ∣ mid_rx_ctx.rx_end - mid_rx_ctx.rx ∧
    (mid_rx_ctx.rx_end - mid_rx_ctx.rx) / unit_stride mid_rx_ctx.read mid_rx_ctx = 2 ∧
    (call_read sample_defs full_rx_env 8 mid_rx_ctx).map
      (fun r => (r.1, r.2.rx, r.2.rx_end, ssdr_reads r.2 - ssdr_reads mid_rx_ctx,
        r.2.trace.filter (fun e => match e with
          | Event.mem_store _ _ _ => true
          | _ => false))) =
        some (false, 1006, 1004, 4,
          [Event.mem_store 1002 1 0, Event.mem_store 1003 1 0, Event.mem_store 1004 1 0,
           Event.mem_store 1005 1 0]) ∧
    (∀ fuel, (call_read sample_defs full_rx_env 8 mid_rx_ctx).bind
      (fun r => poll_transfer sample_defs full_rx_env fuel r.2) = none) := by
  refine ⟨by decide, by decide, by decide, by decide, ?_⟩
  intro fuel
  have hv : (call_read sample_defs full_rx_env 8 mid_rx_ctx).map
      (fun r => (r.2.rx, r.2.rx_end)) = some (1006, 1004) := by decide
  obtain ⟨r, hr, hp⟩ := Option.map_eq_some'.mp hv
  rw [hr]
  have h1 : r.2.rx = 1006 := congrArg Prod.fst hp
  have h2 : r.2.rx_end = 1004 := congrArg Prod.snd hp
  exact poll_transfer_overrun sample_defs full_rx_env fuel r.2 (by omega)

/-- The per-call budget of the readers: for the reader installed in `sspc->read` (null,
u8, u16 or u32) with a positive stride, every state whose `len` is a multiple of the
stride, and every FIFO content, one invocation returns (any fuel above `len` suffices);
it pulls one word per iteration while the FIFO reports non-empty and its local budget,
which starts at `sspc->len` on every invocation, is positive, so it pulls `k` words with
`k * stride ≤ len` and leaves `rx` advanced by `k * stride`; `rx ≤ rx_end` holds on exit
whenever `rx + len ≤ rx_end` held at entry; and it returns true exactly when
`rx == rx_end` on exit. -/
theorem reader_budget_contract (d : Defs) (env : Env) (s : ssp_drv_context)
    (hpos : 0 < unit_stride s.read s) (hdiv : unit_stride s.read s ∣ s.len)
    (hlen : s.len < 2 ^ d.size_t_bits) :
    (∀ fuel, s.len < fuel → (call_read d env fuel s).isSome = true) ∧
    (∀ fuel r, call_read d env fuel s = some r →
      (∃ k, k * unit_stride s.read s ≤ s.len ∧ r.2.rx = s.rx + k * unit_stride s.read s ∧
        ssdr_reads r.2 = ssdr_reads s + k) ∧
      r.2.rx_end = s.rx_end ∧
      (s.rx + s.len ≤ s.rx_end → r.2.rx ≤ r.2.rx_end) ∧
      (r.1 = true ↔ r.2.rx = r.2.rx_end)) := by
  constructor
  · intro fuel hf
    obtain ⟨w, hw⟩ := call_read_loop d env fuel s
    rw [hw]
    have := reader_loop_total d env _ w hpos fuel s.len s hdiv hlen hf
    obtain ⟨x, hx⟩ := Option.isSome_iff_exists.mp this
    rw [hx]
    rfl
  · intro fuel r hr
    obtain ⟨w, hw⟩ := call_read_loop d env fuel s
    rw [hw] at hr
    obtain ⟨s1, h1, rfl⟩ := Option.map_eq_some'.mp hr
    obtain ⟨k, k1, k2, k3, k4⟩ := reader_loop_pulls d env _ w hpos fuel s.len s s1 hdiv hlen h1
    refine ⟨⟨k, k1, k2, k4⟩, k3, ?_, ?_⟩
    · intro h
      show s1.rx ≤ s1.rx_end
      omega
    · show decide (s1.rx = s1.rx_end) = true ↔ s1.rx = s1.rx_end
      exact decide_eq_true_iff

/-- The first invocation of the 16-bit reader of an 8-byte transfer on a FIFO that stays
non-empty pulls four words and stops at `rx_end`. -/
theorem reader_budget_example :
    0 < unit_stride mid_tx_ctx.read mid_tx_ctx ∧
    unit_stride mid_tx_ctx.read mid_tx_ctx ∣ mid_tx_ctx.len ∧
    mid_tx_ctx.len < 2 ^ sample_defs.size_t_bits ∧
    (call_read sample_defs full_rx_env 9 mid_tx_ctx).isSome = true ∧
    (call_read sample_defs full_rx_env 9 mid_tx_ctx).map
      (fun r => (r.1, r.2.rx, r.2.rx_end)) = some (true, 1008, 1008) :=
  ⟨by decide, by decide, by decide,
   (reader_budget_contract sample_defs full_rx_env mid_tx_ctx (by decide) (by decide)
      (by decide)).1 9 (by decide),
   by decide⟩

/-! ## Concrete runs of the transfer loop -/

/-- C19: evaluation of `handle_message` on a polled message whose second transfer has
length 0, after a first valid transfer without `cs_change`.  The first transfer asserts
chip-select and, not being last, does not deassert it; the second is rejected and the
completion callback fires with `-EINVAL`: the only chip-select call before the
callback is the assert (`cs_control(sspc->cs_assert)`, level 0), no deassert is made. -/
theorem C19_reject_leaves_cs_asserted :
    (handle_message sample_defs (hw_env [(9, 17)] false) 100
      (with_cur 4 msg_late_reject)).map
        (fun s => (cs_history s, s.cs_assert, cs_asserts s, cs_deasserts s)) =
      some ([Event.cs_control 0, Event.msg_complete 9 (-EINVAL) 4], 0, 1, 0) := by
  decide

set_option maxRecDepth 100000 in
/-- C20: evaluation of `handle_message` on a DMA-enabled chip.  The message of one
100-byte transfer in 32-bit words runs on the DMA path; in the message that puts an
8-byte transfer in 8-bit words before the same 100-byte transfer, the second transfer
(length 100, not the erratum length 32 of its stride class) runs on the polled path: no
DMA channel is configured and no descriptor is submitted for the whole message, because
`normal_enabled` set by the first transfer is never cleared. -/
theorem C20_path_depends_on_earlier_transfer :
    (handle_message sample_defs (hw_env [(15, 31), (41, 200)] false) 300
      (with_cur 4 msg_erratum_then_100)).map
        (fun s => (dma_events s, completions s, cur_status s)) = some ([], 1, some 0) ∧
    (handle_message sample_defs (hw_env [(14, 16)] false) 100
      (with_cur 4 msg_dma_100)).map dma_events =
        some [Event.dma_slave_config false, Event.dma_slave_config true,
              Event.dma_submit false 96, Event.dma_submit true 96] ∧
    (sample_xfer 100 32 false).len ≠ erratum_len (sample_xfer 100 32 false).bits_per_word ∧
    (sample_chip true).dma_enabled = true := by
  decide

/-! ## Chip setup -/

/-- C14: evaluation of `setup` for a chip configured by an earlier successful `setup`
(cr0 `0x6387` with the divider of 1 MHz, cr1 `0x10000EC0` with the FIFO thresholds),
called again with `SPI_CS_HIGH` while a message of that chip is current.  The call
returns `-EAGAIN`, and the speed, timeout, DMA flag, `cs_assert` and RX threshold are as
before, but the chip's cached `cr0` has lost the clock divider (`0x87`) and its `cr1`
is 0: both are overwritten before the pending-message check. -/
theorem C14_busy_setup_clobbers_chip :
    busy_setup.map (fun p => (p.1.ret, p.2.ret)) = some (0, -EAGAIN) ∧
    busy_setup.bind (fun p => setup_config p.1) =
      some { cr0 := 0x6387, cr1 := 0x10000EC0, speed_hz := 1000000, timeout := 0,
             dma_enabled := false, cs_assert := 0, rx_fifo_threshold := 4 } ∧
    busy_setup.bind (fun p => setup_config p.2) =
      some { cr0 := 0x87, cr1 := 0, speed_hz := 1000000, timeout := 0,
             dma_enabled := false, cs_assert := 0, rx_fifo_threshold := 4 } ∧
    busy_setup.map (fun p => (p.2.sspc.cur_msg.isSome,
      p.2.spi.mode &&& sample_defs.SPI_CS_HIGH, p.1.sspc.trace, p.2.sspc.trace)) =
      some (true, 4, [], []) := by
  decide

/-! ## Clock divider: fixed point and the 6.25 MHz test -/

theorem clamp_range (v lo hi : Int) (h : lo ≤ hi) : lo ≤ clamp v lo hi ∧ clamp v lo hi ≤ hi := by
  unfold clamp
  exact ⟨le_min (le_max_right _ _) h, min_le_right _ _⟩

theorem clamp_id (v lo hi : Int) (h1 : lo ≤ v) (h2 : v ≤ hi) : clamp v lo hi = v := by
  unfold clamp
  rw [max_eq_left h1, min_eq_left h2]

theorem div_div_self (N k : Int) (hk : 1 ≤ k) (hk2 : k ≤ 4096) (hN : 4096 * 4096 ≤ N) :
    N / (N / k) = k := by
  have hkpos : 0 < k := by omega
  have hm : 4096 ≤ N / k := by
    apply Int.le_ediv_of_mul_le hkpos
    have : 4096 * k ≤ 4096 * 4096 := Int.mul_le_mul_of_nonneg_left hk2 (by decide)
    omega
  have hmpos : 0 < N / k := by omega
  have h1 : N / k * k ≤ N := Int.ediv_mul_le N (ne_of_gt hkpos)
  have h2 : N < (N / k + 1) * k := Int.lt_ediv_add_one_mul_self N hkpos
  apply le_antisymm
  · have : N / (N / k) < k + 1 := by
      apply Int.ediv_lt_of_lt_mul hmpos
      have e1 : (N / k + 1) * k = N / k * k + k := by ring
      have e2 : (k + 1) * (N / k) = N / k * k + N / k := by ring
      omega
    omega
  · apply Int.le_ediv_of_mul_le hmpos
    rw [mul_comm]
    exact h1

theorem clk_div_range (q : Quirks) (s : Int) :
    (if q.PLATFORM_MRFL then 0 else 3) ≤ ssp_get_clk_div q s ∧ ssp_get_clk_div q s ≤ 4095 := by
  unfold ssp_get_clk_div
  cases hq : q.PLATFORM_MRFL
  · have h := clamp_range (Int.tdiv 100000000 s - 1) 3 4095 (by decide)
    simp only [Bool.false_eq_true, if_false]
    omega
  · have h := clamp_range (Int.tdiv 25000000 s - 1) 0 4095 (by decide)
    simp only [if_true]
    omega

theorem clk_div_fixed (q : Quirks) (dv : Nat)
    (hlo : (if q.PLATFORM_MRFL then 0 else 3) ≤ dv) (hhi : dv ≤ 4095) :
    ssp_get_clk_div q (ssp_get_speed q dv) = dv := by
  unfold ssp_get_clk_div ssp_get_speed
  cases hq : q.PLATFORM_MRFL
  · simp only [hq, Bool.false_eq_true, if_false] at hlo ⊢
    have hd : (0 : Int) ≤ (dv : Int) + 1 := by omega
    rw [Int.tdiv_eq_ediv (by decide) hd]
    have hm : (0 : Int) ≤ 100000000 / ((dv : Int) + 1) :=
      Int.ediv_nonneg (by decide) hd
    rw [Int.tdiv_eq_ediv (by decide) hm,
      div_div_self 100000000 ((dv : Int) + 1) (by omega) (by omega) (by decide),
      clamp_id _ _ _ (by omega) (by omega)]
    simp
  · simp only [hq, if_true] at hlo ⊢
    have hd : (0 : Int) ≤ (dv : Int) + 1 := by omega
    rw [Int.tdiv_eq_ediv (by decide) hd]
    have hm : (0 : Int) ≤ 25000000 / ((dv : Int) + 1) :=
      Int.ediv_nonneg (by decide) hd
    rw [Int.tdiv_eq_ediv (by decide) hm,
      div_div_self 25000000 ((dv : Int) + 1) (by omega) (by omega) (by decide),
      clamp_id _ _ _ (by omega) (by omega)]
    simp

/-- C23: on both platforms every divider of the valid range ([0, 4095] on MRFL,
[3, 4095] elsewhere) is reproduced by `ssp_get_clk_div (ssp_get_speed d)`; hence for
every requested speed `s > 0` the divider of the negotiated speed is the divider of
`s`; the divider always lies in the valid range and equals its low 12 bits. -/
theorem C23_divider_fixed_point (q : Quirks) :
    (∀ dv : Nat, (if q.PLATFORM_MRFL then 0 else 3) ≤ dv → dv ≤ 4095 →
      ssp_get_clk_div q (ssp_get_speed q dv) = dv) ∧
    (∀ s : Int, 0 < s →
      ssp_get_clk_div q (ssp_get_speed q (ssp_get_clk_div q s)) = ssp_get_clk_div q s ∧
      (if q.PLATFORM_MRFL then 0 else 3) ≤ ssp_get_clk_div q s ∧
      ssp_get_clk_div q s ≤ 4095 ∧
      ssp_get_clk_div q s &&& 0xFFF = ssp_get_clk_div q s) := by
  refine ⟨fun dv h1 h2 => clk_div_fixed q dv h1 h2, fun s _ => ?_⟩
  obtain ⟨h1, h2⟩ := clk_div_range q s
  refine ⟨clk_div_fixed q _ h1 h2, h1, h2, ?_⟩
  have h := Nat.and_pow_two_sub_one_eq_mod (ssp_get_clk_div q s) 12
  have e : (2 : Nat) ^ 12 - 1 = 0xFFF := by decide
  rw [e] at h
  rw [h]
  exact Nat.mod_eq_of_lt (by omega)

/-- C23 at concrete values on the 100 MHz base: divider 99 (1 MHz) is a fixed point, and
a request of 7 MHz negotiates divider 13 twice. -/
theorem C23_witness :
    ssp_get_clk_div sample_quirks (ssp_get_speed sample_quirks (99 : Nat)) = 99 ∧
    ssp_get_clk_div sample_quirks
      (ssp_get_speed sample_quirks (ssp_get_clk_div sample_quirks 7000000)) =
        ssp_get_clk_div sample_quirks 7000000 :=
  ⟨(C23_divider_fixed_point sample_quirks).1 99 (by decide) (by decide),
   ((C23_divider_fixed_point sample_quirks).2 7000000 (by decide)).1⟩

theorem eff_le_limit (base lo k s : Int) (hs : 0 < s) (hs2 : s ≤ 6250000)
    (hb : base = k * 6250000) (hk : 1 ≤ k) (hk2 : k ≤ 4096) (hlo : 0 ≤ lo) (hlo2 : lo ≤ 4095) :
    Int.tdiv base (((clamp (Int.tdiv base s - 1) lo 4095).toNat : Int) + 1) ≤ 6250000 := by
  have hb0 : 0 ≤ base := by rw [hb]; positivity
  rw [Int.tdiv_eq_ediv hb0 (le_of_lt hs)]
  obtain ⟨c1, c2⟩ := clamp_range (base / s - 1) lo 4095 hlo2
  rw [Int.toNat_of_nonneg (by omega)]
  rw [Int.tdiv_eq_ediv hb0 (by omega)]
  have hq : k ≤ base / s := by
    apply Int.le_ediv_of_mul_le hs
    rw [hb]
    exact Int.mul_le_mul_of_nonneg_left hs2 (by omega)
  have hc : k - 1 ≤ clamp (base / s - 1) lo 4095 := by
    unfold clamp
    exact le_min (le_trans (by omega) (le_max_left _ _)) (by omega)
  apply Int.ediv_le_of_le_mul (by omega)
  have h1 : 6250000 * k ≤ 6250000 * (clamp (base / s - 1) lo 4095 + 1) :=
    Int.mul_le_mul_of_nonneg_left (by omega) (by decide)
  have h2 : base = 6250000 * k := by rw [hb, mul_comm]
  omega

theorem to_int_small (v : Nat) (h : v < 2 ^ 31) : to_int v = (v : Int) := by
  unfold to_int
  have : v % 2 ^ 32 = v := Nat.mod_eq_of_lt (by omega)
  rw [this, if_pos h]

theorem speed_test_agrees (q : Quirks) (speed_hz : Nat) (h0 : 0 < speed_hz)
    (h31 : speed_hz < 2 ^ 31) :
    speed_hz > 6250000 ↔
      ssp_get_speed q (ssp_get_clk_div q (to_int speed_hz)) > 6250000 := by
  rw [to_int_small speed_hz h31]
  have hs : (0 : Int) < (speed_hz : Int) := by omega
  unfold ssp_get_speed ssp_get_clk_div
  cases hq : q.PLATFORM_MRFL
  · simp only [Bool.false_eq_true, if_false]
    have h1 := round_trip_base 100000000 3 speed_hz hs (by decide) (by decide) (by decide)
      (by decide)
    have h2 := eff_le_limit 100000000 3 16 speed_hz hs
    constructor
    · intro h
      by_cases h25 : (speed_hz : Int) ≤ 25000000
      · have := h1.1 h25
        omega
      · have := h1.2 (by omega)
        omega
    · intro h
      by_contra hn
      have := h2 (by omega) (by decide) (by decide) (by decide) (by decide) (by decide)
      omega
  · simp only [if_true]
    have h1 := round_trip_base 25000000 0 speed_hz hs (by decide) (by decide) (by decide)
      (by decide)
    have h2 := eff_le_limit 25000000 0 4 speed_hz hs
    constructor
    · intro h
      by_cases h25 : (speed_hz : Int) ≤ 25000000
      · have := h1.1 h25
        omega
      · have := h1.2 (by omega)
        omega
    · intro h
      by_contra hn
      have := h2 (by omega) (by decide) (by decide) (by decide) (by decide) (by decide)
      omega

theorem or_and_self_mask (v m : Nat) : (v ||| m) &&& m = m := by
  apply Nat.eq_of_testBit_eq
  intro i
  simp only [Nat.testBit_and, Nat.testBit_or]
  cases v.testBit i <;> cases m.testBit i <;> rfl

theorem and_not32_clears (v m : Nat) (hm : m < 2 ^ 32) : and_not32 v m &&& m = 0 := by
  unfold and_not32
  rw [Nat.mod_eq_of_lt hm]
  apply Nat.eq_of_testBit_eq
  intro i
  have e : (0xFFFFFFFF : Nat) = 2 ^ 32 - 1 := by decide
  simp only [Nat.testBit_and, Nat.testBit_xor, Nat.zero_testBit, e, Nat.testBit_two_pow_sub_one]
  by_cases hi : i < 32
  · simp only [hi, decide_True]
    cases v.testBit i <;> cases m.testBit i <;> rfl
  · have : m.testBit i = false :=
      Nat.testBit_lt_two_pow (lt_of_lt_of_le hm (Nat.pow_le_pow_right (by decide) (by omega)))
    simp [this]

/-- C21: on the enable path that does not bit-bang, `handle_message` writes `SSCR2`
once, with the clock-delay enable bit ored in when the requested speed exceeds
6 250 000 Hz and masked out otherwise; for every requested speed `0 < s < 2^31` and
both platform bases the test on the requested speed has the same outcome as the test
on the effective speed `ssp_get_speed (ssp_get_clk_div s)`, so the bit is set exactly
when the effective speed exceeds 6 250 000 Hz. -/
theorem C21_clock_delay_on_effective_speed (d : Defs) (env : Env) (lc : hm_locals)
    (speed_hz cr0 : Nat) (s : ssp_drv_context) (h0 : 0 < speed_hz) (h31 : speed_hz < 2 ^ 31) :
    (speed_hz > 6250000 ↔
      ssp_get_speed s.quirks (ssp_get_clk_div s.quirks (to_int speed_hz)) > 6250000) ∧
    (clock_delay d env speed_hz s).trace = s.trace ++
      [Event.reg_read Reg.SSCR2 (env.reg Reg.SSCR2 s.tick),
       Event.reg_write Reg.SSCR2
        (if ssp_get_speed s.quirks (ssp_get_clk_div s.quirks (to_int speed_hz)) > 6250000
         then env.reg Reg.SSCR2 s.tick ||| d.SSCR2_CLK_DEL_EN
         else and_not32 (env.reg Reg.SSCR2 s.tick) d.SSCR2_CLK_DEL_EN)] ∧
    (((sync_check d env s).1 && s.quirks.BIT_BANGING) = false →
      start_ssp d env lc speed_hz cr0 s =
        restart_ssp d (cr0_with_clk d s.quirks speed_hz cr0)
          (clock_delay d env speed_hz (sync_check d env s).2)) ∧
    (d.SSCR2_CLK_DEL_EN < 2 ^ 32 → ∀ v : Nat,
      (v ||| d.SSCR2_CLK_DEL_EN) &&& d.SSCR2_CLK_DEL_EN = d.SSCR2_CLK_DEL_EN ∧
      and_not32 v d.SSCR2_CLK_DEL_EN &&& d.SSCR2_CLK_DEL_EN = 0) := by
  have hag := speed_test_agrees s.quirks speed_hz h0 h31
  refine ⟨hag, ?_, ?_, ?_⟩
  · unfold clock_delay
    by_cases h : speed_hz > 6250000
    · rw [if_pos h, if_pos (hag.mp h)]
      simp [write_reg, read_reg, emit]
    · rw [if_neg h, if_neg (fun h2 => h (hag.mpr h2))]
      simp [write_reg, read_reg, emit]
  · intro hb
    unfold start_ssp
    rw [hb]
    rfl
  · intro hm v
    exact ⟨or_and_self_mask v _, and_not32_clears v _ hm⟩

/-- C21 at a concrete request on the 100 MHz base: 7 MHz is above the limit on both
tests and the enable bit is ored into the value read. -/
theorem C21_witness :
    (0 : Nat) < 7000000 ∧ (7000000 : Nat) < 2 ^ 31 ∧
    (clock_delay sample_defs (hw_env [] false) 7000000 (idle_ctx 4)).trace =
      [Event.reg_read Reg.SSCR2 0, Event.reg_write Reg.SSCR2 8] :=
  ⟨by decide, by decide,
   (C21_clock_delay_on_effective_speed sample_defs (hw_env [] false)
      (hm_init msg_dma_100 (sample_chip true)) 7000000 0 (idle_ctx 4) (by decide) (by decide)).2.1⟩

/-! ## RX threshold of short transfers and trailing length -/

theorem short_arith (L N T : Nat) (hT : T = 1 ∨ T = 4 ∨ T = 8) (hN : N = 1 ∨ N = 2 ∨ N = 4)
    (hdiv : N ∣ L) (hshort : L / N ≤ T) :
    (L - L % 4) / N ≤ T ∧ ¬ (L - L % 4 > T * N) ∧ (L - L % 4) / N * N = L - L % 4 ∧
    ((L - L % 4) / N = 0 ↔ L < 4) := by
  rcases hT with rfl | rfl | rfl <;> rcases hN with rfl | rfl | rfl <;>
    refine ⟨?_, ?_, ?_, ?_⟩ <;> omega

/-- C22: with the no-trail quirk, for RX threshold 1, 4 or 8, stride 1, 2 or 4 and a
length that is a multiple of the stride.  When `len / n_bytes` is at most the
threshold, `handle_message` programs `SSCR1` with the threshold field replaced by
`SSCR1_RxTresh t`, `t = (len & ~3) / n_bytes`; this `t` is at most the configured
threshold, `t * n_bytes` is the RX length `dma_transfer` computes for the same length,
stride and threshold, and `t` is 0 exactly when `len < 4`.  For a longer transfer the
value written to `SSCR1` is `saved_cr1 | cr1_sig`, with the chip's threshold field as
configured. -/
theorem C22_short_transfer_threshold (d : Defs) (env : Env) (lc : hm_locals)
    (s : ssp_drv_context) (hq : s.quirks.DMA_USE_NO_TRAIL = true)
    (hthr : s.rx_fifo_threshold = 1 ∨ s.rx_fifo_threshold = 4 ∨ s.rx_fifo_threshold = 8)
    (hn : s.n_bytes = 1 ∨ s.n_bytes = 2 ∨ s.n_bytes = 4)
    (hdiv : s.n_bytes ∣ s.len) :
    (s.len / s.n_bytes ≤ s.rx_fifo_threshold →
      (program_cr1 d lc s).trace = s.trace ++
        [Event.reg_write Reg.SSCR1
          ((and_not32 (lc.saved_cr1 ||| s.cr1_sig) d.SSCR1_RFT) |||
            (d.SSCR1_RxTresh (clear_low2 s.len / s.n_bytes) &&& d.SSCR1_RFT))] ∧
      clear_low2 s.len / s.n_bytes ≤ s.rx_fifo_threshold ∧
      (∀ s2 : ssp_drv_context, s2.quirks = s.quirks → s2.len = s.len →
        s2.n_bytes = s.n_bytes → s2.rx_fifo_threshold = s.rx_fifo_threshold →
        clear_low2 s.len / s.n_bytes * s.n_bytes = (dma_transfer env s2).len_dma_rx) ∧
      (clear_low2 s.len / s.n_bytes = 0 ↔ s.len < 4)) ∧
    (¬ s.len / s.n_bytes ≤ s.rx_fifo_threshold →
      (program_cr1 d lc s).trace = s.trace ++
        [Event.reg_write Reg.SSTO lc.timeout,
         Event.reg_write Reg.SSCR1 (lc.saved_cr1 ||| s.cr1_sig)] ∧
      (s.cr1_sig &&& d.SSCR1_RFT = 0 →
        (lc.saved_cr1 ||| s.cr1_sig) &&& d.SSCR1_RFT = lc.saved_cr1 &&& d.SSCR1_RFT)) := by
  constructor
  · intro hshort
    obtain ⟨a1, a2, a3, a4⟩ := short_arith s.len s.n_bytes s.rx_fifo_threshold hthr hn hdiv hshort
    refine ⟨?_, a1, ?_, a4⟩
    · unfold program_cr1
      simp [hq, hshort, write_reg, emit]
    · intro s2 e1 e2 e3 e4
      rw [(dma_transfer_lens env s2).1]
      unfold dma_lengths
      rw [e1, e2, e3, e4]
      have hle : ¬ (s2.rx_dma ≠ 0 ∧ clear_low2 s.len > s.rx_fifo_threshold * s.n_bytes) :=
        fun h => a2 h.2
      simp only [hq, if_true, if_neg hle]
      exact a3
  · intro hlong
    constructor
    · unfold program_cr1
      simp [hq, hlong, write_reg, emit]
    · intro h0
      apply Nat.eq_of_testBit_eq
      intro i
      have hb : (s.cr1_sig &&& d.SSCR1_RFT).testBit i = false := by
        rw [h0]
        exact Nat.zero_testBit i
      simp only [Nat.testBit_and, Nat.testBit_or] at hb ⊢
      revert hb
      cases lc.saved_cr1.testBit i <;> cases s.cr1_sig.testBit i <;>
        cases d.SSCR1_RFT.testBit i <;> simp

/-- C22 at a concrete short transfer (6 bytes, stride 2, threshold 4): the adjusted
threshold is 2 words and covers the 4 bytes `dma_transfer` moves. -/
theorem C22_witness :
    short_dma_ctx.len / short_dma_ctx.n_bytes ≤ short_dma_ctx.rx_fifo_threshold ∧
    clear_low2 short_dma_ctx.len / short_dma_ctx.n_bytes = 2 ∧
    clear_low2 short_dma_ctx.len / short_dma_ctx.n_bytes * short_dma_ctx.n_bytes =
      (dma_transfer (hw_env [] false) short_dma_ctx).len_dma_rx :=
  ⟨by decide, by decide,
   ((C22_short_transfer_threshold sample_defs (hw_env [] false)
      (hm_init msg_dma_100 (sample_chip true)) short_dma_ctx rfl (Or.inr (Or.inl rfl))
      (Or.inr (Or.inl rfl)) (by decide)).1 (by decide)).2.2.1 short_dma_ctx rfl rfl rfl rfl⟩

theorem trail_arith (L N T R : Nat) (hT : T = 1 ∨ T = 4 ∨ T = 8)
    (hN : N = 1 ∨ N = 2 ∨ N = 4) (hdiv : N ∣ L) :
    (if R ≠ 0 ∧ L - L % 4 > T * N then (L - L % 4) - (L - L % 4) % (T * N) else L - L % 4) ≤ L ∧
    N ∣ L - (if R ≠ 0 ∧ L - L % 4 > T * N then (L - L % 4) - (L - L % 4) % (T * N)
             else L - L % 4) ∧
    L - (if R ≠ 0 ∧ L - L % 4 > T * N then (L - L % 4) - (L - L % 4) % (T * N)
         else L - L % 4) < max 4 (T * N) := by
  rcases hT with rfl | rfl | rfl <;> rcases hN with rfl | rfl | rfl <;>
    simp only [Nat.reduceMul] <;> split_ifs <;> refine ⟨?_, ?_, ?_⟩ <;> omega

/-- C24: whenever `dma_transfer` computes the DMA lengths (the no-trail quirk is set or
the RX buffer is mapped), for RX threshold 1, 4 or 8, stride 1, 2 or 4 and a length
that is a multiple of the stride: the length `dma_transfer` leaves to
`drain_trail`, `len - len_dma_rx`, is a multiple of the stride and strictly less than
`max 4 (thr * n)`; and once `drain_trail` has advanced `tx` and `rx` by the DMA lengths
(from cursors `len` bytes before their ends), the distances to `tx_end` and `rx_end`
are that trailing length, a multiple of the stride, so a whole number of stride-sized
steps reaches both ends exactly. -/
theorem C24_trailing_length (env : Env) (s : ssp_drv_context)
    (hq : s.quirks.DMA_USE_NO_TRAIL = true ∨ s.rx_dma ≠ 0)
    (hthr : s.rx_fifo_threshold = 1 ∨ s.rx_fifo_threshold = 4 ∨ s.rx_fifo_threshold = 8)
    (hn : s.n_bytes = 1 ∨ s.n_bytes = 2 ∨ s.n_bytes = 4)
    (hdiv : s.n_bytes ∣ s.len) :
    (dma_transfer env s).len_dma_tx = (dma_transfer env s).len_dma_rx ∧
    (dma_transfer env s).len_dma_rx ≤ s.len ∧
    s.n_bytes ∣ s.len - (dma_transfer env s).len_dma_rx ∧
    s.len - (dma_transfer env s).len_dma_rx < max 4 (s.rx_fifo_threshold * s.n_bytes) ∧
    (∀ s3 : ssp_drv_context, s3.len = s.len →
      s3.len_dma_rx = (dma_transfer env s).len_dma_rx →
      s3.len_dma_tx = (dma_transfer env s).len_dma_tx →
      s3.tx_end = s3.tx + s3.len → s3.rx_end = s3.rx + s3.len →
      (drain_start s3).len = s.len - (dma_transfer env s).len_dma_rx ∧
      (drain_start s3).tx_end - (drain_start s3).tx = (drain_start s3).len ∧
      (drain_start s3).rx_end - (drain_start s3).rx = (drain_start s3).len ∧
      s.n_bytes ∣ (drain_start s3).tx_end - (drain_start s3).tx ∧
      s.n_bytes ∣ (drain_start s3).rx_end - (drain_start s3).rx ∧
      ∃ k, (drain_start s3).tx + k * s.n_bytes = (drain_start s3).tx_end ∧
           (drain_start s3).rx + k * s.n_bytes = (drain_start s3).rx_end) := by
  obtain ⟨h1, h2⟩ := dma_transfer_lens env s
  have key : (dma_lengths s).2 = (dma_lengths s).1 ∧ (dma_lengths s).1 ≤ s.len ∧
      s.n_bytes ∣ s.len - (dma_lengths s).1 ∧
      s.len - (dma_lengths s).1 < max 4 (s.rx_fifo_threshold * s.n_bytes) := by
    cases hnt : s.quirks.DMA_USE_NO_TRAIL with
    | false =>
      have hrx : s.rx_dma ≠ 0 := by
        rcases hq with h | h
        · rw [hnt] at h
          cases h
        · exact h
      have e : dma_lengths s = (s.len, s.len) := by
        unfold dma_lengths
        simp [hnt, hrx]
      rw [e]
      refine ⟨rfl, le_refl _, ?_, ?_⟩
      · simp
      · have : (4 : Nat) ≤ max 4 (s.rx_fifo_threshold * s.n_bytes) := le_max_left _ _
        simp only [Nat.sub_self]
        omega
    | true =>
      have hl : (dma_lengths s).1 =
          (if s.rx_dma ≠ 0 ∧ s.len - s.len % 4 > s.rx_fifo_threshold * s.n_bytes
           then (s.len - s.len % 4) - (s.len - s.len % 4) % (s.rx_fifo_threshold * s.n_bytes)
           else s.len - s.len % 4) ∧ (dma_lengths s).2 = (dma_lengths s).1 := by
        unfold dma_lengths
        simp only [hnt, if_true, TRUNCATE, clear_low2]
        split_ifs <;> exact ⟨rfl, rfl⟩
      obtain ⟨a1, a2, a3⟩ :=
        trail_arith s.len s.n_bytes s.rx_fifo_threshold s.rx_dma hthr hn hdiv
      rw [← hl.1] at a1 a2 a3
      exact ⟨hl.2, a1, a2, a3⟩
  obtain ⟨k0, a1, a2, a3⟩ := key
  rw [← h1] at a1 a2 a3
  have htx : (dma_transfer env s).len_dma_tx = (dma_transfer env s).len_dma_rx := by
    rw [h1, h2, k0]
  refine ⟨htx, a1, a2, a3, ?_⟩
  intro s3 e1 e2 e3 e4 e5
  have p1 : (drain_start s3).len = s3.len - s3.len_dma_rx := by simp [drain_start, upd_msg]
  have p2 : (drain_start s3).tx = s3.tx + s3.len_dma_tx := by simp [drain_start, upd_msg]
  have p3 : (drain_start s3).rx = s3.rx + s3.len_dma_rx := by simp [drain_start, upd_msg]
  have p4 : (drain_start s3).tx_end = s3.tx_end := by simp [drain_start, upd_msg]
  have p5 : (drain_start s3).rx_end = s3.rx_end := by simp [drain_start, upd_msg]
  rw [p1, p2, p3, p4, p5, e4, e5, e3, e2, htx, e1]
  obtain ⟨k, hk⟩ := a2
  refine ⟨rfl, by omega, by omega, ?_, ?_, ⟨k, ?_, ?_⟩⟩
  · have : s3.tx + s.len - (s3.tx + (dma_transfer env s).len_dma_rx) =
        s.len - (dma_transfer env s).len_dma_rx := by omega
    rw [this]
    exact ⟨k, hk⟩
  · have : s3.rx + s.len - (s3.rx + (dma_transfer env s).len_dma_rx) =
        s.len - (dma_transfer env s).len_dma_rx := by omega
    rw [this]
    exact ⟨k, hk⟩
  · rw [mul_comm k]; omega
  · rw [mul_comm k]; omega

/-- C24 at the 100-byte transfer (stride 4, threshold 4): 96 bytes go by DMA and the
trailing 4 bytes are one stride from both ends. -/
theorem C24_witness :
    dma_ctx_100.len - (dma_transfer (hw_env [] false) dma_ctx_100).len_dma_rx = 4 ∧
    (drain_start drain_ctx_100).tx_end - (drain_start drain_ctx_100).tx = 4 ∧
    4 ∣ (drain_start drain_ctx_100).rx_end - (drain_start drain_ctx_100).rx :=
  ⟨by decide,
   by decide,
   ((C24_trailing_length (hw_env [] false) dma_ctx_100 (Or.inl rfl) (Or.inr (Or.inl rfl))
      (Or.inr (Or.inr rfl)) (by decide)).2.2.2.2 drain_ctx_100 rfl (by decide) (by decide)
      rfl rfl).2.2.2.2.1⟩

/-! ## Chip setup: a second call -/

theorem dma_init_keeps (env : Env) (s : ssp_drv_context) :
    (intel_mid_ssp_spi_dma_init env s).quirks = s.quirks ∧
    (intel_mid_ssp_spi_dma_init env s).cs_assert = s.cs_assert ∧
    (intel_mid_ssp_spi_dma_init env s).rx_fifo_threshold = s.rx_fifo_threshold := by
  unfold intel_mid_ssp_spi_dma_init
  by_cases h1 : s.dma_initialized = true
  · rw [if_pos h1]
    exact ⟨rfl, rfl, rfl⟩
  · rw [if_neg h1]
    by_cases h2 : env.dmac1_found s.tick = false
    · rw [if_pos h2]
      exact ⟨rfl, rfl, rfl⟩
    · rw [if_neg h2]
      simp only []
      by_cases h3 : env.chan_rx (s.tick + 1) = false
      · rw [if_pos h3]
        exact ⟨rfl, rfl, rfl⟩
      · rw [if_neg h3]
        by_cases h4 : env.chan_tx (s.tick + 2) = false
        · rw [if_pos h4]
          exact ⟨rfl, rfl, rfl⟩
        · rw [if_neg h4]
          exact ⟨rfl, rfl, rfl⟩

theorem setup_signals_keeps (d : Defs) (env : Env) (chip : chip_data) (s : ssp_drv_context) :
    (setup_signals d env chip s).quirks = s.quirks ∧
    (setup_signals d env chip s).cs_assert = s.cs_assert ∧
    (setup_signals d env chip s).rx_fifo_threshold = s.rx_fifo_threshold := by
  unfold setup_signals
  split_ifs
  · obtain ⟨a, b, c⟩ := dma_init_keeps env { s with n_bytes := chip.n_bytes }
    exact ⟨a, b, c⟩
  · exact ⟨rfl, rfl, rfl⟩

theorem setup_clock_slave (l : setup_locals)
    (h : l.sspc.quirks.SPI_SLAVE_CLOCK_MODE = true) : setup_clock l = some l := by
  unfold setup_clock
  rw [if_pos h]

theorem setup_clock_trap (l : setup_locals)
    (h : l.sspc.quirks.SPI_SLAVE_CLOCK_MODE = false) (h0 : to_int l.spi.max_speed_hz = 0) :
    setup_clock l = none := by
  unfold setup_clock
  rw [if_neg (by simp [h]), if_pos h0]

theorem setup_clock_master (l : setup_locals)
    (h : l.sspc.quirks.SPI_SLAVE_CLOCK_MODE = false) (h0 : to_int l.spi.max_speed_hz ≠ 0) :
    setup_clock l = some
      { l with
        spi := { l.spi with max_speed_hz := negotiated_speed l.sspc.quirks l.spi.max_speed_hz },
        chip := { l.chip with
          cr0 := l.chip.cr0 |||
            ((ssp_get_clk_div l.sspc.quirks (to_int l.spi.max_speed_hz) &&& 0xFFF) <<< 8),
          speed_hz := negotiated_speed l.sspc.quirks l.spi.max_speed_hz } } := by
  unfold setup_clock
  rw [if_neg (by simp [h]), if_neg h0]
  rfl

theorem setup_clock_some (l : setup_locals)
    (h : l.sspc.quirks.SPI_SLAVE_CLOCK_MODE = true ∨ to_int l.spi.max_speed_hz ≠ 0) :
    (setup_clock l).isSome = true := by
  unfold setup_clock
  split_ifs with hs h0
  · rfl
  · rcases h with h | h
    · exact absurd h hs
    · exact absurd h0 h
  · rfl

theorem setup_clock_cases (l l3 : setup_locals) (h : setup_clock l = some l3) :
    (l.sspc.quirks.SPI_SLAVE_CLOCK_MODE = true ∧ l3 = l) ∨
    (l.sspc.quirks.SPI_SLAVE_CLOCK_MODE = false ∧ to_int l.spi.max_speed_hz ≠ 0 ∧
      l3 = { l with
        spi := { l.spi with max_speed_hz := negotiated_speed l.sspc.quirks l.spi.max_speed_hz },
        chip := { l.chip with
          cr0 := l.chip.cr0 |||
            ((ssp_get_clk_div l.sspc.quirks (to_int l.spi.max_speed_hz) &&& 0xFFF) <<< 8),
          speed_hz := negotiated_speed l.sspc.quirks l.spi.max_speed_hz } }) := by
  cases hs : l.sspc.quirks.SPI_SLAVE_CLOCK_MODE with
  | true =>
    rw [setup_clock_slave l hs] at h
    cases h
    exact Or.inl ⟨rfl, rfl⟩
  | false =>
    by_cases hz : to_int l.spi.max_speed_hz = 0
    · rw [setup_clock_trap l hs hz] at h
      cases h
    · rw [setup_clock_master l hs hz] at h
      cases h
      exact Or.inr ⟨rfl, hz, rfl⟩

theorem setup_finish_ok (d : Defs) (env : Env) (had : Bool) (l : setup_locals)
    (r : setup_result) (hf : setup_finish d env had l = some r) (h0 : r.ret = 0) :
    ∃ n, setup_n_bytes l.spi.bits_per_word = some n ∧
      (l.sspc.quirks.SPI_SLAVE_CLOCK_MODE = true ∨ to_int l.spi.max_speed_hz ≠ 0) ∧
      r.spi = final_spi l.sspc.quirks l.spi
        (final_chip d l.sspc.quirks l.spi l.chip (setup_rx_threshold d l) n) ∧
      r.sspc.quirks = l.sspc.quirks ∧ r.sspc.cs_assert = l.sspc.cs_assert ∧
      r.sspc.rx_fifo_threshold = setup_rx_threshold d l ∧
      r.one_time_setup = l.one_time_setup := by
  unfold setup_finish at hf
  simp only [] at hf
  split at hf
  · simp only [Option.some.injEq] at hf
    rw [← hf] at h0
    simp [setup_return, EINVAL] at h0
  · rename_i n hn
    split at hf
    · cases hf
    · rename_i l3 hc
      simp only [Option.some.injEq] at hf
      subst hf
      refine ⟨n, hn, ?_⟩
      rcases setup_clock_cases _ _ hc with ⟨hs, rfl⟩ | ⟨hs, hz, rfl⟩
      · have hs' : l.sspc.quirks.SPI_SLAVE_CLOCK_MODE = true := hs
        refine ⟨Or.inl hs', ?_, ?_, ?_, ?_, rfl⟩
        · simp [setup_return, final_spi, final_chip, hs', setup_install, setup_mode,
            setup_thresholds, threshold_bits]
        · exact (setup_signals_keeps d env _ _).1
        · exact (setup_signals_keeps d env _ _).2.1
        · exact (setup_signals_keeps d env _ _).2.2
      · have hs' : l.sspc.quirks.SPI_SLAVE_CLOCK_MODE = false := hs
        have hz' : to_int l.spi.max_speed_hz ≠ 0 := hz
        refine ⟨Or.inr hz', ?_, ?_, ?_, ?_, rfl⟩
        · simp [setup_return, final_spi, final_chip, hs', setup_install, setup_mode,
            setup_thresholds, threshold_bits]
        · exact (setup_signals_keeps d env _ _).1
        · exact (setup_signals_keeps d env _ _).2.1
        · exact (setup_signals_keeps d env _ _).2.2

theorem setup_polarity_ok (d : Defs) (ci : intel_mid_ssp_spi_chip) (l lp : setup_locals)
    (h : setup_polarity d ci l = Except.ok lp) :
    lp.spi = l.spi ∧ lp.chip = l.chip ∧ lp.burst_size = l.burst_size ∧
    lp.sspc.quirks = l.sspc.quirks ∧
    lp.sspc.cs_assert = l.spi.mode &&& d.SPI_CS_HIGH := by
  unfold setup_polarity at h
  split_ifs at h with h1 h2 h3
  · cases h
    exact ⟨rfl, rfl, rfl, rfl, rfl⟩
  · cases h
    refine ⟨rfl, rfl, rfl, rfl, ?_⟩
    exact (not_not.mp h1).symm

theorem setup_polarity_same (d : Defs) (ci : intel_mid_ssp_spi_chip) (l : setup_locals)
    (h : l.sspc.cs_assert = l.spi.mode &&& d.SPI_CS_HIGH) :
    setup_polarity d ci l = Except.ok l := by
  unfold setup_polarity
  rw [if_neg (not_not.mpr h.symm)]

theorem setup_from_chip_info_spec (d : Defs) (ci : intel_mid_ssp_spi_chip)
    (l : setup_locals) :
    (setup_from_chip_info d ci l).spi = l.spi ∧
    (setup_from_chip_info d ci l).sspc.quirks = l.sspc.quirks ∧
    (setup_from_chip_info d ci l).sspc.cs_assert = l.sspc.cs_assert ∧
    (setup_from_chip_info d ci l).chip =
      { l.chip with
        timeout := ci.timeout,
        cr1 := if ci.enable_loopback then l.chip.cr1 ||| d.SSCR1_LBM else l.chip.cr1,
        dma_enabled := ci.dma_enabled,
        cs_control := ci.cs_control } ∧
    (setup_from_chip_info d ci l).burst_size =
      (if ci.burst_size > d.IMSS_FIFO_BURST_8 then d.DFLT_FIFO_BURST_SIZE
       else ci.burst_size) := by
  unfold setup_from_chip_info
  simp only []
  split_ifs <;> exact ⟨rfl, rfl, rfl, rfl, rfl⟩

theorem setup_finish_run (d : Defs) (env : Env) (had : Bool) (l : setup_locals) (n : Nat)
    (hn : setup_n_bytes l.spi.bits_per_word = some n)
    (hc : l.sspc.quirks.SPI_SLAVE_CLOCK_MODE = true ∨ to_int l.spi.max_speed_hz ≠ 0) :
    ∃ r, setup_finish d env had l = some r ∧ r.ret = 0 := by
  unfold setup_finish
  simp only []
  have hn' : setup_n_bytes (setup_mode d (setup_thresholds d l)).spi.bits_per_word = some n := hn
  rw [hn']
  simp only []
  have hsome := setup_clock_some
    { setup_mode d (setup_thresholds d l) with
      chip := { (setup_mode d (setup_thresholds d l)).chip with n_bytes := n } } hc
  obtain ⟨l3, hl3⟩ := Option.isSome_iff_exists.mp hsome
  rw [hl3]
  exact ⟨_, rfl, rfl⟩

theorem setup_branch_ok (d : Defs) (l l1 : setup_locals)
    (h : setup_branch d l = Except.ok l1) :
    l1.spi = l.spi ∧ l1.sspc.quirks = l.sspc.quirks ∧
    (∀ ci, l.spi.controller_data = some ci →
      l1.chip = { l.chip with
        timeout := ci.timeout,
        cr1 := if ci.enable_loopback then l.chip.cr1 ||| d.SSCR1_LBM else l.chip.cr1,
        dma_enabled := ci.dma_enabled,
        cs_control := ci.cs_control } ∧
      l1.burst_size = (if ci.burst_size > d.IMSS_FIFO_BURST_8 then d.DFLT_FIFO_BURST_SIZE
                       else ci.burst_size) ∧
      l1.sspc.cs_assert = l.spi.mode &&& d.SPI_CS_HIGH) ∧
    (l.spi.controller_data = none →
      l1.chip = { l.chip with
        dma_enabled := true,
        timeout := if l.sspc.quirks.DMA_USE_NO_TRAIL then 0 else d.DFLT_TIMEOUT_VAL } ∧
      l1.burst_size = d.DFLT_FIFO_BURST_SIZE ∧
      l1.sspc.cs_assert = l.sspc.cs_assert) := by
  unfold setup_branch at h
  cases hcd : l.spi.controller_data with
  | none =>
    rw [hcd] at h
    simp only [Except.ok.injEq] at h
    subst h
    refine ⟨rfl, rfl, fun ci hci => (by cases hci), fun _ => ⟨rfl, rfl, rfl⟩⟩
  | some ci =>
    rw [hcd] at h
    simp only [] at h
    split at h
    · cases h
    · rename_i lp hp
      simp only [Except.ok.injEq] at h
      subst h
      obtain ⟨p1, p2, p3, p4, p5⟩ := setup_polarity_ok d ci l lp hp
      obtain ⟨f1, f2, f3, f4, f5⟩ := setup_from_chip_info_spec d ci lp
      refine ⟨by rw [f1, p1], by rw [f2, p4], ?_, fun hn => (by cases hn)⟩
      intro ci' hci'
      cases hci'
      refine ⟨by rw [f4, p2], by rw [f5], by rw [f3, p5]⟩

theorem setup_branch_again (d : Defs) (l : setup_locals)
    (h : ∀ ci, l.spi.controller_data = some ci →
      l.sspc.cs_assert = l.spi.mode &&& d.SPI_CS_HIGH) :
    ∃ l1, setup_branch d l = Except.ok l1 := by
  unfold setup_branch
  cases hcd : l.spi.controller_data with
  | none => exact ⟨_, rfl⟩
  | some ci =>
    simp only []
    rw [setup_polarity_same d ci l (h ci hcd)]
    exact ⟨_, rfl⟩

theorem setup_branch_err (d : Defs) (l : setup_locals) (e : Int)
    (h : setup_branch d l = Except.error e) : e ≠ 0 := by
  unfold setup_branch at h
  split at h
  · split at h
    · rename_i e' hp
      cases h
      unfold setup_polarity at hp
      split_ifs at hp <;> cases hp <;> decide
    · cases h
  · cases h

theorem setup_eq (d : Defs) (env : Env) (ots : Nat) (spi : spi_device)
    (s : ssp_drv_context) :
    setup d env ots spi s =
      if (setup_bits d spi).bits_per_word < d.MIN_BITS_PER_WORD ∨
          (setup_bits d spi).bits_per_word > d.MAX_BITS_PER_WORD then
        some { ret := -EINVAL, spi := setup_bits d spi, sspc := s, one_time_setup := ots }
      else
        match (setup_bits d spi).ctldata with
        | none =>
          if env.kzalloc_ok s.tick = false then
            some { ret := -ENOMEM, spi := setup_bits d spi, sspc := { s with tick := s.tick + 1 },
                   one_time_setup := ots }
          else
            match setup_branch d
              (setup_entry d (setup_bits d spi) chip_zero { s with tick := s.tick + 1 } ots) with
            | Except.error e => some (setup_return e false
                (setup_entry d (setup_bits d spi) chip_zero { s with tick := s.tick + 1 } ots))
            | Except.ok l1 => setup_finish d env false l1
        | some chip =>
          match setup_branch d (setup_entry d (setup_bits d spi) chip s ots) with
          | Except.error e =>
            some (setup_return e true (setup_entry d (setup_bits d spi) chip s ots))
          | Except.ok l1 => setup_finish d env true l1 := by
  rfl

theorem setup_ok (d : Defs) (env : Env) (ots : Nat) (spi : spi_device)
    (s : ssp_drv_context) (r : setup_result)
    (h1 : setup d env ots spi s = some r) (h0 : r.ret = 0) :
    ¬ ((setup_bits d spi).bits_per_word < d.MIN_BITS_PER_WORD ∨
        (setup_bits d spi).bits_per_word > d.MAX_BITS_PER_WORD) ∧
    ∃ c0 s0 had l1, s0.quirks = s.quirks ∧
      setup_branch d (setup_entry d (setup_bits d spi) c0 s0 ots) = Except.ok l1 ∧
      setup_finish d env had l1 = some r := by
  rw [setup_eq] at h1
  by_cases hr : (setup_bits d spi).bits_per_word < d.MIN_BITS_PER_WORD ∨
      (setup_bits d spi).bits_per_word > d.MAX_BITS_PER_WORD
  · rw [if_pos hr] at h1
    cases h1
    simp [EINVAL] at h0
  · rw [if_neg hr] at h1
    refine ⟨hr, ?_⟩
    cases hcd : (setup_bits d spi).ctldata with
    | none =>
      rw [hcd] at h1
      simp only [] at h1
      by_cases hk : env.kzalloc_ok s.tick = false
      · rw [if_pos hk] at h1
        cases h1
        simp [ENOMEM] at h0
      · rw [if_neg hk] at h1
        cases hb : setup_branch d
            (setup_entry d (setup_bits d spi) chip_zero { s with tick := s.tick + 1 } ots) with
        | error e =>
          rw [hb] at h1
          cases h1
          exact absurd h0 (setup_branch_err d _ e hb)
        | ok l1 =>
          rw [hb] at h1
          exact ⟨chip_zero, { s with tick := s.tick + 1 }, false, l1, rfl, hb, h1⟩
    | some chip =>
      rw [hcd] at h1
      simp only [] at h1
      cases hb : setup_branch d (setup_entry d (setup_bits d spi) chip s ots) with
      | error e =>
        rw [hb] at h1
        cases h1
        exact absurd h0 (setup_branch_err d _ e hb)
      | ok l1 =>
        rw [hb] at h1
        exact ⟨chip, s, true, l1, rfl, hb, h1⟩

theorem setup_with_chip (d : Defs) (env : Env) (ots : Nat) (spi : spi_device)
    (s : ssp_drv_context) (chip : chip_data) (l1 : setup_locals)
    (hbits : setup_bits d spi = spi) (hc : spi.ctldata = some chip)
    (hr : ¬ (spi.bits_per_word < d.MIN_BITS_PER_WORD ∨
        spi.bits_per_word > d.MAX_BITS_PER_WORD))
    (hb : setup_branch d (setup_entry d spi chip s ots) = Except.ok l1) :
    setup d env ots spi s = setup_finish d env true l1 := by
  rw [setup_eq, hbits, if_neg hr]
  simp only [hc, hb]

theorem speed_range (q : Quirks) (dv : Nat) (hhi : dv ≤ 4095) :
    6103 ≤ ssp_get_speed q dv ∧ ssp_get_speed q dv ≤ 100000000 := by
  unfold ssp_get_speed
  have hd : (0 : Int) < (dv : Int) + 1 := by omega
  cases q.PLATFORM_MRFL
  · simp only [Bool.false_eq_true, if_false]
    rw [Int.tdiv_eq_ediv (by decide) (le_of_lt hd)]
    constructor
    · apply Int.le_ediv_of_mul_le hd
      omega
    · apply Int.ediv_le_of_le_mul hd
      nlinarith
  · simp only [if_true]
    rw [Int.tdiv_eq_ediv (by decide) (le_of_lt hd)]
    constructor
    · apply Int.le_ediv_of_mul_le hd
      omega
    · apply Int.ediv_le_of_le_mul hd
      nlinarith

theorem negotiated_spec (q : Quirks) (v : Nat) :
    to_int (negotiated_speed q v) = ssp_get_speed q (ssp_get_clk_div q (to_int v)) ∧
    to_int (negotiated_speed q v) ≠ 0 ∧
    ssp_get_clk_div q (to_int (negotiated_speed q v)) = ssp_get_clk_div q (to_int v) := by
  obtain ⟨c1, c2⟩ := clk_div_range q (to_int v)
  obtain ⟨s1, s2⟩ := speed_range q (ssp_get_clk_div q (to_int v)) c2
  have e1 : to_int (ssp_get_clk_div q (to_int v)) = ((ssp_get_clk_div q (to_int v) : Nat) : Int) :=
    to_int_small _ (by omega)
  have e2 : negotiated_speed q v =
      Int.toNat (ssp_get_speed q (ssp_get_clk_div q (to_int v))) := by
    unfold negotiated_speed
    rw [e1, Int.emod_eq_of_lt (by omega) (by omega)]
  have e3 : ((negotiated_speed q v : Nat) : Int) =
      ssp_get_speed q (ssp_get_clk_div q (to_int v)) := by
    rw [e2, Int.toNat_of_nonneg (by omega)]
  have e4 : to_int (negotiated_speed q v) =
      ssp_get_speed q (ssp_get_clk_div q (to_int v)) := by
    rw [to_int_small _ (by omega), e3]
  refine ⟨e4, by omega, ?_⟩
  rw [e4]
  exact clk_div_fixed q _ c1 c2

theorem negotiated_idem (q : Quirks) (v : Nat) :
    negotiated_speed q (negotiated_speed q v) = negotiated_speed q v := by
  have h := (negotiated_spec q v).2.2
  show Int.toNat (ssp_get_speed q (to_int (ssp_get_clk_div q
      (to_int (negotiated_speed q v)))) % 2 ^ 32) = negotiated_speed q v
  rw [h]
  rfl

theorem setup_bits_fixed (d : Defs) (spi spi2 : spi_device)
    (h : spi2.bits_per_word = (setup_bits d spi).bits_per_word) :
    setup_bits d spi2 = spi2 := by
  unfold setup_bits at h ⊢
  by_cases h2 : spi2.bits_per_word = 0
  · rw [if_pos h2]
    by_cases h1 : spi.bits_per_word = 0
    · rw [if_pos h1] at h
      have : d.DFLT_BITS_PER_WORD = spi2.bits_per_word := h.symm
      rw [this]
    · rw [if_neg h1] at h
      exact absurd (h ▸ h2) h1
  · rw [if_neg h2]

theorem final_chip_again (d : Defs) (q : Quirks) (spi : spi_device) (c1 b : chip_data)
    (thr n : Nat)
    (hb1 : b.timeout = c1.timeout) (hb2 : b.dma_enabled = c1.dma_enabled)
    (hb3 : b.cs_control = c1.cs_control) (hb4 : b.cr1 = c1.cr1) (hb5 : b.cr0 = c1.cr0)
    (hb6 : b.speed_hz = (final_chip d q spi c1 thr n).speed_hz) :
    final_chip d q (final_spi q spi (final_chip d q spi c1 thr n)) b thr n =
      final_chip d q spi c1 thr n := by
  cases c1
  cases b
  simp only at hb1 hb2 hb3 hb4 hb5
  subst hb1 hb2 hb3 hb4 hb5
  cases hs : q.SPI_SLAVE_CLOCK_MODE
  · simp [final_chip, final_spi, hs, negotiated_idem, (negotiated_spec q spi.max_speed_hz).2.2]
  · simp [final_chip, final_spi, hs] at hb6 ⊢
    exact hb6

theorem final_spi_again (q : Quirks) (spi : spi_device) (c : chip_data) :
    final_spi q (final_spi q spi c) c = final_spi q spi c := by
  cases hs : q.SPI_SLAVE_CLOCK_MODE <;> simp [final_spi, hs, negotiated_idem]

theorem final_chip_keeps (d : Defs) (q : Quirks) (spi : spi_device) (c1 : chip_data)
    (thr n : Nat) :
    (final_chip d q spi c1 thr n).dma_enabled = c1.dma_enabled ∧
    (final_chip d q spi c1 thr n).timeout = c1.timeout ∧
    (final_chip d q spi c1 thr n).cs_control = c1.cs_control := by
  unfold final_chip
  split_ifs <;> exact ⟨rfl, rfl, rfl⟩

theorem rx_threshold_congr (d : Defs) (l m : setup_locals)
    (hq : m.sspc.quirks = l.sspc.quirks) (hd : m.chip.dma_enabled = l.chip.dma_enabled)
    (hb : m.burst_size = l.burst_size)
    (hw : l.sspc.quirks.PLATFORM_MRFL = true → l.chip.dma_enabled = true →
      (l.spi.max_speed_hz < 800000 ↔ m.spi.max_speed_hz < 800000)) :
    setup_rx_threshold d m = setup_rx_threshold d l := by
  unfold setup_rx_threshold
  rw [hq, hd, hb]
  by_cases h1 : l.sspc.quirks.PLATFORM_MRFL = true
  · by_cases h2 : l.chip.dma_enabled = true
    · have := hw h1 h2
      simp only [h1, h2, true_and, this]
    · simp [h2]
  · simp [h1]

/-- C25 as stated fails on MRFL: for a DMA chip asked for 799 999 Hz the first `setup`
applies the low-speed workaround (RX threshold 1) and writes back 806 451 Hz; the
second call, given that speed, does not (RX threshold 8), and `cr1` differs. -/
theorem C25_counterexample :
    (setup_twice sample_defs (hw_env [] false) 1 slow_spi
      { idle_ctx 4 with quirks := mrfl_quirks }).map
        (fun p => (p.1.ret, p.2.ret, slow_spi.max_speed_hz, p.1.spi.max_speed_hz,
          p.2.spi.max_speed_hz)) = some (0, 0, 799999, 806451, 806451) ∧
    (setup_twice sample_defs (hw_env [] false) 1 slow_spi
      { idle_ctx 4 with quirks := mrfl_quirks }).bind (fun p => setup_config p.1) =
      some { cr0 := 0x1E87, cr1 := 0x10000380, speed_hz := 806451, timeout := 0,
             dma_enabled := true, cs_assert := 0, rx_fifo_threshold := 1 } ∧
    (setup_twice sample_defs (hw_env [] false) 1 slow_spi
      { idle_ctx 4 with quirks := mrfl_quirks }).bind (fun p => setup_config p.2) =
      some { cr0 := 0x1E87, cr1 := 0x10001DC0, speed_hz := 806451, timeout := 0,
             dma_enabled := true, cs_assert := 0, rx_fifo_threshold := 8 } := by
  decide

/-- C25, amended: after a successful `setup`, a second `setup` on the same device with no
caller-side change (the device as the first call left it, including the speed written
back and the chip data installed) succeeds and leaves the device, hence the whole chip
data with `cr0`, `cr1`, `speed_hz` and `n_bytes`, and the controller RX FIFO threshold
exactly as the first call did, on every platform variant, provided that on MRFL with a
DMA-enabled chip the requested speed and the speed written back lie on the same side
of the 800 kHz limit of the low-speed workaround. -/
theorem C25_setup_idempotent (d : Defs) (env env2 : Env) (ots : Nat) (spi : spi_device)
    (s : ssp_drv_context) (r1 : setup_result)
    (h1 : setup d env ots spi s = some r1) (h0 : r1.ret = 0)
    (hw : s.quirks.PLATFORM_MRFL = true →
      (∃ c, r1.spi.ctldata = some c ∧ c.dma_enabled = true) →
      (spi.max_speed_hz < 800000 ↔ r1.spi.max_speed_hz < 800000)) :
    ∃ r2, setup d env2 r1.one_time_setup r1.spi r1.sspc = some r2 ∧ r2.ret = 0 ∧
      r2.spi = r1.spi ∧ r2.spi.ctldata = r1.spi.ctldata ∧
      r2.sspc.rx_fifo_threshold = r1.sspc.rx_fifo_threshold := by
  obtain ⟨hr, c0, s0, had, l1, hq0, hb, hf⟩ := setup_ok d env ots spi s r1 h1 h0
  obtain ⟨b1, b2, b3, b4⟩ := setup_branch_ok d _ l1 hb
  obtain ⟨n, hn, hclk, f1, f2, f3, f4, f5⟩ := setup_finish_ok d env had l1 r1 hf h0
  have e_spi : l1.spi = setup_bits d spi := b1
  have e_q : l1.sspc.quirks = s.quirks := b2.trans hq0
  have r_bits : r1.spi.bits_per_word = (setup_bits d spi).bits_per_word := by
    rw [f1, ← e_spi]; rfl
  have r_mode : r1.spi.mode = l1.spi.mode := by rw [f1]; rfl
  have r_cd : r1.spi.controller_data = l1.spi.controller_data := by rw [f1]; rfl
  have r_chip : r1.spi.ctldata = some (final_chip d l1.sspc.quirks l1.spi l1.chip
      (setup_rx_threshold d l1) n) := by rw [f1]; rfl
  have hbits2 : setup_bits d r1.spi = r1.spi := setup_bits_fixed d spi r1.spi r_bits
  have hr2 : ¬ (r1.spi.bits_per_word < d.MIN_BITS_PER_WORD ∨
      r1.spi.bits_per_word > d.MAX_BITS_PER_WORD) := by rw [r_bits]; exact hr
  obtain ⟨m1, hm⟩ := setup_branch_again d
    (setup_entry d r1.spi (final_chip d l1.sspc.quirks l1.spi l1.chip
      (setup_rx_threshold d l1) n) r1.sspc r1.one_time_setup)
    (fun ci hci => by
      have hci' : (setup_entry d (setup_bits d spi) c0 s0 ots).spi.controller_data = some ci := by
        have : r1.spi.controller_data = some ci := hci
        rw [r_cd, e_spi] at this
        exact this
      have := (b3 ci hci').2.2
      show r1.sspc.cs_assert = r1.spi.mode &&& d.SPI_CS_HIGH
      rw [f3, this, r_mode, e_spi]
      rfl)
  obtain ⟨m_spi, m_q, m3, m4⟩ := setup_branch_ok d _ m1 hm
  have em_spi : m1.spi = r1.spi := m_spi
  have em_q : m1.sspc.quirks = l1.sspc.quirks := by
    rw [m_q]
    exact f2
  have hn2 : setup_n_bytes m1.spi.bits_per_word = some n := by
    rw [em_spi, r_bits, ← e_spi]
    exact hn
  have hclk2 : m1.sspc.quirks.SPI_SLAVE_CLOCK_MODE = true ∨ to_int m1.spi.max_speed_hz ≠ 0 := by
    rw [em_q, em_spi]
    cases hs : l1.sspc.quirks.SPI_SLAVE_CLOCK_MODE
    · right
      have : r1.spi.max_speed_hz = negotiated_speed l1.sspc.quirks l1.spi.max_speed_hz := by
        rw [f1]
        simp [final_spi, hs]
      rw [this]
      exact (negotiated_spec _ _).2.1
    · left
      rfl
  obtain ⟨r2, hf2, h20⟩ := setup_finish_run d env2 true m1 n hn2 hclk2
  obtain ⟨n2, hn2', _, g1, _, _, g4, _⟩ := setup_finish_ok d env2 true m1 r2 hf2 h20
  have en : n2 = n := by
    rw [hn2] at hn2'
    exact (Option.some.inj hn2').symm
  subst en
  have hcr0 : setup_cr0 d r1.spi.bits_per_word = setup_cr0 d (setup_bits d spi).bits_per_word := by
    rw [r_bits]
  obtain ⟨fk1, fk2, fk3⟩ := final_chip_keeps d l1.sspc.quirks l1.spi l1.chip
    (setup_rx_threshold d l1) n2
  have facts : m1.chip.timeout = l1.chip.timeout ∧ m1.chip.dma_enabled = l1.chip.dma_enabled ∧
      m1.chip.cs_control = l1.chip.cs_control ∧ m1.chip.cr1 = l1.chip.cr1 ∧
      m1.chip.cr0 = l1.chip.cr0 ∧
      m1.chip.speed_hz = (final_chip d l1.sspc.quirks l1.spi l1.chip
        (setup_rx_threshold d l1) n2).speed_hz ∧
      m1.burst_size = l1.burst_size := by
    cases hcd : (setup_bits d spi).controller_data with
    | none =>
      obtain ⟨lc, lb, _⟩ := b4 hcd
      have hcd2 : (setup_entry d r1.spi (final_chip d l1.sspc.quirks l1.spi l1.chip
          (setup_rx_threshold d l1) n2) r1.sspc r1.one_time_setup).spi.controller_data = none := by
        show r1.spi.controller_data = none
        rw [r_cd, e_spi]
        exact hcd
      obtain ⟨mc, mb, _⟩ := m4 hcd2
      have hq2 : r1.sspc.quirks.DMA_USE_NO_TRAIL = s0.quirks.DMA_USE_NO_TRAIL := by
        rw [f2, b2]
        rfl
      refine ⟨?_, ?_, ?_, ?_, ?_, ?_, ?_⟩
      · rw [mc, lc]
        show (if r1.sspc.quirks.DMA_USE_NO_TRAIL = true then 0 else d.DFLT_TIMEOUT_VAL) =
          (if s0.quirks.DMA_USE_NO_TRAIL = true then 0 else d.DFLT_TIMEOUT_VAL)
        rw [hq2]
      · rw [mc, lc]
      · rw [mc]
        exact fk3
      · rw [mc, lc]
        rfl
      · rw [mc, lc]
        exact hcr0
      · rw [mc]
        rfl
      · rw [mb, lb]
    | some ci =>
      obtain ⟨lc, lb, _⟩ := b3 ci hcd
      have hcd2 : (setup_entry d r1.spi (final_chip d l1.sspc.quirks l1.spi l1.chip
          (setup_rx_threshold d l1) n2) r1.sspc r1.one_time_setup).spi.controller_data =
            some ci := by
        show r1.spi.controller_data = some ci
        rw [r_cd, e_spi]
        exact hcd
      obtain ⟨mc, mb, _⟩ := m3 ci hcd2
      refine ⟨?_, ?_, ?_, ?_, ?_, ?_, ?_⟩
      · rw [mc, lc]
      · rw [mc, lc]
      · rw [mc, lc]
      · rw [mc, lc]
        rfl
      · rw [mc, lc]
        exact hcr0
      · rw [mc]
        rfl
      · rw [mb, lb]
  obtain ⟨k1, k2, k3, k4, k5, k6, k7⟩ := facts
  have hthr : setup_rx_threshold d m1 = setup_rx_threshold d l1 := by
    apply rx_threshold_congr d l1 m1 em_q k2 k7
    intro hm hd
    rw [em_spi, e_spi]
    have hsp : (setup_bits d spi).max_speed_hz = spi.max_speed_hz := by
      unfold setup_bits
      split_ifs <;> rfl
    rw [hsp]
    exact hw (by rw [← e_q]; exact hm) ⟨_, r_chip, by rw [fk1]; exact hd⟩
  have hchip : final_chip d m1.sspc.quirks m1.spi m1.chip (setup_rx_threshold d m1) n2 =
      final_chip d l1.sspc.quirks l1.spi l1.chip (setup_rx_threshold d l1) n2 := by
    rw [hthr, em_q, em_spi, f1]
    exact final_chip_again d l1.sspc.quirks l1.spi l1.chip m1.chip _ n2 k1 k2 k3 k4 k5 k6
  have hspi : r2.spi = r1.spi := by
    rw [g1, hchip, em_q, em_spi, f1]
    exact final_spi_again _ _ _
  refine ⟨r2, ?_, h20, hspi, by rw [hspi], by rw [g4, hthr, f4]⟩
  rw [setup_with_chip d env2 r1.one_time_setup r1.spi r1.sspc _ m1 hbits2 r_chip hr2 hm]
  exact hf2

/-- C25 (amended) at a concrete device on MRFL (8-bit words, 1 MHz, polled board
description): the second `setup` returns 0 and leaves the device as the first did. -/
theorem C25_witness :
    ∃ r1 r2, setup sample_defs (hw_env [] false) 1 fresh_spi
        { idle_ctx 4 with quirks := mrfl_quirks } = some r1 ∧ r1.ret = 0 ∧
      setup sample_defs (hw_env [] false) r1.one_time_setup r1.spi r1.sspc = some r2 ∧
      r2.ret = 0 ∧ r2.spi = r1.spi ∧
      r2.sspc.rx_fifo_threshold = r1.sspc.rx_fifo_threshold := by
  have hv : (setup sample_defs (hw_env [] false) 1 fresh_spi
      { idle_ctx 4 with quirks := mrfl_quirks }).map
        (fun r => (r.ret, r.spi.max_speed_hz)) = some (0, 1000000) := by decide
  obtain ⟨r1, hr1, hp⟩ := Option.map_eq_some'.mp hv
  have h0 : r1.ret = 0 := congrArg Prod.fst hp
  have hm : r1.spi.max_speed_hz = 1000000 := congrArg Prod.snd hp
  obtain ⟨r2, h2, h3, h4, _, h5⟩ := C25_setup_idempotent sample_defs (hw_env [] false)
    (hw_env [] false) 1 fresh_spi { idle_ctx 4 with quirks := mrfl_quirks } r1 hr1 h0
    (fun _ _ => by rw [hm]; decide)
  exact ⟨r1, r2, hr1, h0, h2, h3, h4, h5⟩

theorem suspend_wait_states (other : Nat → ssp_drv_context → ssp_drv_context) :
    ∀ (n : Nat) (s : ssp_drv_context), 0 < n →
      (suspend_wait other n s).2.sspc =
        suspend_check_state other n s (suspend_wait other n s).2.sleeps ∧
      (suspend_wait other n s).2.checks =
        (List.range ((suspend_wait other n s).2.sleeps + 1)).map
          (fun k => (suspend_check_state other n s k).cur_msg.isSome) ∧
      (∀ k, k < (suspend_wait other n s).2.sleeps →
        (suspend_check_state other n s k).cur_msg.isSome = true) ∧
      ((suspend_wait other n s).1 ≠ 0 ↔
        (suspend_check_state other n s (suspend_wait other n s).2.sleeps).cur_msg = none) ∧
      ((suspend_wait other n s).1 = 0 → (suspend_wait other n s).2.sleeps + 1 = n) := by
  intro n
  induction n with
  | zero => intro s h; omega
  | succ n ih =>
    intro s _
    unfold suspend_wait
    by_cases hc : s.cur_msg.isSome = true
    · by_cases hn : n = 0
      · subst hn
        have hne : s.cur_msg ≠ none := by
          intro h0
          rw [h0] at hc
          cases hc
        have hr : List.range 1 = [0] := rfl
        simp [hc, suspend_check_state, hne, hr]
      · obtain ⟨h1, h2, h3, h4, h5⟩ := ih (other n s) (Nat.pos_of_ne_zero hn)
        simp only [hc, hn, if_true, if_false, ne_eq, not_false_eq_true]
        have hstep : ∀ k, suspend_check_state other (n + 1) s (k + 1) =
            suspend_check_state other n (other n s) k := fun k => rfl
        refine ⟨?_, ?_, ?_, ?_, ?_⟩
        · rw [hstep]
          exact h1
        · rw [h2, List.range_succ_eq_map (_ + 1), List.map_cons, List.map_map]
          have e0 : (suspend_check_state other (n + 1) s 0).cur_msg.isSome = true := hc
          rw [e0]
          rfl
        · intro k hk
          cases k with
          | zero => exact hc
          | succ j =>
            rw [hstep]
            exact h3 j (by omega)
        · rw [hstep]
          exact h4
        · intro h0
          have := h5 h0
          omega
    · have hnone : s.cur_msg = none := by
        cases hcm : s.cur_msg with
        | none => rfl
        | some m =>
          rw [hcm] at hc
          exact absurd rfl hc
      have hr : List.range 1 = [0] := rfl
      simp [hc, suspend_check_state, hnone, hr]

/-- C11: `intel_mid_ssp_spi_suspend` sleeps at most 25 times (20 ms each, at most
500 ms) and evaluates `sspc->cur_msg` once more than it sleeps, at most 26 times.  The
`k`-th evaluation reads the controller in the state `suspend_check_state .. k`: the
entry state with `suspended` set, then what the other contexts made of it during each
sleep.  Every evaluation before the last found a message; the function returns 0
exactly when its last evaluation finds the pointer NULL, that is exactly when the
pointer is NULL at one of the (at most 26) evaluations, and returns `-EBUSY` exactly
when the pointer is non-NULL at all 26 of them; it returns nothing else, and the
context it leaves is the one its last evaluation read. -/
theorem C11_suspend_bounded_wait (other : Nat → ssp_drv_context → ssp_drv_context)
    (s : ssp_drv_context) :
    (intel_mid_ssp_spi_suspend other s).sleeps ≤ 25 ∧
    (intel_mid_ssp_spi_suspend other s).sleeps * 20 ≤ 500 ∧
    (intel_mid_ssp_spi_suspend other s).checks.length =
      (intel_mid_ssp_spi_suspend other s).sleeps + 1 ∧
    (intel_mid_ssp_spi_suspend other s).checks.length ≤ 26 ∧
    ((intel_mid_ssp_spi_suspend other s).ret = 0 ↔
      false ∈ (intel_mid_ssp_spi_suspend other s).checks) ∧
    ((intel_mid_ssp_spi_suspend other s).ret = -EBUSY ↔
      (intel_mid_ssp_spi_suspend other s).checks = List.replicate 26 true) ∧
    ((intel_mid_ssp_spi_suspend other s).ret = 0 ∨
      (intel_mid_ssp_spi_suspend other s).ret = -EBUSY) ∧
    (intel_mid_ssp_spi_suspend other s).checks =
      (List.range ((intel_mid_ssp_spi_suspend other s).sleeps + 1)).map
        (fun k => (suspend_check_state other 26 { s with suspended := true } k).cur_msg.isSome) ∧
    (intel_mid_ssp_spi_suspend other s).sspc =
      suspend_check_state other 26 { s with suspended := true }
        (intel_mid_ssp_spi_suspend other s).sleeps ∧
    (∀ k, k < (intel_mid_ssp_spi_suspend other s).sleeps →
      (suspend_check_state other 26 { s with suspended := true } k).cur_msg ≠ none) ∧
    ((intel_mid_ssp_spi_suspend other s).ret = 0 ↔
      (intel_mid_ssp_spi_suspend other s).sspc.cur_msg = none) ∧
    ((intel_mid_ssp_spi_suspend other s).ret = 0 ↔
      ∃ k, k ≤ 25 ∧
        (suspend_check_state other 26 { s with suspended := true } k).cur_msg = none) ∧
    ((intel_mid_ssp_spi_suspend other s).ret = -EBUSY ↔
      ∀ k, k ≤ 25 →
        (suspend_check_state other 26 { s with suspended := true } k).cur_msg ≠ none) := by
  obtain ⟨h1, h2, h3, h4⟩ :=
    suspend_wait_spec other 26 { s with suspended := true } (by decide)
  obtain ⟨g1, g2, g3, g4, g5⟩ :=
    suspend_wait_states other 26 { s with suspended := true } (by decide)
  have hs : (intel_mid_ssp_spi_suspend other s).sleeps =
      (suspend_wait other 26 { s with suspended := true }).2.sleeps := rfl
  have hc : (intel_mid_ssp_spi_suspend other s).checks =
      (suspend_wait other 26 { s with suspended := true }).2.checks := rfl
  have hr : (intel_mid_ssp_spi_suspend other s).ret =
      if (suspend_wait other 26 { s with suspended := true }).1 ≠ 0 then 0 else -EBUSY := rfl
  have hx : (intel_mid_ssp_spi_suspend other s).sspc =
      (suspend_wait other 26 { s with suspended := true }).2.sspc := rfl
  have hsome : ∀ c : ssp_drv_context, c.cur_msg.isSome = true ↔ c.cur_msg ≠ none := by
    intro c
    cases c.cur_msg <;> simp
  have r0 : (intel_mid_ssp_spi_suspend other s).ret = 0 ↔
      (suspend_wait other 26 { s with suspended := true }).1 ≠ 0 := by
    rw [hr]
    by_cases h : (suspend_wait other 26 { s with suspended := true }).1 = 0
    · simp [h, EBUSY]
    · simp [h]
  have rb : (intel_mid_ssp_spi_suspend other s).ret = -EBUSY ↔
      (suspend_wait other 26 { s with suspended := true }).1 = 0 := by
    rw [hr]
    by_cases h : (suspend_wait other 26 { s with suspended := true }).1 = 0
    · simp [h]
    · simp [h, EBUSY]
  have hlast : (intel_mid_ssp_spi_suspend other s).ret = 0 ↔
      (suspend_check_state other 26 { s with suspended := true }
        (suspend_wait other 26 { s with suspended := true }).2.sleeps).cur_msg = none :=
    r0.trans g4
  refine ⟨by omega, by omega, ?_, ?_, ?_, ?_, ?_, ?_, ?_, ?_, ?_, ?_, ?_⟩
  · rw [hc, hs]; exact h1
  · rw [hc]; omega
  · rw [hc]; exact r0.trans h3
  · rw [hc]; exact rb.trans h4
  · by_cases h : (suspend_wait other 26 { s with suspended := true }).1 = 0
    · exact Or.inr (rb.mpr h)
    · exact Or.inl (r0.mpr h)
  · rw [hc, hs]; exact g2
  · rw [hx, hs]; exact g1
  · intro k hk
    rw [hs] at hk
    exact (hsome _).mp (g3 k hk)
  · rw [hx, g1]; exact hlast
  · constructor
    · intro h
      exact ⟨_, by omega, hlast.mp h⟩
    · rintro ⟨k, hk, hnone⟩
      by_contra hne
      have hz : (suspend_wait other 26 { s with suspended := true }).1 = 0 := by
        by_contra h
        exact hne (r0.mpr h)
      have h25 := g5 hz
      rcases Nat.lt_or_ge k (suspend_wait other 26 { s with suspended := true }).2.sleeps with hlt | hge
      · exact (hsome _).mp (g3 k hlt) hnone
      · have hk25 : k = (suspend_wait other 26 { s with suspended := true }).2.sleeps := by omega
        rw [hk25] at hnone
        exact hne (hlast.mpr hnone)
  · constructor
    · intro h k hk hnone
      have hz := rb.mp h
      have h25 := g5 hz
      rcases Nat.lt_or_ge k (suspend_wait other 26 { s with suspended := true }).2.sleeps with hlt | hge
      · exact (hsome _).mp (g3 k hlt) hnone
      · have hk25 : k = (suspend_wait other 26 { s with suspended := true }).2.sleeps := by omega
        rw [hk25] at hnone
        have := g4.mpr hnone
        exact this hz
    · intro h
      apply rb.mpr
      by_contra hz
      have := g4.mp hz
      exact h _ (by omega) this

/-- C11 at concrete runs: with a message in flight that nobody finishes the call sleeps
25 times and returns `-EBUSY`; when the pump finishes the message during the sixth
sleep the call returns 0 after six sleeps; on an idle controller it returns 0 without
sleeping. -/
theorem C11_witness :
    (intel_mid_ssp_spi_suspend nobody (with_cur 16 msg_dma_100)).ret = -EBUSY ∧
    (intel_mid_ssp_spi_suspend nobody (with_cur 16 msg_dma_100)).sleeps = 25 ∧
    (intel_mid_ssp_spi_suspend (finishes_at 20) (with_cur 16 msg_dma_100)).ret = 0 ∧
    (intel_mid_ssp_spi_suspend (finishes_at 20) (with_cur 16 msg_dma_100)).sleeps = 6 ∧
    (intel_mid_ssp_spi_suspend nobody (idle_ctx 16)).ret = 0 ∧
    (intel_mid_ssp_spi_suspend nobody (idle_ctx 16)).sleeps = 0 :=
  ⟨(C11_suspend_bounded_wait nobody (with_cur 16 msg_dma_100)).2.2.2.2.2.2.2.2.2.2.2.2.mpr
      (by decide),
   by decide,
   (C11_suspend_bounded_wait (finishes_at 20)
      (with_cur 16 msg_dma_100)).2.2.2.2.2.2.2.2.2.2.2.1.mpr ⟨6, by decide, by decide⟩,
   by decide,
   (C11_suspend_bounded_wait nobody (idle_ctx 16)).2.2.2.2.2.2.2.2.2.2.2.1.mpr
      ⟨0, by decide, by decide⟩,
   by decide⟩

end IntelMidSsp
